import Mathlib

/-! GSdx dump writers (`plugins/GSdx/GSDump.cpp`)

A shallow embedding of the three classes of `GSDump.cpp`:

* `GSDumpBase`  : the event framer (`AddHeader`, `Transfer`, `ReadFIFO`, `VSync`),
  written against the two virtual `AppendRawData` overloads;
* `GSDump`      : the direct writer (`fwrite` / `fputc` on the sink);
* `GSDumpXz`    : the buffered compressing writer (`m_in_buff`, `Flush`).

Conventions.

* A byte (`uint8`) is a `Fin 256`.
* A pointer argument (`const void*`, `const uint8*`) is the memory found behind it:
  a function from byte offset to byte.  `readBytes p n` is what `fwrite`/`memcpy`
  read through `p` when asked for `n` bytes.
* `&v` for an integer object `v` is its little-endian object representation.
* `int` counters (`m_frames`, `m_extra_frames`) are mathematical integers: signed
  overflow is undefined in C++ and needs more than `2^31` `VSync` calls.
* `sizeof(GSPrivRegSet)` is declared outside this file; it is the parameter `regSize`.
* Library calls that the C standard leaves undefined (`fwrite`/`fputc` on a null
  `FILE*`) end the run with `Fault.nullFile`.  The `do ... while` loop of `Flush`
  carries a fuel argument and ends with `Fault.loopFuel` when it is used up.
-/

namespace GSdx

/-! ## Bytes and memory -/

/-- A `uint8`. -/
abbrev Byte := Fin 256

/-- Memory behind a pointer: the byte at each offset. -/
abbrev Ptr := Nat → Byte

/-- Conversion of an `int` argument to `uint8` (reduction modulo 256). -/
def toUint8 (n : Int) : Byte := ⟨(n % 256).toNat, by omega⟩

/-- The `n` bytes read through a pointer. -/
def readBytes (p : Ptr) (n : Nat) : List Byte := (List.range n).map p

/-- Byte `i` of the little-endian object representation of the unsigned value `v`. -/
def leByte (v i : Nat) : Byte := ⟨v / 256 ^ i % 256, Nat.mod_lt _ (by decide)⟩

/-- The address of an integer object holding `v` (little-endian machine). -/
def addrOf (v : Nat) : Ptr := fun i => leByte v i

/-- The address of the first element of a byte vector (`&v[0]`); offsets past the
end read as zero and are never used. -/
def dataOf (v : List Byte) : Ptr := fun i => v.getD i 0

/-- The value denoted by a little-endian byte string. -/
def leValue : List Byte → Nat
  | [] => 0
  | b :: bs => b.val + 256 * leValue bs

/-! ## The stdio sink -/

/-- A `FILE` opened for writing: the bytes it has accepted and the number of further
bytes the device will accept (a write beyond it is short). -/
structure FILE where
  bytes : List Byte
  room : Nat
deriving DecidableEq

/-- The call `fopen(fn, "wb")`: `none` is the null pointer returned on failure, `some r` a fresh empty
file whose device accepts `r` bytes. -/
def fopen (outcome : Option Nat) : Option FILE :=
  outcome.map fun r => { bytes := [], room := r }

/-- The call `fwrite(ptr, size, nmemb, f)`: transfers as many of the `size * nmemb` bytes as the
device accepts and returns the number of complete items written. -/
def fwrite (ptr : Ptr) (size nmemb : Nat) (f : FILE) : Nat × FILE :=
  let n := min (size * nmemb) f.room
  (if size = 0 then 0 else n / size,
   { bytes := f.bytes ++ readBytes ptr n, room := f.room - n })

/-- The call `fputc(c, f)`: `none` is `EOF`. -/
def fputc (c : Byte) (f : FILE) : Option Byte × FILE :=
  if f.room = 0 then (none, f)
  else (some c, { bytes := f.bytes ++ [c], room := f.room - 1 })

/-! ## Faults and diagnostics -/

/-- Ways a run leaves the defined behaviour of the program. -/
inductive Fault where
  | nullFile
  | loopFuel
deriving DecidableEq, Repr

/-- Lines printed on `stderr`. -/
inductive Diag where
  | gsdumpWriteFailed
  | xzInitFailed (ret : Nat)
  | xzCodeError (ret : Nat)
  | xzWriteFailed
deriving DecidableEq, Repr

/-! ## GSDumpBase -/

/-- The frozen GS state handed to the constructor (`GSFreezeData`). -/
structure GSFreezeData where
  size : Nat
  data : Ptr

/-- An object of a class derived from `GSDumpBase`: the base members, the members `derived` of the
subclass, and the `stderr` lines printed so far. -/
structure GSDumpBase (δ : Type) where
  m_frames : Int
  m_extra_frames : Int
  m_gs : Option FILE
  derived : δ
  diag : List Diag

/-- The two pure virtual members of `GSDumpBase`. -/
structure VTable (δ : Type) where
  AppendRawData : GSDumpBase δ → Ptr → Nat → Except Fault (GSDumpBase δ)
  AppendRawDataByte : GSDumpBase δ → Byte → Except Fault (GSDumpBase δ)

/-- The constructor `GSDumpBase::GSDumpBase(fn)`; `outcome` is what `fopen` does, `d` the subclass
members before the subclass constructor body runs. -/
def GSDumpBase.ctor {δ : Type} (outcome : Option Nat) (d : δ) : GSDumpBase δ :=
  { m_frames := 0, m_extra_frames := 2, m_gs := fopen outcome, derived := d, diag := [] }

/-- The destructor `GSDumpBase::~GSDumpBase`: the file left behind by `fclose`, if one was open. -/
def GSDumpBase.dtor {δ : Type} (self : GSDumpBase δ) : Option (List Byte) :=
  self.m_gs.map fun f => f.bytes

/-- The member `GSDumpBase::AddHeader`. -/
def GSDumpBase.AddHeader {δ : Type} (vt : VTable δ) (regSize : Nat) (self : GSDumpBase δ)
    (crc : Nat) (fd : GSFreezeData) (regs : Ptr) : Except Fault (GSDumpBase δ) := do
  let self ← vt.AppendRawData self (addrOf crc) 4
  let self ← vt.AppendRawData self (addrOf fd.size) 4
  let self ← vt.AppendRawData self fd.data fd.size
  vt.AppendRawData self regs regSize

/-- The member `GSDumpBase::Transfer`. -/
def GSDumpBase.Transfer {δ : Type} (vt : VTable δ) (self : GSDumpBase δ)
    (index : Int) (mem : Ptr) (size : Nat) : Except Fault (GSDumpBase δ) :=
  if size = 0 then
    pure self
  else do
    let self ← vt.AppendRawDataByte self (toUint8 0)
    let self ← vt.AppendRawDataByte self (toUint8 index)
    let self ← vt.AppendRawData self (addrOf size) 4
    vt.AppendRawData self mem size

/-- The member `GSDumpBase::ReadFIFO`. -/
def GSDumpBase.ReadFIFO {δ : Type} (vt : VTable δ) (self : GSDumpBase δ)
    (size : Nat) : Except Fault (GSDumpBase δ) :=
  if size = 0 then
    pure self
  else do
    let self ← vt.AppendRawDataByte self (toUint8 2)
    vt.AppendRawData self (addrOf size) 4

/-- The member `GSDumpBase::VSync`. -/
def GSDumpBase.VSync {δ : Type} (vt : VTable δ) (regSize : Nat) (self : GSDumpBase δ)
    (field : Int) (last : Bool) (regs : Ptr) : Except Fault (GSDumpBase δ × Bool) := do
  let self ← vt.AppendRawDataByte self (toUint8 3)
  let self ← vt.AppendRawData self regs regSize
  let self ← vt.AppendRawDataByte self (toUint8 1)
  let self ← vt.AppendRawDataByte self (toUint8 field)
  let self := if last then { self with m_extra_frames := self.m_extra_frames - 1 } else self
  let self := { self with m_frames := self.m_frames + 1 }
  pure (self, decide (self.m_frames % 2 = 0) && last && decide (self.m_extra_frames < 0))

/-! ## GSDump: the direct writer -/

/-- A `GSDump` object: no members beyond the base ones. -/
abbrev GSDump := GSDumpBase Unit

/-- The member `GSDump::AppendRawData(const void*, size_t)`. -/
def GSDump.AppendRawData (self : GSDump) (data : Ptr) (size : Nat) : Except Fault GSDump :=
  match self.m_gs with
  | none => throw Fault.nullFile
  | some f =>
    let (written, f) := fwrite data size 1 f
    let self := { self with m_gs := some f }
    if written ≠ size then
      pure { self with diag := self.diag ++ [Diag.gsdumpWriteFailed] }
    else
      pure self

/-- The member `GSDump::AppendRawData(uint8)`. -/
def GSDump.AppendRawDataByte (self : GSDump) (c : Byte) : Except Fault GSDump :=
  match self.m_gs with
  | none => throw Fault.nullFile
  | some f =>
    let (r, f) := fputc c f
    let self := { self with m_gs := some f }
    if r = none then
      pure { self with diag := self.diag ++ [Diag.gsdumpWriteFailed] }
    else
      pure self

/-- The virtual table of `GSDump`. -/
def GSDump.vtable : VTable Unit :=
  { AppendRawData := GSDump.AppendRawData, AppendRawDataByte := GSDump.AppendRawDataByte }

/-- The constructor `GSDump::GSDump(fn, crc, fd, regs)`. -/
def GSDump.ctor (regSize : Nat) (outcome : Option Nat) (crc : Nat) (fd : GSFreezeData)
    (regs : Ptr) : Except Fault GSDump :=
  GSDumpBase.AddHeader GSDump.vtable regSize (GSDumpBase.ctor outcome ()) crc fd regs

/-! ## GSDumpXz: the buffered compressing writer -/

/-- Return codes of liblzma: the two that `Flush` accepts, and every other one by number. -/
inductive lzma_ret where
  | LZMA_OK
  | LZMA_STREAM_END
  | other (code : Nat)
deriving DecidableEq, Repr

/-- The two actions `Flush` passes to `lzma_code`. -/
inductive lzma_action where
  | LZMA_RUN
  | LZMA_FINISH
deriving DecidableEq, Repr

/-- The numeric value of a return code as printed in diagnostics. -/
def lzma_ret.toNat : lzma_ret → Nat
  | .LZMA_OK => 0
  | .LZMA_STREAM_END => 1
  | .other c => c

/-- What one `lzma_code` call does: the new encoder state, how many input bytes it
consumed, the bytes it stored at `next_out`, and its return code. -/
structure CodeResult (κ : Type) where
  internal : κ
  consumed : Nat
  produced : List Byte
  ret : lzma_ret

/-- The part of liblzma the writer calls, over encoder states `κ`: `lzma_easy_encoder` takes
the stream state and the preset (the check argument is always `LZMA_CHECK_CRC64`), `lzma_code`
the encoder state, the `avail_in` bytes at `next_in`, the action and `avail_out`.  The encoder
never stores more than `avail_out` bytes. -/
structure LzmaLib (κ : Type) where
  LZMA_STREAM_INIT : κ
  lzma_easy_encoder : κ → Nat → κ × lzma_ret
  lzma_code : κ → List Byte → lzma_action → Nat → CodeResult κ
  lzma_end : κ → κ
  produced_le : ∀ k i a n, (lzma_code k i a n).produced.length ≤ n

/-- The fields of `lzma_stream` the writer touches: the `avail_in` bytes at `next_in`,
`avail_out`, and the encoder state. -/
structure lzma_stream (κ : Type) where
  next_in : List Byte
  avail_out : Nat
  internal : κ

/-- Ghost record of the encoder calls an object has made. -/
inductive LzmaEvent where
  | easy_encoder (ret : lzma_ret)
  | feed (action : lzma_action) (input : List Byte)
  | code (action : lzma_action) (ret : lzma_ret) (produced : List Byte)
  | lzma_end
deriving DecidableEq, Repr

/-- The members of `GSDumpXz`, and the ghost record `log`. -/
structure XzFields (κ : Type) where
  m_in_buff : List Byte
  m_strm : lzma_stream κ
  log : List LzmaEvent

/-- A `GSDumpXz` object. -/
abbrev GSDumpXz (κ : Type) := GSDumpBase (XzFields κ)

/-- The size of `out_buff` in `Flush`. -/
def OUT_BUFF_SIZE : Nat := 1024 * 1024

/-- The buffer size above which `AppendRawData` flushes. -/
def IN_BUFF_LIMIT : Nat := 1024 * 1024 * 1024

/-- The call `lzma_code(&m_strm, action)` with `next_out`/`avail_out` set to the whole of
`out_buff`: the stream members are updated and the call is recorded.  Returns the object and
the bytes now at the start of `out_buff`. -/
def GSDumpXz.callCode {κ : Type} (lz : LzmaLib κ) (action : lzma_action) (self : GSDumpXz κ) :
    GSDumpXz κ × lzma_ret × List Byte :=
  let old := self.derived.m_strm
  let r := lz.lzma_code old.internal old.next_in action OUT_BUFF_SIZE
  let strm : lzma_stream κ :=
    { next_in := old.next_in.drop r.consumed
      avail_out := OUT_BUFF_SIZE - r.produced.length
      internal := r.internal }
  ({ self with derived := { self.derived with
      m_strm := strm
      log := self.derived.log ++ [LzmaEvent.code action r.ret r.produced] } },
   r.ret, r.produced)

/-- The test of the return code in the loop of `Flush`: any code but `LZMA_OK` and
`LZMA_STREAM_END` is reported and clears `m_in_buff`. -/
def GSDumpXz.checkRet {κ : Type} (self : GSDumpXz κ) (ret : lzma_ret) : GSDumpXz κ :=
  if ret ≠ lzma_ret.LZMA_OK ∧ ret ≠ lzma_ret.LZMA_STREAM_END then
    { self with
        diag := self.diag ++ [Diag.xzCodeError ret.toNat]
        derived := { self.derived with m_in_buff := [] } }
  else self

/-- The write of the first `write_size` bytes of `out_buff` in the loop of `Flush`. -/
def GSDumpXz.writeOut {κ : Type} (self : GSDumpXz κ) (out_buff : List Byte)
    (write_size : Nat) : Except Fault (GSDumpXz κ) :=
  if write_size ≠ 0 then
    match self.m_gs with
    | none => throw Fault.nullFile
    | some f =>
      let (written, f) := fwrite (dataOf out_buff) write_size 1 f
      let self := { self with m_gs := some f }
      if written ≠ write_size then
        pure { self with diag := self.diag ++ [Diag.xzWriteFailed] }
      else
        pure self
  else pure self

/-- One pass through the body of the `do ... while` loop of `GSDumpXz::Flush`. -/
def GSDumpXz.flushBody {κ : Type} (lz : LzmaLib κ) (action : lzma_action)
    (self : GSDumpXz κ) : Except Fault (GSDumpXz κ) :=
  let called := GSDumpXz.callCode lz action self
  let out_buff := called.2.2
  let self := GSDumpXz.checkRet called.1 called.2.1
  let write_size := OUT_BUFF_SIZE - self.derived.m_strm.avail_out
  GSDumpXz.writeOut self out_buff write_size

/-- The `do ... while (m_strm.avail_out == 0)` loop of `GSDumpXz::Flush`. -/
def GSDumpXz.flushLoop {κ : Type} (lz : LzmaLib κ) (action : lzma_action) :
    Nat → GSDumpXz κ → Except Fault (GSDumpXz κ)
  | 0, _ => throw Fault.loopFuel
  | fuel + 1, self => do
    let self ← GSDumpXz.flushBody lz action self
    if self.derived.m_strm.avail_out = 0 then
      GSDumpXz.flushLoop lz action fuel self
    else
      pure self

/-- The member `GSDumpXz::Flush(close)`. -/
def GSDumpXz.Flush {κ : Type} (lz : LzmaLib κ) (fuel : Nat) (self : GSDumpXz κ)
    (close : Bool) : Except Fault (GSDumpXz κ) :=
  if self.m_gs.isNone ∨ self.derived.m_in_buff.isEmpty then
    pure { self with derived := { self.derived with m_in_buff := [] } }
  else do
    let action := if close then lzma_action.LZMA_FINISH else lzma_action.LZMA_RUN
    let self : GSDumpXz κ :=
      { self with derived := { self.derived with
          m_strm := { self.derived.m_strm with next_in := self.derived.m_in_buff }
          log := self.derived.log ++ [LzmaEvent.feed action self.derived.m_in_buff] } }
    let self ← GSDumpXz.flushLoop lz action fuel self
    let self : GSDumpXz κ := { self with derived := { self.derived with m_in_buff := [] } }
    if close then
      pure { self with derived := { self.derived with
          m_strm := { self.derived.m_strm with internal := lz.lzma_end self.derived.m_strm.internal }
          log := self.derived.log ++ [LzmaEvent.lzma_end] } }
    else
      pure self

/-- The member `GSDumpXz::AppendRawData(const void*, size_t)`. -/
def GSDumpXz.AppendRawData {κ : Type} (lz : LzmaLib κ) (fuel : Nat) (self : GSDumpXz κ)
    (data : Ptr) (size : Nat) : Except Fault (GSDumpXz κ) :=
  let self : GSDumpXz κ :=
    { self with derived := { self.derived with
        m_in_buff := self.derived.m_in_buff ++ readBytes data size } }
  if self.derived.m_in_buff.length > IN_BUFF_LIMIT then
    GSDumpXz.Flush lz fuel self false
  else
    pure self

/-- The member `GSDumpXz::AppendRawData(uint8)`. -/
def GSDumpXz.AppendRawDataByte {κ : Type} (self : GSDumpXz κ) (c : Byte) :
    Except Fault (GSDumpXz κ) :=
  pure { self with derived := { self.derived with m_in_buff := self.derived.m_in_buff ++ [c] } }

/-- The virtual table of `GSDumpXz`. -/
def GSDumpXz.vtable {κ : Type} (lz : LzmaLib κ) (fuel : Nat) : VTable (XzFields κ) :=
  { AppendRawData := GSDumpXz.AppendRawData lz fuel
    AppendRawDataByte := GSDumpXz.AppendRawDataByte }

/-- The constructor `GSDumpXz::GSDumpXz(fn, crc, fd, regs)`. -/
def GSDumpXz.ctor {κ : Type} (lz : LzmaLib κ) (fuel : Nat) (regSize : Nat)
    (outcome : Option Nat) (crc : Nat) (fd : GSFreezeData) (regs : Ptr) :
    Except Fault (GSDumpXz κ) :=
  let enc := lz.lzma_easy_encoder lz.LZMA_STREAM_INIT 6
  let self : GSDumpXz κ := GSDumpBase.ctor outcome
    { m_in_buff := []
      m_strm := { next_in := [], avail_out := 0, internal := enc.1 }
      log := [LzmaEvent.easy_encoder enc.2] }
  if enc.2 ≠ lzma_ret.LZMA_OK then
    pure { self with diag := self.diag ++ [Diag.xzInitFailed enc.2.toNat] }
  else
    GSDumpBase.AddHeader (GSDumpXz.vtable lz fuel) regSize self crc fd regs

/-- The destructor `GSDumpXz::~GSDumpXz` (the base destructor runs after it). -/
def GSDumpXz.dtor {κ : Type} (lz : LzmaLib κ) (fuel : Nat) (self : GSDumpXz κ) :
    Except Fault (GSDumpXz κ) :=
  GSDumpXz.Flush lz fuel self true

/-! ## Call sequences -/

/-- A call made by the emulator on a dump object. -/
inductive Event where
  | transfer (index : Int) (mem : Ptr) (size : Nat)
  | readFIFO (size : Nat)
  | vsync (field : Int) (last : Bool) (regs : Ptr)

/-- Performs one call; the result of `VSync` is dropped. -/
def GSDumpBase.step {δ : Type} (vt : VTable δ) (regSize : Nat) (self : GSDumpBase δ) :
    Event → Except Fault (GSDumpBase δ)
  | .transfer index mem size => GSDumpBase.Transfer vt self index mem size
  | .readFIFO size => GSDumpBase.ReadFIFO vt self size
  | .vsync field last regs => (GSDumpBase.VSync vt regSize self field last regs).map Prod.fst

/-- Performs a sequence of calls in order. -/
def GSDumpBase.run {δ : Type} (vt : VTable δ) (regSize : Nat) :
    GSDumpBase δ → List Event → Except Fault (GSDumpBase δ)
  | self, [] => pure self
  | self, e :: es => do
    let self ← GSDumpBase.step vt regSize self e
    GSDumpBase.run vt regSize self es

/-! ## Vocabulary for stating results -/

/-- The four bytes `fwrite` reads through `&v` when asked for 4: `v mod 2^32`, little-endian. -/
def le32 (v : Nat) : List Byte := [leByte v 0, leByte v 1, leByte v 2, leByte v 3]

/-- The bytes `AddHeader` passes to `AppendRawData`, in call order. -/
def headerOf (regSize : Nat) (crc : Nat) (fd : GSFreezeData) (regs : Ptr) : List Byte :=
  le32 crc ++ le32 fd.size ++ readBytes fd.data fd.size ++ readBytes regs regSize

/-- The bytes one call passes to `AppendRawData`, in call order. -/
def frameOf (regSize : Nat) : Event → List Byte
  | .transfer index mem size =>
    if size = 0 then [] else [0, toUint8 index] ++ le32 size ++ readBytes mem size
  | .readFIFO size => if size = 0 then [] else 2 :: le32 size
  | .vsync field _ regs => 3 :: readBytes regs regSize ++ [1, toUint8 field]

/-- The frames of a call sequence, concatenated. -/
def framesOf (regSize : Nat) : List Event → List Byte
  | [] => []
  | e :: es => frameOf regSize e ++ framesOf regSize es

/-- Whether a call is a `Transfer` or `ReadFIFO` of length zero. -/
def Event.isZeroLength : Event → Bool
  | .transfer _ _ size => decide (size = 0)
  | .readFIFO size => decide (size = 0)
  | .vsync _ _ _ => false

/-- Number of `VSync` calls in a sequence. -/
def countVSync : List Event → Nat
  | [] => 0
  | .vsync _ _ _ :: es => countVSync es + 1
  | _ :: es => countVSync es

/-- Number of `VSync` calls with `last = true` in a sequence. -/
def countLastField : List Event → Nat
  | [] => 0
  | .vsync _ true _ :: es => countLastField es + 1
  | _ :: es => countLastField es

/-- Performs the `VSync` calls of `args` (field and register pointer of each), all with
`last = true`, and collects their results in call order. -/
def GSDumpBase.vsyncLast {δ : Type} (vt : VTable δ) (regSize : Nat) :
    GSDumpBase δ → List (Int × Ptr) → Except Fault (GSDumpBase δ × List Bool)
  | self, [] => pure (self, [])
  | self, a :: as => do
    let (self, r) ← GSDumpBase.VSync vt regSize self a.1 true a.2
    let (self, rs) ← GSDumpBase.vsyncLast vt regSize self as
    pure (self, r :: rs)

/-- What a sink holds after being asked to take `b`: the part of `b` the device accepts. -/
def FILE.put (f : FILE) (b : List Byte) : FILE :=
  { bytes := f.bytes ++ b.take f.room, room := f.room - b.length }

/-- The input blocks handed to the encoder (one per `Flush` that reaches it), concatenated in
call order. -/
def fedBytes : List LzmaEvent → List Byte
  | [] => []
  | .feed _ input :: es => input ++ fedBytes es
  | _ :: es => fedBytes es

/-- The bytes the encoder produced over its `lzma_code` calls, concatenated in call order. -/
def producedBytes : List LzmaEvent → List Byte
  | [] => []
  | .code _ _ produced :: es => produced ++ producedBytes es
  | _ :: es => producedBytes es

/-- Number of `lzma_end` calls recorded. -/
def countEnd : List LzmaEvent → Nat
  | [] => 0
  | .lzma_end :: es => countEnd es + 1
  | _ :: es => countEnd es

/-- Number of `lzma_code` calls made with `LZMA_FINISH`. -/
def countFinish : List LzmaEvent → Nat
  | [] => 0
  | .code .LZMA_FINISH _ _ :: es => countFinish es + 1
  | _ :: es => countFinish es

/-- An encoder that accepts all its input at once and emits nothing; used for concrete runs. -/
def nullLz : LzmaLib Unit :=
  { LZMA_STREAM_INIT := ()
    lzma_easy_encoder := fun _ _ => ((), lzma_ret.LZMA_OK)
    lzma_code := fun _ i _ _ =>
      { internal := (), consumed := i.length, produced := [], ret := lzma_ret.LZMA_OK }
    lzma_end := fun _ => ()
    produced_le := fun _ _ _ _ => Nat.zero_le _ }

/-- Memory holding the same byte at every offset. -/
def constMem (b : Byte) : Ptr := fun _ => b

/-! ## Whole sessions -/

/-- The life of a `GSDump` object up to its destruction: construction, then the calls `evs`. -/
def GSDump.session (regSize : Nat) (outcome : Option Nat) (crc : Nat) (fd : GSFreezeData)
    (regs : Ptr) (evs : List Event) : Except Fault GSDump := do
  let self ← GSDump.ctor regSize outcome crc fd regs
  GSDumpBase.run GSDump.vtable regSize self evs

/-- The file a run of the direct writer leaves behind, when it ran to its end with a sink. -/
def GSDump.fileOf (r : Except Fault GSDump) : Option (List Byte) :=
  match r with
  | .ok s => s.dtor
  | .error _ => none

/-- The life of a `GSDumpXz` object: construction, the calls `evs`, then the destructor body. -/
def GSDumpXz.session {κ : Type} (lz : LzmaLib κ) (fuel : Nat) (regSize : Nat)
    (outcome : Option Nat) (crc : Nat) (fd : GSFreezeData) (regs : Ptr) (evs : List Event) :
    Except Fault (GSDumpXz κ) := do
  let self ← GSDumpXz.ctor lz fuel regSize outcome crc fd regs
  let self ← GSDumpBase.run (GSDumpXz.vtable lz fuel) regSize self evs
  GSDumpXz.dtor lz fuel self

/-! ## Frames as the specification words them -/

/-- The `Transfer` frame with the channel index as four bytes: tag 0, 4-byte index, 4-byte
length, data. -/
def specTransferFrame (index : Int) (mem : Ptr) (size : Nat) : List Byte :=
  [0] ++ le32 (index % 2 ^ 32).toNat ++ le32 size ++ readBytes mem size

/-- The `VSync` frame with the field as four bytes: tag 3, register snapshot, tag 1, 4-byte
field. -/
def specVSyncFrame (regSize : Nat) (field : Int) (regs : Ptr) : List Byte :=
  [3] ++ readBytes regs regSize ++ [1] ++ le32 (field % 2 ^ 32).toNat

/-- A short call sequence used for concrete runs: a two-byte `Transfer`, a `ReadFIFO`, a
zero-length `Transfer`, a last-field `VSync` and a non-last `VSync`. -/
def sampleCalls : List Event :=
  [.transfer 1 (constMem 7) 2, .readFIFO 3, .transfer 0 (constMem 0) 0,
   .vsync 1 true (constMem 8), .vsync 0 false (constMem 8)]

/-! ## Raw append sequences and encoder calls -/

/-- A call of one of the two `AppendRawData` overloads. -/
inductive RawAppend where
  | block (data : Ptr) (size : Nat)
  | byte (c : Byte)

/-- Performs one append through the virtual table. -/
def VTable.append {δ : Type} (vt : VTable δ) (self : GSDumpBase δ) :
    RawAppend → Except Fault (GSDumpBase δ)
  | .block data size => vt.AppendRawData self data size
  | .byte c => vt.AppendRawDataByte self c

/-- Performs a sequence of appends in order. -/
def VTable.appendAll {δ : Type} (vt : VTable δ) :
    GSDumpBase δ → List RawAppend → Except Fault (GSDumpBase δ)
  | self, [] => pure self
  | self, a :: as => do
    let self ← vt.append self a
    vt.appendAll self as

/-- The bytes one append passes. -/
def RawAppend.bytes : RawAppend → List Byte
  | .block data size => readBytes data size
  | .byte c => [c]

/-- The bytes a sequence of appends passes, in call order. -/
def rawBytes : List RawAppend → List Byte
  | [] => []
  | a :: as => a.bytes ++ rawBytes as

/-- Number of non-final drains that reached the encoder: input blocks handed over with
`LZMA_RUN`. -/
def countDrains : List LzmaEvent → Nat
  | [] => 0
  | .feed .LZMA_RUN _ :: es => countDrains es + 1
  | _ :: es => countDrains es

/-- Number of `lzma_code` calls recorded. -/
def countCode : List LzmaEvent → Nat
  | [] => 0
  | .code _ _ _ :: es => countCode es + 1
  | _ :: es => countCode es

/-- An encoder whose initialisation fails (code 5, `LZMA_MEM_ERROR`) and whose `lzma_code`
then rejects every call (code 11, `LZMA_PROG_ERROR`) without consuming or storing anything;
used for concrete runs. -/
def failLz : LzmaLib Unit :=
  { LZMA_STREAM_INIT := ()
    lzma_easy_encoder := fun _ _ => ((), lzma_ret.other 5)
    lzma_code := fun _ _ _ _ =>
      { internal := (), consumed := 0, produced := [], ret := lzma_ret.other 11 }
    lzma_end := fun _ => ()
    produced_le := fun _ _ _ _ => Nat.zero_le _ }

/-- The successive `lzma_code` calls of one run of the loop of `Flush`, as a list: starting from
encoder state `k` with input `i`, the call on a whole `out_buff`, followed, when that call
filled `out_buff` completely, by the calls from the state and input it left; at most `fuel`
calls. -/
def codeChain {κ : Type} (lz : LzmaLib κ) (action : lzma_action) :
    Nat → κ → List Byte → List (CodeResult κ)
  | 0, _, _ => []
  | fuel + 1, k, i =>
    let r := lz.lzma_code k i action OUT_BUFF_SIZE
    r :: (if r.produced.length = OUT_BUFF_SIZE then
      codeChain lz action fuel r.internal (i.drop r.consumed) else [])

/-- The record of a `lzma_code` call. -/
def CodeResult.event {κ : Type} (action : lzma_action) (r : CodeResult κ) : LzmaEvent :=
  LzmaEvent.code action r.ret r.produced

/-- The bytes a list of `lzma_code` calls stored, in call order. -/
def chainOutput {κ : Type} : List (CodeResult κ) → List Byte
  | [] => []
  | r :: rs => r.produced ++ chainOutput rs

/-! ## A stand-in codec -/

/-- The byte the stand-in encoder puts at the end of a finished stream. -/
def END_MARK : Byte := 255

/-- A stand-in for the xz encoder that never fails: its state is the bytes it still holds and
whether the end mark has been queued.  Every call takes all the input offered.  With `LZMA_RUN`
it holds the bytes back and stores nothing; with `LZMA_FINISH` it queues the end mark once and
stores as much of what it holds as `avail_out` allows, returning `LZMA_STREAM_END` when nothing
is left. -/
def holdLz : LzmaLib (List Byte × Bool) :=
  { LZMA_STREAM_INIT := ([], false)
    lzma_easy_encoder := fun k _ => (k, lzma_ret.LZMA_OK)
    lzma_code := fun k i a n =>
      match a with
      | .LZMA_RUN =>
        { internal := (k.1 ++ i, k.2), consumed := i.length, produced := []
          ret := lzma_ret.LZMA_OK }
      | .LZMA_FINISH =>
        let q := if k.2 then k.1 ++ i else k.1 ++ i ++ [END_MARK]
        { internal := (q.drop n, true), consumed := i.length, produced := q.take n
          ret := if q.length ≤ n then lzma_ret.LZMA_STREAM_END else lzma_ret.LZMA_OK }
    lzma_end := fun k => k
    produced_le := fun k i a n => by
      cases a
      · exact Nat.zero_le _
      · exact List.length_take_le _ _ }

/-- The decoder of the stand-in codec: a file is a finished stream when it ends with the end
mark, and then holds the bytes before it; any other file is rejected. -/
def holdDecode (file : List Byte) : Option (List Byte) :=
  match file.getLast? with
  | some m => if m = END_MARK then some file.dropLast else none
  | none => none

/-- The compressed file a run of the compressing writer leaves behind, decoded by the stand-in
decoder; `none` when the run did not end, no file was open, or the file is not a finished
stream. -/
def GSDumpXz.decodedFile (r : Except Fault (GSDumpXz (List Byte × Bool))) :
    Option (List Byte) :=
  match r with
  | .ok s => (GSDumpBase.dtor s).bind holdDecode
  | .error _ => none

/-! ## Laws a writer obeys -/

/-- The object with its two counters replaced. -/
def GSDumpBase.withCounters {δ : Type} (self : GSDumpBase δ) (frames extra : Int) :
    GSDumpBase δ :=
  { self with m_frames := frames, m_extra_frames := extra }

/-- A writer `vt` emits bytes in the sense of `R` on objects satisfying `P`: each append that
returns keeps `P`, leaves the counters alone, and extends the stream by the bytes appended. -/
structure Emits {δ : Type} (vt : VTable δ) (P : GSDumpBase δ → Prop)
    (R : GSDumpBase δ → List Byte → GSDumpBase δ → Prop) : Prop where
  nil : ∀ s, P s → R s [] s
  trans : ∀ s a s1 b s2, R s a s1 → R s1 b s2 → R s (a ++ b) s2
  bumpP : ∀ s m e, P s → P (s.withCounters m e)
  bumpR : ∀ s a s1 m e, R s a s1 → R s a (s1.withCounters m e)
  block : ∀ s p n s1, P s → vt.AppendRawData s p n = .ok s1 →
    P s1 ∧ R s (readBytes p n) s1 ∧ s1.m_frames = s.m_frames ∧
      s1.m_extra_frames = s.m_extra_frames
  byte : ∀ s c s1, P s → vt.AppendRawDataByte s c = .ok s1 →
    P s1 ∧ R s [c] s1 ∧ s1.m_frames = s.m_frames ∧ s1.m_extra_frames = s.m_extra_frames

/-- Both appends of `vt` return on every object satisfying `P`, and keep `P`. -/
structure Returns {δ : Type} (vt : VTable δ) (P : GSDumpBase δ → Prop) : Prop where
  block : ∀ s p n, P s → ∃ s1, vt.AppendRawData s p n = .ok s1 ∧ P s1
  byte : ∀ s c, P s → ∃ s1, vt.AppendRawDataByte s c = .ok s1 ∧ P s1
  bumpP : ∀ s m e, P s → P (s.withCounters m e)

/-- The sink of a direct writer is open. -/
def GSDump.Open (s : GSDump) : Prop := s.m_gs.isSome = true

/-- The sink of the direct writer `s1` is that of `s` after taking `b`. -/
def GSDump.Wrote (s : GSDump) (b : List Byte) (s1 : GSDump) : Prop :=
  ∀ f, s.m_gs = some f → s1.m_gs = some (f.put b)

/-- The sink of a compressing writer is open. -/
def GSDumpXz.Open {κ : Type} (s : GSDumpXz κ) : Prop := s.m_gs.isSome = true

/-- The raw stream of a compressing writer: what it has handed to the encoder so far,
followed by what it still buffers. -/
def GSDumpXz.stream {κ : Type} (s : GSDumpXz κ) : List Byte :=
  fedBytes s.derived.log ++ s.derived.m_in_buff

/-- The raw stream of `s1` is that of `s` followed by `b`. -/
def GSDumpXz.Buffered {κ : Type} (s : GSDumpXz κ) (b : List Byte) (s1 : GSDumpXz κ) : Prop :=
  GSDumpXz.stream s1 = GSDumpXz.stream s ++ b

/-! ## Basic facts -/

theorem bind_ok_iff {ε α β : Type} (x : Except ε α) (f : α → Except ε β) (b : β) :
    (x >>= f) = Except.ok b ↔ ∃ a, x = Except.ok a ∧ f a = Except.ok b := by
  cases x with
  | error e => simp [bind, Except.bind]
  | ok a => simp [bind, Except.bind]

theorem readBytes_length (p : Ptr) (n : Nat) : (readBytes p n).length = n := by
  simp [readBytes]

theorem readBytes_addrOf (v : Nat) : readBytes (addrOf v) 4 = le32 v := by
  simp [readBytes, le32, addrOf, List.range_succ]

theorem le32_length (v : Nat) : (le32 v).length = 4 := rfl

theorem leValue_le32 (v : Nat) : leValue (le32 v) = v % 2 ^ 32 := by
  simp only [le32, leValue, leByte]
  omega

theorem readBytes_dataOf (l : List Byte) : readBytes (dataOf l) l.length = l := by
  apply List.ext_getElem
  · simp [readBytes]
  · intro i h1 h2
    simp [readBytes, dataOf, List.getD_eq_getElem?_getD, h2]

theorem FILE.put_nil (f : FILE) : f.put [] = f := by
  simp [FILE.put]

theorem FILE.put_put (f : FILE) (a b : List Byte) : (f.put a).put b = f.put (a ++ b) := by
  simp [FILE.put, List.take_append_eq_append_take, Nat.sub_sub]

theorem FILE.put_of_le (f : FILE) (b : List Byte) (h : b.length ≤ f.room) :
    f.put b = { bytes := f.bytes ++ b, room := f.room - b.length } := by
  simp [FILE.put, List.take_of_length_le h]

/-! ## The framer over any writer -/

theorem Transfer_emits {δ : Type} {vt : VTable δ} {P : GSDumpBase δ → Prop}
    {R : GSDumpBase δ → List Byte → GSDumpBase δ → Prop} (E : Emits vt P R)
    (regSize : Nat) (s s1 : GSDumpBase δ) (index : Int) (mem : Ptr) (size : Nat)
    (hP : P s) (h : GSDumpBase.Transfer vt s index mem size = .ok s1) :
    P s1 ∧ R s (frameOf regSize (.transfer index mem size)) s1 ∧
      s1.m_frames = s.m_frames ∧ s1.m_extra_frames = s.m_extra_frames := by
  unfold GSDumpBase.Transfer at h
  by_cases hz : size = 0
  · simp only [hz, if_true, pure, Except.pure, Except.ok.injEq] at h
    subst h
    refine ⟨hP, ?_, rfl, rfl⟩
    simp only [frameOf, hz, if_true]
    exact E.nil _ hP
  · simp only [hz, if_false] at h
    obtain ⟨a, ha, h⟩ := (bind_ok_iff _ _ _).1 h
    obtain ⟨b, hb, h⟩ := (bind_ok_iff _ _ _).1 h
    obtain ⟨c, hc, h⟩ := (bind_ok_iff _ _ _).1 h
    obtain ⟨pa, ra, fa, ea⟩ := E.byte _ _ _ hP ha
    obtain ⟨pb, rb, fb, eb⟩ := E.byte _ _ _ pa hb
    obtain ⟨pc, rc, fc, ec⟩ := E.block _ _ _ _ pb hc
    obtain ⟨pd, rd, fd, ed⟩ := E.block _ _ _ _ pc h
    refine ⟨pd, ?_, by omega, by omega⟩
    have h3 := E.trans _ _ _ _ _ (E.trans _ _ _ _ _ (E.trans _ _ _ _ _ ra rb) rc) rd
    simpa [frameOf, hz, readBytes_addrOf, toUint8] using h3

theorem ReadFIFO_emits {δ : Type} {vt : VTable δ} {P : GSDumpBase δ → Prop}
    {R : GSDumpBase δ → List Byte → GSDumpBase δ → Prop} (E : Emits vt P R)
    (regSize : Nat) (s s1 : GSDumpBase δ) (size : Nat)
    (hP : P s) (h : GSDumpBase.ReadFIFO vt s size = .ok s1) :
    P s1 ∧ R s (frameOf regSize (.readFIFO size)) s1 ∧
      s1.m_frames = s.m_frames ∧ s1.m_extra_frames = s.m_extra_frames := by
  unfold GSDumpBase.ReadFIFO at h
  by_cases hz : size = 0
  · simp only [hz, if_true, pure, Except.pure, Except.ok.injEq] at h
    subst h
    refine ⟨hP, ?_, rfl, rfl⟩
    simp only [frameOf, hz, if_true]
    exact E.nil _ hP
  · simp only [hz, if_false] at h
    obtain ⟨a, ha, h⟩ := (bind_ok_iff _ _ _).1 h
    obtain ⟨pa, ra, fa, ea⟩ := E.byte _ _ _ hP ha
    obtain ⟨pb, rb, fb, eb⟩ := E.block _ _ _ _ pa h
    refine ⟨pb, ?_, by omega, by omega⟩
    have h3 := E.trans _ _ _ _ _ ra rb
    simpa [frameOf, hz, readBytes_addrOf, toUint8] using h3

theorem AddHeader_emits {δ : Type} {vt : VTable δ} {P : GSDumpBase δ → Prop}
    {R : GSDumpBase δ → List Byte → GSDumpBase δ → Prop} (E : Emits vt P R)
    (regSize : Nat) (s s1 : GSDumpBase δ) (crc : Nat) (fd : GSFreezeData) (regs : Ptr)
    (hP : P s) (h : GSDumpBase.AddHeader vt regSize s crc fd regs = .ok s1) :
    P s1 ∧ R s (headerOf regSize crc fd regs) s1 ∧
      s1.m_frames = s.m_frames ∧ s1.m_extra_frames = s.m_extra_frames := by
  unfold GSDumpBase.AddHeader at h
  obtain ⟨a, ha, h⟩ := (bind_ok_iff _ _ _).1 h
  obtain ⟨b, hb, h⟩ := (bind_ok_iff _ _ _).1 h
  obtain ⟨c, hc, h⟩ := (bind_ok_iff _ _ _).1 h
  obtain ⟨pa, ra, fa, ea⟩ := E.block _ _ _ _ hP ha
  obtain ⟨pb, rb, fb, eb⟩ := E.block _ _ _ _ pa hb
  obtain ⟨pc, rc, fc, ec⟩ := E.block _ _ _ _ pb hc
  obtain ⟨pd, rd, fd, ed⟩ := E.block _ _ _ _ pc h
  refine ⟨pd, ?_, by omega, by omega⟩
  have h3 := E.trans _ _ _ _ _ (E.trans _ _ _ _ _ (E.trans _ _ _ _ _ ra rb) rc) rd
  simpa [headerOf, readBytes_addrOf] using h3

theorem VSync_emits {δ : Type} {vt : VTable δ} {P : GSDumpBase δ → Prop}
    {R : GSDumpBase δ → List Byte → GSDumpBase δ → Prop} (E : Emits vt P R)
    (regSize : Nat) (s s1 : GSDumpBase δ) (field : Int) (last : Bool) (regs : Ptr) (r : Bool)
    (hP : P s) (h : GSDumpBase.VSync vt regSize s field last regs = .ok (s1, r)) :
    P s1 ∧ R s (frameOf regSize (.vsync field last regs)) s1 ∧
      s1.m_frames = s.m_frames + 1 ∧
      s1.m_extra_frames = s.m_extra_frames - (if last then 1 else 0) ∧
      r = (decide (s1.m_frames % 2 = 0) && last && decide (s1.m_extra_frames < 0)) := by
  unfold GSDumpBase.VSync at h
  obtain ⟨a, ha, h⟩ := (bind_ok_iff _ _ _).1 h
  obtain ⟨b, hb, h⟩ := (bind_ok_iff _ _ _).1 h
  obtain ⟨c, hc, h⟩ := (bind_ok_iff _ _ _).1 h
  obtain ⟨d, hd, h⟩ := (bind_ok_iff _ _ _).1 h
  obtain ⟨pa, ra, fa, ea⟩ := E.byte _ _ _ hP ha
  obtain ⟨pb, rb, fb, eb⟩ := E.block _ _ _ _ pa hb
  obtain ⟨pc, rc, fc, ec⟩ := E.byte _ _ _ pb hc
  obtain ⟨pd, rd, fd, ed⟩ := E.byte _ _ _ pc hd
  have h3 := E.trans _ _ _ _ _ (E.trans _ _ _ _ _ (E.trans _ _ _ _ _ ra rb) rc) rd
  simp only [pure, Except.pure, Except.ok.injEq, Prod.mk.injEq] at h
  obtain ⟨h1, h2⟩ := h
  have hs : s1 = d.withCounters (d.m_frames + 1)
      (d.m_extra_frames - (if last then 1 else 0)) := by
    rw [← h1]
    cases last <;> simp [GSDumpBase.withCounters]
  refine ⟨?_, ?_, ?_, ?_, ?_⟩
  · rw [hs]; exact E.bumpP _ _ _ pd
  · rw [hs]
    have h4 := E.bumpR _ _ _ (d.m_frames + 1) (d.m_extra_frames - (if last then 1 else 0)) h3
    simpa [frameOf, toUint8] using h4
  · rw [hs]; simp only [GSDumpBase.withCounters]; omega
  · rw [hs]; simp only [GSDumpBase.withCounters]; omega
  · rw [← h2, ← h1]

theorem step_emits {δ : Type} {vt : VTable δ} {P : GSDumpBase δ → Prop}
    {R : GSDumpBase δ → List Byte → GSDumpBase δ → Prop} (E : Emits vt P R)
    (regSize : Nat) (s s1 : GSDumpBase δ) (e : Event)
    (hP : P s) (h : GSDumpBase.step vt regSize s e = .ok s1) :
    P s1 ∧ R s (frameOf regSize e) s1 ∧
      s1.m_frames = s.m_frames + countVSync [e] ∧
      s1.m_extra_frames = s.m_extra_frames - countLastField [e] := by
  cases e with
  | transfer index mem size =>
    obtain ⟨p1, r1, f1, e1⟩ := Transfer_emits E regSize s s1 index mem size hP h
    exact ⟨p1, r1, by simp [countVSync, f1], by simp [countLastField, e1]⟩
  | readFIFO size =>
    obtain ⟨p1, r1, f1, e1⟩ := ReadFIFO_emits E regSize s s1 size hP h
    exact ⟨p1, r1, by simp [countVSync, f1], by simp [countLastField, e1]⟩
  | vsync field last regs =>
    simp only [GSDumpBase.step] at h
    cases hv : GSDumpBase.VSync vt regSize s field last regs with
    | error x => simp [hv, Except.map] at h
    | ok v =>
      obtain ⟨s2, r⟩ := v
      simp only [hv, Except.map, Except.ok.injEq] at h
      subst h
      obtain ⟨p1, r1, f1, e1, _⟩ := VSync_emits E regSize s s2 field last regs r hP hv
      refine ⟨p1, r1, by simp [countVSync, f1], ?_⟩
      cases last <;> simp [countLastField, e1]

theorem run_emits {δ : Type} {vt : VTable δ} {P : GSDumpBase δ → Prop}
    {R : GSDumpBase δ → List Byte → GSDumpBase δ → Prop} (E : Emits vt P R)
    (regSize : Nat) (evs : List Event) :
    ∀ (s s1 : GSDumpBase δ), P s → GSDumpBase.run vt regSize s evs = .ok s1 →
      P s1 ∧ R s (framesOf regSize evs) s1 ∧
        s1.m_frames = s.m_frames + countVSync evs ∧
        s1.m_extra_frames = s.m_extra_frames - countLastField evs := by
  induction evs with
  | nil =>
    intro s s1 hP h
    simp only [GSDumpBase.run, pure, Except.pure, Except.ok.injEq] at h
    subst h
    exact ⟨hP, E.nil _ hP, by simp [countVSync], by simp [countLastField]⟩
  | cons e es ih =>
    intro s s1 hP h
    simp only [GSDumpBase.run] at h
    obtain ⟨a, ha, h⟩ := (bind_ok_iff _ _ _).1 h
    obtain ⟨pa, ra, fa, ea⟩ := step_emits E regSize s a e hP ha
    obtain ⟨pb, rb, fb, eb⟩ := ih a s1 pa h
    refine ⟨pb, E.trans _ _ _ _ _ ra rb, ?_, ?_⟩
    · rw [fb, fa]
      cases e <;> simp [countVSync]
      omega
    · rw [eb, ea]
      cases e with
      | vsync field last regs =>
        cases last <;> simp [countLastField]
        omega
      | _ => simp [countLastField]

theorem Transfer_returns {δ : Type} {vt : VTable δ} {P : GSDumpBase δ → Prop}
    (T : Returns vt P) (s : GSDumpBase δ) (index : Int) (mem : Ptr) (size : Nat) (hP : P s) :
    ∃ s1, GSDumpBase.Transfer vt s index mem size = .ok s1 ∧ P s1 := by
  unfold GSDumpBase.Transfer
  by_cases hz : size = 0
  · exact ⟨s, by simp [hz, pure, Except.pure], hP⟩
  · obtain ⟨a, ha, pa⟩ := T.byte s (toUint8 0) hP
    obtain ⟨b, hb, pb⟩ := T.byte a (toUint8 index) pa
    obtain ⟨c, hc, pc⟩ := T.block b (addrOf size) 4 pb
    obtain ⟨d, hd, pd⟩ := T.block c mem size pc
    exact ⟨d, by simp [hz, bind, Except.bind, ha, hb, hc, hd], pd⟩

theorem ReadFIFO_returns {δ : Type} {vt : VTable δ} {P : GSDumpBase δ → Prop}
    (T : Returns vt P) (s : GSDumpBase δ) (size : Nat) (hP : P s) :
    ∃ s1, GSDumpBase.ReadFIFO vt s size = .ok s1 ∧ P s1 := by
  unfold GSDumpBase.ReadFIFO
  by_cases hz : size = 0
  · exact ⟨s, by simp [hz, pure, Except.pure], hP⟩
  · obtain ⟨a, ha, pa⟩ := T.byte s (toUint8 2) hP
    obtain ⟨b, hb, pb⟩ := T.block a (addrOf size) 4 pa
    exact ⟨b, by simp [hz, bind, Except.bind, ha, hb], pb⟩

theorem AddHeader_returns {δ : Type} {vt : VTable δ} {P : GSDumpBase δ → Prop}
    (T : Returns vt P) (regSize : Nat) (s : GSDumpBase δ) (crc : Nat) (fd : GSFreezeData)
    (regs : Ptr) (hP : P s) :
    ∃ s1, GSDumpBase.AddHeader vt regSize s crc fd regs = .ok s1 ∧ P s1 := by
  unfold GSDumpBase.AddHeader
  obtain ⟨a, ha, pa⟩ := T.block s (addrOf crc) 4 hP
  obtain ⟨b, hb, pb⟩ := T.block a (addrOf fd.size) 4 pa
  obtain ⟨c, hc, pc⟩ := T.block b fd.data fd.size pb
  obtain ⟨d, hd, pd⟩ := T.block c regs regSize pc
  exact ⟨d, by simp [bind, Except.bind, ha, hb, hc, hd], pd⟩

theorem VSync_returns {δ : Type} {vt : VTable δ} {P : GSDumpBase δ → Prop}
    (T : Returns vt P) (regSize : Nat) (s : GSDumpBase δ) (field : Int) (last : Bool)
    (regs : Ptr) (hP : P s) :
    ∃ s1 r, GSDumpBase.VSync vt regSize s field last regs = .ok (s1, r) ∧ P s1 := by
  unfold GSDumpBase.VSync
  obtain ⟨a, ha, pa⟩ := T.byte s (toUint8 3) hP
  obtain ⟨b, hb, pb⟩ := T.block a regs regSize pa
  obtain ⟨c, hc, pc⟩ := T.byte b (toUint8 1) pb
  obtain ⟨d, hd, pd⟩ := T.byte c (toUint8 field) pc
  have hp := T.bumpP d (d.m_frames + 1) (d.m_extra_frames - (if last then 1 else 0)) pd
  refine ⟨d.withCounters (d.m_frames + 1) (d.m_extra_frames - (if last then 1 else 0)),
    decide ((d.m_frames + 1) % 2 = 0) && last &&
      decide (d.m_extra_frames - (if last then 1 else 0) < 0), ?_, hp⟩
  simp only [bind, Except.bind, ha, hb, hc, hd, pure, Except.pure]
  cases last <;> simp [GSDumpBase.withCounters]

theorem step_returns {δ : Type} {vt : VTable δ} {P : GSDumpBase δ → Prop}
    (T : Returns vt P) (regSize : Nat) (s : GSDumpBase δ) (e : Event) (hP : P s) :
    ∃ s1, GSDumpBase.step vt regSize s e = .ok s1 ∧ P s1 := by
  cases e with
  | transfer index mem size => exact Transfer_returns T s index mem size hP
  | readFIFO size => exact ReadFIFO_returns T s size hP
  | vsync field last regs =>
    obtain ⟨s1, r, h, p1⟩ := VSync_returns T regSize s field last regs hP
    exact ⟨s1, by simp [GSDumpBase.step, h, Except.map], p1⟩

theorem run_returns {δ : Type} {vt : VTable δ} {P : GSDumpBase δ → Prop}
    (T : Returns vt P) (regSize : Nat) (evs : List Event) :
    ∀ s : GSDumpBase δ, P s → ∃ s1, GSDumpBase.run vt regSize s evs = .ok s1 ∧ P s1 := by
  induction evs with
  | nil => intro s hP; exact ⟨s, rfl, hP⟩
  | cons e es ih =>
    intro s hP
    obtain ⟨a, ha, pa⟩ := step_returns T regSize s e hP
    obtain ⟨b, hb, pb⟩ := ih a pa
    exact ⟨b, by simp [GSDumpBase.run, bind, Except.bind, ha, hb], pb⟩

/-! ## The direct writer -/

theorem readBytes_min (p : Ptr) (n r : Nat) :
    readBytes p (min n r) = (readBytes p n).take r := by
  simp [readBytes, ← List.map_take, List.take_range, Nat.min_comm]

theorem GSDump.AppendRawData_open (s : GSDump) (f : FILE) (p : Ptr) (n : Nat)
    (h : s.m_gs = some f) :
    ∃ d, GSDump.AppendRawData s p n =
      .ok { s with m_gs := some (f.put (readBytes p n)), diag := d } := by
  have hf : (fwrite p n 1 f).2 = f.put (readBytes p n) := by
    simp only [fwrite, FILE.put, Nat.mul_one, readBytes_min, readBytes_length]
    congr 1
    omega
  unfold GSDump.AppendRawData
  simp only [h]
  by_cases hw : (fwrite p n 1 f).1 ≠ n
  · exact ⟨s.diag ++ [Diag.gsdumpWriteFailed], by simp [hw, hf, pure, Except.pure]⟩
  · exact ⟨s.diag, by simp [hw, hf, pure, Except.pure]⟩

theorem GSDump.AppendRawDataByte_open (s : GSDump) (f : FILE) (c : Byte)
    (h : s.m_gs = some f) :
    ∃ d, GSDump.AppendRawDataByte s c = .ok { s with m_gs := some (f.put [c]), diag := d } := by
  unfold GSDump.AppendRawDataByte
  simp only [h]
  by_cases hr : f.room = 0
  · refine ⟨s.diag ++ [Diag.gsdumpWriteFailed], ?_⟩
    have : f.put [c] = f := by
      cases f
      simp_all [FILE.put]
    simp [fputc, hr, this, pure, Except.pure]
  · refine ⟨s.diag, ?_⟩
    have : f.put [c] = { bytes := f.bytes ++ [c], room := f.room - 1 } := by
      have h1 : 1 ≤ f.room := by omega
      simp [FILE.put, List.take_of_length_le, h1]
    simp [fputc, hr, this, pure, Except.pure]

theorem GSDump.direct_emits : Emits GSDump.vtable GSDump.Open GSDump.Wrote where
  nil := by
    intro s _ f hf
    rw [FILE.put_nil]; exact hf
  trans := by
    intro s a s1 b s2 h1 h2 f hf
    rw [← FILE.put_put]
    exact h2 _ (h1 f hf)
  bumpP := by
    intro s m e h
    exact h
  bumpR := by
    intro s a s1 m e h f hf
    exact h f hf
  block := by
    intro s p n s1 hP h
    obtain ⟨f, hf⟩ := Option.isSome_iff_exists.1 hP
    obtain ⟨d, hd⟩ := GSDump.AppendRawData_open s f p n hf
    have hs : s1 = { s with m_gs := some (f.put (readBytes p n)), diag := d } := by
      have := h.symm.trans hd
      simpa using this
    subst hs
    refine ⟨rfl, ?_, rfl, rfl⟩
    intro g hg
    rw [hf] at hg
    cases hg
    rfl
  byte := by
    intro s c s1 hP h
    obtain ⟨f, hf⟩ := Option.isSome_iff_exists.1 hP
    obtain ⟨d, hd⟩ := GSDump.AppendRawDataByte_open s f c hf
    have hs : s1 = { s with m_gs := some (f.put [c]), diag := d } := by
      have := h.symm.trans hd
      simpa using this
    subst hs
    refine ⟨rfl, ?_, rfl, rfl⟩
    intro g hg
    rw [hf] at hg
    cases hg
    rfl

theorem GSDump.direct_returns : Returns GSDump.vtable GSDump.Open where
  block := by
    intro s p n hP
    obtain ⟨f, hf⟩ := Option.isSome_iff_exists.1 hP
    obtain ⟨d, hd⟩ := GSDump.AppendRawData_open s f p n hf
    exact ⟨_, hd, rfl⟩
  byte := by
    intro s c hP
    obtain ⟨f, hf⟩ := Option.isSome_iff_exists.1 hP
    obtain ⟨d, hd⟩ := GSDump.AppendRawDataByte_open s f c hf
    exact ⟨_, hd, rfl⟩
  bumpP := by
    intro s m e h
    exact h

/-! ## The compressing writer -/

theorem fedBytes_append (l1 l2 : List LzmaEvent) :
    fedBytes (l1 ++ l2) = fedBytes l1 ++ fedBytes l2 := by
  induction l1 with
  | nil => rfl
  | cons e es ih => cases e <;> simp [fedBytes, ih]

theorem writeOut_keeps {κ : Type} (s s1 : GSDumpXz κ) (out : List Byte) (n : Nat)
    (h : GSDumpXz.writeOut s out n = .ok s1) :
    s1.derived = s.derived ∧ s1.m_gs.isSome = s.m_gs.isSome ∧
      s1.m_frames = s.m_frames ∧ s1.m_extra_frames = s.m_extra_frames := by
  unfold GSDumpXz.writeOut at h
  by_cases hn : n = 0
  · simp only [hn, ne_eq, not_true_eq_false, if_false, pure, Except.pure, Except.ok.injEq] at h
    subst h
    exact ⟨rfl, rfl, rfl, rfl⟩
  · simp only [hn, ne_eq, not_false_eq_true, if_true] at h
    cases hg : s.m_gs with
    | none => simp [hg, throw, throwThe, MonadExceptOf.throw] at h
    | some f =>
      simp only [hg] at h
      split at h <;>
        (simp only [pure, Except.pure, Except.ok.injEq] at h; subst h; simp)

theorem checkRet_keeps {κ : Type} (s : GSDumpXz κ) (ret : lzma_ret) :
    (GSDumpXz.checkRet s ret).derived.log = s.derived.log ∧
      (GSDumpXz.checkRet s ret).derived.m_strm = s.derived.m_strm ∧
      (GSDumpXz.checkRet s ret).m_gs = s.m_gs ∧
      (GSDumpXz.checkRet s ret).m_frames = s.m_frames ∧
      (GSDumpXz.checkRet s ret).m_extra_frames = s.m_extra_frames := by
  unfold GSDumpXz.checkRet
  split <;> simp

theorem callCode_keeps {κ : Type} (lz : LzmaLib κ) (action : lzma_action) (s : GSDumpXz κ) :
    fedBytes (GSDumpXz.callCode lz action s).1.derived.log = fedBytes s.derived.log ∧
      (GSDumpXz.callCode lz action s).1.m_gs = s.m_gs ∧
      (GSDumpXz.callCode lz action s).1.m_frames = s.m_frames ∧
      (GSDumpXz.callCode lz action s).1.m_extra_frames = s.m_extra_frames := by
  simp [GSDumpXz.callCode, fedBytes_append, fedBytes]

theorem flushBody_keeps {κ : Type} (lz : LzmaLib κ) (action : lzma_action)
    (s s1 : GSDumpXz κ) (h : GSDumpXz.flushBody lz action s = .ok s1) :
    fedBytes s1.derived.log = fedBytes s.derived.log ∧
      s1.m_gs.isSome = s.m_gs.isSome ∧
      s1.m_frames = s.m_frames ∧ s1.m_extra_frames = s.m_extra_frames := by
  have h1 : GSDumpXz.writeOut
      (GSDumpXz.checkRet (GSDumpXz.callCode lz action s).1 (GSDumpXz.callCode lz action s).2.1)
      (GSDumpXz.callCode lz action s).2.2
      (OUT_BUFF_SIZE - (GSDumpXz.checkRet (GSDumpXz.callCode lz action s).1
        (GSDumpXz.callCode lz action s).2.1).derived.m_strm.avail_out) = .ok s1 := h
  obtain ⟨hd, hg, hf, he⟩ := writeOut_keeps _ _ _ _ h1
  obtain ⟨c1, _, c3, c4, c5⟩ :=
    checkRet_keeps (GSDumpXz.callCode lz action s).1 (GSDumpXz.callCode lz action s).2.1
  obtain ⟨d1, d2, d3, d4⟩ := callCode_keeps lz action s
  rw [hd, hg, hf, he]
  exact ⟨by rw [c1, d1], by rw [c3, d2], by rw [c4, d3], by rw [c5, d4]⟩

theorem flushLoop_keeps {κ : Type} (lz : LzmaLib κ) (action : lzma_action) (fuel : Nat) :
    ∀ s s1 : GSDumpXz κ, GSDumpXz.flushLoop lz action fuel s = .ok s1 →
      fedBytes s1.derived.log = fedBytes s.derived.log ∧
      s1.m_gs.isSome = s.m_gs.isSome ∧
      s1.m_frames = s.m_frames ∧ s1.m_extra_frames = s.m_extra_frames := by
  induction fuel with
  | zero =>
    intro s s1 h
    simp [GSDumpXz.flushLoop, throw, throwThe, MonadExceptOf.throw] at h
  | succ fuel ih =>
    intro s s1 h
    simp only [GSDumpXz.flushLoop] at h
    obtain ⟨a, ha, h⟩ := (bind_ok_iff _ _ _).1 h
    obtain ⟨k1, k2, k3, k4⟩ := flushBody_keeps lz action s a ha
    by_cases hz : a.derived.m_strm.avail_out = 0
    · simp only [hz, if_true] at h
      obtain ⟨j1, j2, j3, j4⟩ := ih a s1 h
      exact ⟨j1.trans k1, j2.trans k2, j3.trans k3, j4.trans k4⟩
    · simp only [hz, if_false, pure, Except.pure, Except.ok.injEq] at h
      subst h
      exact ⟨k1, k2, k3, k4⟩

theorem Flush_keeps {κ : Type} (lz : LzmaLib κ) (fuel : Nat) (s s1 : GSDumpXz κ)
    (close : Bool) (hopen : GSDumpXz.Open s) (h : GSDumpXz.Flush lz fuel s close = .ok s1) :
    GSDumpXz.Open s1 ∧ GSDumpXz.stream s1 = GSDumpXz.stream s ∧
      s1.derived.m_in_buff = [] ∧
      s1.m_frames = s.m_frames ∧ s1.m_extra_frames = s.m_extra_frames := by
  unfold GSDumpXz.Open at hopen
  unfold GSDumpXz.Flush at h
  by_cases hg : s.m_gs.isNone = true ∨ s.derived.m_in_buff.isEmpty = true
  · simp only [hg, if_true, pure, Except.pure, Except.ok.injEq] at h
    subst h
    have hb : s.derived.m_in_buff = [] := by
      rcases hg with hg | hg
      · simp [Option.isNone_iff_eq_none] at hg
        simp [hg] at hopen
      · simpa using hg
    exact ⟨hopen, by simp [GSDumpXz.stream, hb], rfl, rfl, rfl⟩
  · simp only [hg, if_false] at h
    obtain ⟨a, ha, h⟩ := (bind_ok_iff _ _ _).1 h
    obtain ⟨k1, k2, k3, k4⟩ := flushLoop_keeps lz _ fuel _ a ha
    simp only [fedBytes_append, fedBytes, List.append_nil] at k1
    have key : GSDumpXz.Open a ∧ fedBytes a.derived.log = GSDumpXz.stream s ∧
        a.m_frames = s.m_frames ∧ a.m_extra_frames = s.m_extra_frames :=
      ⟨by unfold GSDumpXz.Open; rw [k2]; exact hopen, k1, k3, k4⟩
    obtain ⟨o1, o2, o3, o4⟩ := key
    cases close with
    | false =>
      simp only [pure, Except.pure, Except.ok.injEq, Bool.false_eq_true, if_false] at h
      subst h
      exact ⟨o1, by simp [GSDumpXz.stream, o2], rfl, o3, o4⟩
    | true =>
      simp only [pure, Except.pure, Except.ok.injEq, if_true] at h
      subst h
      exact ⟨o1, by simp [GSDumpXz.stream, fedBytes_append, fedBytes, o2], rfl, o3, o4⟩

theorem GSDumpXz.AppendRawData_emits {κ : Type} (lz : LzmaLib κ) (fuel : Nat)
    (s s1 : GSDumpXz κ) (p : Ptr) (n : Nat) (hopen : GSDumpXz.Open s)
    (h : GSDumpXz.AppendRawData lz fuel s p n = .ok s1) :
    GSDumpXz.Open s1 ∧ GSDumpXz.Buffered s (readBytes p n) s1 ∧
      s1.m_frames = s.m_frames ∧ s1.m_extra_frames = s.m_extra_frames := by
  unfold GSDumpXz.AppendRawData at h
  simp only at h
  split at h
  · obtain ⟨o, st, _, f, e⟩ := Flush_keeps lz fuel _ s1 false (by exact hopen) h
    refine ⟨o, ?_, f, e⟩
    unfold GSDumpXz.Buffered
    rw [st]
    simp [GSDumpXz.stream]
  · simp only [pure, Except.pure, Except.ok.injEq] at h
    subst h
    exact ⟨hopen, by simp [GSDumpXz.Buffered, GSDumpXz.stream], rfl, rfl⟩

theorem GSDumpXz.buffered_emits {κ : Type} (lz : LzmaLib κ) (fuel : Nat) :
    Emits (GSDumpXz.vtable lz fuel) GSDumpXz.Open GSDumpXz.Buffered where
  nil := by
    intro s _
    simp [GSDumpXz.Buffered]
  trans := by
    intro s a s1 b s2 h1 h2
    unfold GSDumpXz.Buffered at *
    rw [h2, h1, List.append_assoc]
  bumpP := by
    intro s m e h
    exact h
  bumpR := by
    intro s a s1 m e h
    exact h
  block := by
    intro s p n s1 hP h
    exact GSDumpXz.AppendRawData_emits lz fuel s s1 p n hP h
  byte := by
    intro s c s1 hP h
    simp only [GSDumpXz.vtable, GSDumpXz.AppendRawDataByte, pure, Except.pure,
      Except.ok.injEq] at h
    subst h
    exact ⟨hP, by simp [GSDumpXz.Buffered, GSDumpXz.stream], rfl, rfl⟩

/-! ## The direct writer: what each call leaves in the sink -/

theorem GSDump.open_of_some (s : GSDump) (f : FILE) (h : s.m_gs = some f) : GSDump.Open s := by
  simp [GSDump.Open, h]

theorem GSDump.Transfer_sink (s : GSDump) (f : FILE) (index : Int) (mem : Ptr) (size : Nat)
    (h : s.m_gs = some f) :
    ∃ s1, GSDumpBase.Transfer GSDump.vtable s index mem size = .ok s1 ∧
      s1.m_gs = some (f.put (frameOf 0 (.transfer index mem size))) ∧
      s1.m_frames = s.m_frames ∧ s1.m_extra_frames = s.m_extra_frames := by
  obtain ⟨s1, h1, _⟩ :=
    Transfer_returns GSDump.direct_returns s index mem size (GSDump.open_of_some s f h)
  obtain ⟨_, r, c1, c2⟩ :=
    Transfer_emits GSDump.direct_emits 0 s s1 index mem size (GSDump.open_of_some s f h) h1
  exact ⟨s1, h1, r f h, c1, c2⟩

theorem GSDump.ReadFIFO_sink (s : GSDump) (f : FILE) (size : Nat) (h : s.m_gs = some f) :
    ∃ s1, GSDumpBase.ReadFIFO GSDump.vtable s size = .ok s1 ∧
      s1.m_gs = some (f.put (frameOf 0 (.readFIFO size))) ∧
      s1.m_frames = s.m_frames ∧ s1.m_extra_frames = s.m_extra_frames := by
  obtain ⟨s1, h1, _⟩ := ReadFIFO_returns GSDump.direct_returns s size (GSDump.open_of_some s f h)
  obtain ⟨_, r, c1, c2⟩ :=
    ReadFIFO_emits GSDump.direct_emits 0 s s1 size (GSDump.open_of_some s f h) h1
  exact ⟨s1, h1, r f h, c1, c2⟩

theorem GSDump.VSync_sink (regSize : Nat) (s : GSDump) (f : FILE) (field : Int) (last : Bool)
    (regs : Ptr) (h : s.m_gs = some f) :
    ∃ s1 r, GSDumpBase.VSync GSDump.vtable regSize s field last regs = .ok (s1, r) ∧
      s1.m_gs = some (f.put (frameOf regSize (.vsync field last regs))) ∧
      s1.m_frames = s.m_frames + 1 ∧
      s1.m_extra_frames = s.m_extra_frames - (if last then 1 else 0) ∧
      r = (decide (s1.m_frames % 2 = 0) && last && decide (s1.m_extra_frames < 0)) := by
  obtain ⟨s1, r, h1, _⟩ :=
    VSync_returns GSDump.direct_returns regSize s field last regs (GSDump.open_of_some s f h)
  obtain ⟨_, w, c1, c2, c3⟩ :=
    VSync_emits GSDump.direct_emits regSize s s1 field last regs r (GSDump.open_of_some s f h) h1
  exact ⟨s1, r, h1, w f h, c1, c2, c3⟩

theorem GSDump.AddHeader_sink (regSize : Nat) (s : GSDump) (f : FILE) (crc : Nat)
    (fd : GSFreezeData) (regs : Ptr) (h : s.m_gs = some f) :
    ∃ s1, GSDumpBase.AddHeader GSDump.vtable regSize s crc fd regs = .ok s1 ∧
      s1.m_gs = some (f.put (headerOf regSize crc fd regs)) ∧
      s1.m_frames = s.m_frames ∧ s1.m_extra_frames = s.m_extra_frames := by
  obtain ⟨s1, h1, _⟩ :=
    AddHeader_returns GSDump.direct_returns regSize s crc fd regs (GSDump.open_of_some s f h)
  obtain ⟨_, r, c1, c2⟩ :=
    AddHeader_emits GSDump.direct_emits regSize s s1 crc fd regs (GSDump.open_of_some s f h) h1
  exact ⟨s1, h1, r f h, c1, c2⟩

theorem GSDump.run_sink (regSize : Nat) (s : GSDump) (f : FILE) (evs : List Event)
    (h : s.m_gs = some f) :
    ∃ s1, GSDumpBase.run GSDump.vtable regSize s evs = .ok s1 ∧
      s1.m_gs = some (f.put (framesOf regSize evs)) ∧
      s1.m_frames = s.m_frames + countVSync evs ∧
      s1.m_extra_frames = s.m_extra_frames - countLastField evs := by
  obtain ⟨s1, h1, _⟩ := run_returns GSDump.direct_returns regSize evs s (GSDump.open_of_some s f h)
  obtain ⟨_, r, c1, c2⟩ :=
    run_emits GSDump.direct_emits regSize evs s s1 (GSDump.open_of_some s f h) h1
  exact ⟨s1, h1, r f h, c1, c2⟩

theorem GSDump.ctor_sink (regSize room crc : Nat) (fd : GSFreezeData) (regs : Ptr) :
    ∃ s, GSDump.ctor regSize (some room) crc fd regs = .ok s ∧
      s.m_gs = some (FILE.put { bytes := [], room := room } (headerOf regSize crc fd regs)) ∧
      s.m_frames = 0 ∧ s.m_extra_frames = 2 := by
  exact GSDump.AddHeader_sink regSize (GSDumpBase.ctor (some room) ()) _ crc fd regs rfl

theorem headerOf_length (regSize crc : Nat) (fd : GSFreezeData) (regs : Ptr) :
    (headerOf regSize crc fd regs).length = 8 + fd.size + regSize := by
  simp [headerOf, le32_length, readBytes_length]
  omega

theorem leValue_le32_of_lt (v : Nat) (h : v < 2 ^ 32) : leValue (le32 v) = v := by
  rw [leValue_le32, Nat.mod_eq_of_lt h]

/-! ## Frames -/

/-- C2, as stated, fails: after the header, `Transfer(1, mem, 1)` on a direct writer leaves the
7 bytes `00 01 01 00 00 00 07` in the file (the channel index is the single byte `01`), not the
10-byte frame with a 4-byte channel index. -/
theorem Transfer_index_not_four_bytes :
    GSDump.fileOf (GSDump.session 1 (some 100) 0 ⟨0, constMem 0⟩ (constMem 9)
        [.transfer 1 (constMem 7) 1]) =
      some ([0, 0, 0, 0, 0, 0, 0, 0, 9] ++ [0, 1, 1, 0, 0, 0, 7]) ∧
    specTransferFrame 1 (constMem 7) 1 = [0, 1, 0, 0, 0, 1, 0, 0, 0, 7] ∧
    GSDump.fileOf (GSDump.session 1 (some 100) 0 ⟨0, constMem 0⟩ (constMem 9)
        [.transfer 1 (constMem 7) 1]) ≠
      some ([0, 0, 0, 0, 0, 0, 0, 0, 9] ++ specTransferFrame 1 (constMem 7) 1) := by
  decide

/-- C2 (amended): for every channel index, data block and length with `0 < length < 2^32`,
`Transfer` on a direct writer whose open sink accepts the bytes returns and appends exactly the
tag byte `0x00`, the channel index as ONE byte (`index mod 256`), the length as 4 little-endian
bytes and the `length` data bytes, `6 + length` bytes in all, in that order and nothing else;
the counters are unchanged. -/
theorem Transfer_appends_frame (s : GSDump) (f : FILE) (index : Int) (mem : Ptr) (size : Nat)
    (hopen : s.m_gs = some f) (hpos : 0 < size) (hlt : size < 2 ^ 32)
    (hroom : 6 + size ≤ f.room) :
    ∃ s1, GSDumpBase.Transfer GSDump.vtable s index mem size = .ok s1 ∧
      s1.m_gs = some
        { bytes := f.bytes ++ ([0, toUint8 index] ++ le32 size ++ readBytes mem size)
          room := f.room - (6 + size) } ∧
      ([0, toUint8 index] ++ le32 size ++ readBytes mem size).length = 6 + size ∧
      (toUint8 index).val = (index % 256).toNat ∧
      leValue (le32 size) = size ∧
      (readBytes mem size).length = size ∧
      s1.m_frames = s.m_frames ∧ s1.m_extra_frames = s.m_extra_frames := by
  obtain ⟨s1, h1, hs, c1, c2⟩ := GSDump.Transfer_sink s f index mem size hopen
  have hz : size ≠ 0 := by omega
  have hl : ([0, toUint8 index] ++ le32 size ++ readBytes mem size).length = 6 + size := by
    simp [le32_length, readBytes_length]
    omega
  refine ⟨s1, h1, ?_, hl, rfl, leValue_le32_of_lt size hlt, readBytes_length mem size, c1, c2⟩
  rw [hs]
  simp only [frameOf, hz, if_false]
  rw [FILE.put_of_le _ _ (by rw [hl]; exact hroom), hl]

/-- C2 (amended), at a concrete call: `Transfer(1, mem, 1)` on an empty sink with room for 100
bytes. -/
theorem Transfer_appends_frame_witness :
    (0 < 1 ∧ 1 < 2 ^ 32 ∧ 6 + 1 ≤ 100) ∧
    ∃ s1, GSDumpBase.Transfer GSDump.vtable (GSDumpBase.ctor (some 100) ()) 1 (constMem 7) 1 =
        .ok s1 ∧
      s1.m_gs = some
        { bytes := [] ++ ([0, toUint8 1] ++ le32 1 ++ readBytes (constMem 7) 1)
          room := 100 - (6 + 1) } ∧
      ([0, toUint8 1] ++ le32 1 ++ readBytes (constMem 7) 1).length = 6 + 1 ∧
      (toUint8 1).val = ((1 : Int) % 256).toNat ∧
      leValue (le32 1) = 1 ∧
      (readBytes (constMem 7) 1).length = 1 ∧
      s1.m_frames = (GSDumpBase.ctor (some 100) () : GSDump).m_frames ∧
      s1.m_extra_frames = (GSDumpBase.ctor (some 100) () : GSDump).m_extra_frames :=
  ⟨by decide, Transfer_appends_frame (GSDumpBase.ctor (some 100) ()) ⟨[], 100⟩ 1 (constMem 7) 1
    rfl (by decide) (by decide) (by decide)⟩

/-- C3, as stated, fails: after the header, `VSync(1, true, regs)` with a one-byte register
snapshot leaves the 4 bytes `03 08 01 01` in the file (the field is the single byte `01`), not
the 7-byte frame with a 4-byte field index. -/
theorem VSync_field_not_four_bytes :
    GSDump.fileOf (GSDump.session 1 (some 100) 0 ⟨0, constMem 0⟩ (constMem 9)
        [.vsync 1 true (constMem 8)]) =
      some ([0, 0, 0, 0, 0, 0, 0, 0, 9] ++ [3, 8, 1, 1]) ∧
    specVSyncFrame 1 1 (constMem 8) = [3, 8, 1, 1, 0, 0, 0] ∧
    GSDump.fileOf (GSDump.session 1 (some 100) 0 ⟨0, constMem 0⟩ (constMem 9)
        [.vsync 1 true (constMem 8)]) ≠
      some ([0, 0, 0, 0, 0, 0, 0, 0, 9] ++ specVSyncFrame 1 1 (constMem 8)) := by
  decide

/-- C3 (amended): for every field, `last` and register snapshot, `VSync` on a direct writer
whose open sink accepts the bytes returns and appends exactly the tag byte `0x03`, the
`regSize` register snapshot bytes, the tag byte `0x01` and the field as ONE byte
(`field mod 256`), `regSize + 3` bytes in all, whatever the counters and `last` are. -/
theorem VSync_appends_frame (regSize : Nat) (s : GSDump) (f : FILE) (field : Int)
    (last : Bool) (regs : Ptr) (hopen : s.m_gs = some f) (hroom : regSize + 3 ≤ f.room) :
    ∃ s1 r, GSDumpBase.VSync GSDump.vtable regSize s field last regs = .ok (s1, r) ∧
      s1.m_gs = some
        { bytes := f.bytes ++ ([3] ++ readBytes regs regSize ++ [1, toUint8 field])
          room := f.room - (regSize + 3) } ∧
      ([3] ++ readBytes regs regSize ++ [1, toUint8 field]).length = regSize + 3 ∧
      (readBytes regs regSize).length = regSize ∧
      (toUint8 field).val = (field % 256).toNat := by
  obtain ⟨s1, r, h1, hs, _⟩ := GSDump.VSync_sink regSize s f field last regs hopen
  have hl : ([3] ++ readBytes regs regSize ++ [1, toUint8 field]).length = regSize + 3 := by
    simp [readBytes_length]
  refine ⟨s1, r, h1, ?_, hl, readBytes_length regs regSize, rfl⟩
  rw [hs]
  have hf : frameOf regSize (.vsync field last regs) =
      [3] ++ readBytes regs regSize ++ [1, toUint8 field] := by
    simp [frameOf]
  rw [hf, FILE.put_of_le _ _ (by rw [hl]; exact hroom), hl]

/-- C3 (amended), at a concrete call: `VSync(1, true, regs)` with a two-byte register snapshot
on an empty sink with room for 100 bytes. -/
theorem VSync_appends_frame_witness :
    (2 + 3 ≤ 100) ∧
    ∃ s1 r, GSDumpBase.VSync GSDump.vtable 2 (GSDumpBase.ctor (some 100) ()) 1 true
        (constMem 8) = .ok (s1, r) ∧
      s1.m_gs = some
        { bytes := [] ++ ([3] ++ readBytes (constMem 8) 2 ++ [1, toUint8 1])
          room := 100 - (2 + 3) } ∧
      ([3] ++ readBytes (constMem 8) 2 ++ [1, toUint8 1]).length = 2 + 3 ∧
      (readBytes (constMem 8) 2).length = 2 ∧
      (toUint8 1).val = ((1 : Int) % 256).toNat :=
  ⟨by decide, VSync_appends_frame 2 (GSDumpBase.ctor (some 100) ()) ⟨[], 100⟩ 1 true
    (constMem 8) rfl (by decide)⟩

/-- C8: for every length with `length ≠ 0` (a 32-bit unsigned value), `ReadFIFO` on a direct
writer whose open sink accepts the bytes returns and appends exactly 5 bytes: the tag byte `0x02`
followed by the length as 4 little-endian bytes, and no payload; the counters are unchanged. -/
theorem ReadFIFO_appends_frame (s : GSDump) (f : FILE) (size : Nat)
    (hopen : s.m_gs = some f) (hne : size ≠ 0) (hlt : size < 2 ^ 32) (hroom : 5 ≤ f.room) :
    ∃ s1, GSDumpBase.ReadFIFO GSDump.vtable s size = .ok s1 ∧
      s1.m_gs = some { bytes := f.bytes ++ ([2] ++ le32 size), room := f.room - 5 } ∧
      ([2] ++ le32 size).length = 5 ∧
      leValue (le32 size) = size ∧
      s1.m_frames = s.m_frames ∧ s1.m_extra_frames = s.m_extra_frames := by
  obtain ⟨s1, h1, hs, c1, c2⟩ := GSDump.ReadFIFO_sink s f size hopen
  refine ⟨s1, h1, ?_, rfl, leValue_le32_of_lt size hlt, c1, c2⟩
  rw [hs]
  simp only [frameOf, hne, if_false]
  rw [FILE.put_of_le _ _ (by simpa [le32_length] using hroom)]
  simp [le32_length]

/-- C8 at a concrete call: `ReadFIFO(258)` on an empty sink with room for 100 bytes appends
`02 02 01 00 00`. -/
theorem ReadFIFO_appends_frame_witness :
    ((258 : Nat) ≠ 0 ∧ 258 < 2 ^ 32 ∧ 5 ≤ 100) ∧
    ∃ s1, GSDumpBase.ReadFIFO GSDump.vtable (GSDumpBase.ctor (some 100) ()) 258 = .ok s1 ∧
      s1.m_gs = some { bytes := [] ++ ([2] ++ le32 258), room := 100 - 5 } ∧
      ([2] ++ le32 258).length = 5 ∧
      leValue (le32 258) = 258 ∧
      s1.m_frames = (GSDumpBase.ctor (some 100) () : GSDump).m_frames ∧
      s1.m_extra_frames = (GSDumpBase.ctor (some 100) () : GSDump).m_extra_frames :=
  ⟨by decide, ReadFIFO_appends_frame (GSDumpBase.ctor (some 100) ()) ⟨[], 100⟩ 258
    rfl (by decide) (by decide) (by decide)⟩

/-! ## The stop signal and the counters -/

theorem GSDumpXz.Flush_counters {κ : Type} (lz : LzmaLib κ) (fuel : Nat) (s s1 : GSDumpXz κ)
    (close : Bool) (h : GSDumpXz.Flush lz fuel s close = .ok s1) :
    s1.m_frames = s.m_frames ∧ s1.m_extra_frames = s.m_extra_frames := by
  unfold GSDumpXz.Flush at h
  by_cases hg : s.m_gs.isNone = true ∨ s.derived.m_in_buff.isEmpty = true
  · simp only [hg, if_true, pure, Except.pure, Except.ok.injEq] at h
    subst h
    exact ⟨rfl, rfl⟩
  · simp only [hg, if_false] at h
    obtain ⟨a, ha, h⟩ := (bind_ok_iff _ _ _).1 h
    obtain ⟨_, _, k3, k4⟩ := flushLoop_keeps lz _ fuel _ a ha
    cases close with
    | false =>
      simp only [pure, Except.pure, Except.ok.injEq, Bool.false_eq_true, if_false] at h
      subst h
      exact ⟨k3, k4⟩
    | true =>
      simp only [pure, Except.pure, Except.ok.injEq, if_true] at h
      subst h
      exact ⟨k3, k4⟩

theorem GSDumpXz.counters_emits {κ : Type} (lz : LzmaLib κ) (fuel : Nat) :
    Emits (GSDumpXz.vtable lz fuel) (fun _ => True) (fun _ _ _ => True) where
  nil := fun _ _ => trivial
  trans := fun _ _ _ _ _ _ _ => trivial
  bumpP := fun _ _ _ _ => trivial
  bumpR := fun _ _ _ _ _ _ => trivial
  block := by
    intro s p n s1 _ h
    simp only [GSDumpXz.vtable, GSDumpXz.AppendRawData] at h
    split at h
    · obtain ⟨f, e⟩ := GSDumpXz.Flush_counters lz fuel _ s1 false h
      exact ⟨trivial, trivial, f, e⟩
    · simp only [pure, Except.pure, Except.ok.injEq] at h
      subst h
      exact ⟨trivial, trivial, rfl, rfl⟩
  byte := by
    intro s c s1 _ h
    simp only [GSDumpXz.vtable, GSDumpXz.AppendRawDataByte, pure, Except.pure,
      Except.ok.injEq] at h
    subst h
    exact ⟨trivial, trivial, rfl, rfl⟩

theorem stop_signal_iff (m e : Int) (last r : Bool)
    (h : r = (decide (m % 2 = 0) && last && decide (e < 0))) :
    r = true ↔ m % 2 = 0 ∧ last = true ∧ e < 0 := by
  subst h
  simp [and_assoc]

theorem GSDump.VSync_closed (regSize : Nat) (s : GSDump) (field : Int) (last : Bool)
    (regs : Ptr) (h : s.m_gs = none) :
    GSDumpBase.VSync GSDump.vtable regSize s field last regs = .error Fault.nullFile := by
  simp [GSDumpBase.VSync, GSDump.vtable, GSDump.AppendRawDataByte, h, bind, Except.bind,
    throw, throwThe, MonadExceptOf.throw]

/-- C4: `VSync` returns true exactly when the frame counter as updated by the call is even,
`last` is true and the extra-frames countdown as updated by the call is negative.  On a direct
writer with an open sink the call returns, with that value; with a null sink it does not return
(`fputc` on a null `FILE*`).  On a compressing writer every call that returns returns that
value. -/
theorem VSync_stop_signal {κ : Type} (lz : LzmaLib κ) (fuel regSize : Nat) (field : Int)
    (last : Bool) (regs : Ptr) :
    (∀ (s : GSDump) (f : FILE), s.m_gs = some f →
      ∃ s1 r, GSDumpBase.VSync GSDump.vtable regSize s field last regs = .ok (s1, r) ∧
        s1.m_frames = s.m_frames + 1 ∧
        s1.m_extra_frames = s.m_extra_frames - (if last then 1 else 0) ∧
        (r = true ↔ s1.m_frames % 2 = 0 ∧ last = true ∧ s1.m_extra_frames < 0)) ∧
    (∀ s : GSDump, s.m_gs = none →
      GSDumpBase.VSync GSDump.vtable regSize s field last regs = .error Fault.nullFile) ∧
    (∀ (x x1 : GSDumpXz κ) (r : Bool),
      GSDumpBase.VSync (GSDumpXz.vtable lz fuel) regSize x field last regs = .ok (x1, r) →
        x1.m_frames = x.m_frames + 1 ∧
        x1.m_extra_frames = x.m_extra_frames - (if last then 1 else 0) ∧
        (r = true ↔ x1.m_frames % 2 = 0 ∧ last = true ∧ x1.m_extra_frames < 0)) := by
  refine ⟨?_, ?_, ?_⟩
  · intro s f hf
    obtain ⟨s1, r, h1, _, c1, c2, c3⟩ := GSDump.VSync_sink regSize s f field last regs hf
    exact ⟨s1, r, h1, c1, c2, stop_signal_iff _ _ _ _ c3⟩
  · intro s hs
    exact GSDump.VSync_closed regSize s field last regs hs
  · intro x x1 r h
    obtain ⟨_, _, c1, c2, c3⟩ :=
      VSync_emits (GSDumpXz.counters_emits lz fuel) regSize x x1 field last regs r trivial h
    exact ⟨c1, c2, stop_signal_iff _ _ _ _ c3⟩

/-- C4 at a concrete call: with 3 frames counted and the countdown at 0, a last-field `VSync`
on a direct writer returns, and returns true exactly when 4 is even and -1 is negative. -/
theorem VSync_stop_signal_witness :
    ∃ s1 r, GSDumpBase.VSync GSDump.vtable 2
        ({ m_frames := 3, m_extra_frames := 0, m_gs := some ⟨[], 100⟩, derived := (),
           diag := [] } : GSDump) 1 true (constMem 8) = .ok (s1, r) ∧
      s1.m_frames = 3 + 1 ∧
      s1.m_extra_frames = 0 - (if true then 1 else 0) ∧
      (r = true ↔ s1.m_frames % 2 = 0 ∧ true = true ∧ s1.m_extra_frames < 0) :=
  (VSync_stop_signal nullLz 1 2 1 true (constMem 8)).1 _ ⟨[], 100⟩ rfl

theorem GSDump.vsyncLast_results (regSize : Nat) (args : List (Int × Ptr)) :
    ∀ (s : GSDump) (f : FILE) (k : Nat), s.m_gs = some f → s.m_frames = k →
      s.m_extra_frames = 2 - k →
      ∃ s1, GSDumpBase.vsyncLast GSDump.vtable regSize s args =
        .ok (s1, (List.range args.length).map
          fun i => decide ((k + i + 1) % 2 = 0 ∧ 4 ≤ k + i + 1)) := by
  induction args with
  | nil =>
    intro s f k _ _ _
    exact ⟨s, rfl⟩
  | cons a as ih =>
    intro s f k hf hm he
    obtain ⟨s1, r, h1, hs, c1, c2, c3⟩ := GSDump.VSync_sink regSize s f a.1 true a.2 hf
    have hm1 : s1.m_frames = ((k + 1 : Nat) : Int) := by rw [c1, hm]; push_cast; ring
    have he1 : s1.m_extra_frames = 2 - ((k + 1 : Nat) : Int) := by
      rw [c2, he]; push_cast; simp; ring
    obtain ⟨s2, h2⟩ := ih s1 _ (k + 1) hs hm1 he1
    have hr : r = decide ((k + 0 + 1) % 2 = 0 ∧ 4 ≤ k + 0 + 1) := by
      rw [c3, hm1, he1]
      rw [Bool.eq_iff_iff]
      simp
      omega
    refine ⟨s2, ?_⟩
    simp only [GSDumpBase.vsyncLast, bind, Except.bind, h1, h2, pure, Except.pure,
      List.length_cons, List.range_succ_eq_map, List.map_cons, List.map_map, hr]
    congr 3
    apply List.map_congr_left
    intro i _
    simp only [Function.comp, Nat.succ_eq_add_one]
    have hk : k + (i + 1) + 1 = k + 1 + i + 1 := by omega
    rw [hk]

/-- C5: on a freshly constructed direct writer (frame counter 0, countdown 2, sink open), any
`n` consecutive `VSync` calls with `last = true` all return, and the `k`-th of them (1-based,
`k = i + 1`) returns true if and only if `k` is even and `k ≥ 4`; for six calls the results are
false, false, false, true, false, true. -/
theorem vsync_last_field_sequence (regSize room crc : Nat) (fd : GSFreezeData) (regs : Ptr)
    (args : List (Int × Ptr)) :
    (∃ s s1, GSDump.ctor regSize (some room) crc fd regs = .ok s ∧
      s.m_frames = 0 ∧ s.m_extra_frames = 2 ∧
      GSDumpBase.vsyncLast GSDump.vtable regSize s args =
        .ok (s1, (List.range args.length).map fun i => decide ((i + 1) % 2 = 0 ∧ 4 ≤ i + 1))) ∧
    ((List.range 6).map fun i => decide ((i + 1) % 2 = 0 ∧ 4 ≤ i + 1)) =
      [false, false, false, true, false, true] := by
  refine ⟨?_, by decide⟩
  obtain ⟨s, h, hs, hm, he⟩ := GSDump.ctor_sink regSize room crc fd regs
  obtain ⟨s1, h1⟩ := GSDump.vsyncLast_results regSize args s _ 0 hs (by simp [hm]) (by simp [he])
  refine ⟨s, s1, h, hm, he, ?_⟩
  simpa using h1

/-- C9: constructing a direct writer whose sink opens and accepts the bytes leaves in the sink
exactly the header: `crc` as 4 little-endian bytes, the frozen-state size as 4 little-endian
bytes, the `size` frozen-state bytes, then the `regSize` register snapshot bytes, with no tag
byte; and after any further calls the file still starts with these bytes. -/
theorem ctor_writes_header (regSize room crc : Nat) (fd : GSFreezeData) (regs : Ptr)
    (hcrc : crc < 2 ^ 32) (hsize : fd.size < 2 ^ 32) (hroom : 8 + fd.size + regSize ≤ room) :
    ∃ s, GSDump.ctor regSize (some room) crc fd regs = .ok s ∧
      s.m_gs = some
        { bytes := le32 crc ++ le32 fd.size ++ readBytes fd.data fd.size ++
            readBytes regs regSize
          room := room - (8 + fd.size + regSize) } ∧
      leValue (le32 crc) = crc ∧ leValue (le32 fd.size) = fd.size ∧
      (readBytes fd.data fd.size).length = fd.size ∧
      (readBytes regs regSize).length = regSize ∧
      ∀ evs, ∃ s1 rest, GSDumpBase.run GSDump.vtable regSize s evs = .ok s1 ∧
        s1.dtor = some (le32 crc ++ le32 fd.size ++ readBytes fd.data fd.size ++
          readBytes regs regSize ++ rest) := by
  obtain ⟨s, h, hs, _, _⟩ := GSDump.ctor_sink regSize room crc fd regs
  have hl := headerOf_length regSize crc fd regs
  rw [FILE.put_of_le _ _ (by rw [hl]; exact hroom), hl] at hs
  simp only [List.nil_append, headerOf] at hs
  refine ⟨s, h, hs, leValue_le32_of_lt crc hcrc, leValue_le32_of_lt _ hsize,
    readBytes_length _ _, readBytes_length _ _, ?_⟩
  intro evs
  obtain ⟨s1, h1, hs1, _, _⟩ := GSDump.run_sink regSize s _ evs hs
  exact ⟨s1, _, h1, by simp [GSDumpBase.dtor, hs1, FILE.put]; rfl⟩

/-- C9 at a concrete construction: crc `0x01020304`, a two-byte frozen state, a three-byte
register snapshot, a sink with room for 100 bytes. -/
theorem ctor_writes_header_witness :
    (16909060 < 2 ^ 32 ∧ (2 : Nat) < 2 ^ 32 ∧ 8 + 2 + 3 ≤ 100) ∧
    ∃ s, GSDump.ctor 3 (some 100) 16909060 ⟨2, constMem 5⟩ (constMem 6) = .ok s ∧
      s.m_gs = some
        { bytes := le32 16909060 ++ le32 2 ++ readBytes (constMem 5) 2 ++
            readBytes (constMem 6) 3
          room := 100 - (8 + 2 + 3) } ∧
      leValue (le32 16909060) = 16909060 ∧ leValue (le32 2) = 2 ∧
      (readBytes (constMem 5) 2).length = 2 ∧
      (readBytes (constMem 6) 3).length = 3 ∧
      ∀ evs, ∃ s1 rest, GSDumpBase.run GSDump.vtable 3 s evs = .ok s1 ∧
        s1.dtor = some (le32 16909060 ++ le32 2 ++ readBytes (constMem 5) 2 ++
          readBytes (constMem 6) 3 ++ rest) :=
  ⟨by decide, ctor_writes_header 3 100 16909060 ⟨2, constMem 5⟩ (constMem 6)
    (by decide) (by decide) (by decide)⟩

theorem Transfer_zero {δ : Type} (vt : VTable δ) (s : GSDumpBase δ) (index : Int) (mem : Ptr) :
    GSDumpBase.Transfer vt s index mem 0 = .ok s := by
  simp [GSDumpBase.Transfer, pure, Except.pure]

theorem ReadFIFO_zero {δ : Type} (vt : VTable δ) (s : GSDumpBase δ) :
    GSDumpBase.ReadFIFO vt s 0 = .ok s := by
  simp [GSDumpBase.ReadFIFO, pure, Except.pure]

theorem run_filter_zero {δ : Type} (vt : VTable δ) (regSize : Nat) (evs : List Event) :
    ∀ s : GSDumpBase δ,
      GSDumpBase.run vt regSize s (evs.filter fun e => !e.isZeroLength) =
        GSDumpBase.run vt regSize s evs := by
  induction evs with
  | nil => intro s; rfl
  | cons e es ih =>
    intro s
    by_cases hz : e.isZeroLength = true
    · have hstep : GSDumpBase.step vt regSize s e = .ok s := by
        cases e with
        | transfer index mem size =>
          have : size = 0 := by simpa [Event.isZeroLength] using hz
          subst this
          exact Transfer_zero vt s index mem
        | readFIFO size =>
          have : size = 0 := by simpa [Event.isZeroLength] using hz
          subst this
          exact ReadFIFO_zero vt s
        | vsync field last regs => simp [Event.isZeroLength] at hz
      simp only [List.filter_cons, hz, Bool.not_true, Bool.false_eq_true, if_false,
        GSDumpBase.run, hstep, bind, Except.bind]
      exact ih s
    · simp only [List.filter_cons, hz, Bool.not_false, if_true, GSDumpBase.run]
      cases GSDumpBase.step vt regSize s e with
      | error x => rfl
      | ok a => simp only [bind, Except.bind]; exact ih a

/-- C7 (elision law): on any writer and in any state, `Transfer` with length 0 and `ReadFIFO`
with length 0 return leaving the object exactly as it was (no byte appended, both counters
unchanged); hence deleting the zero-length `Transfer` and `ReadFIFO` calls from a call sequence
changes nothing in what the sequence produces. -/
theorem zero_length_elided {δ : Type} (vt : VTable δ) (regSize : Nat) (s : GSDumpBase δ) :
    (∀ index mem, GSDumpBase.Transfer vt s index mem 0 = .ok s) ∧
    GSDumpBase.ReadFIFO vt s 0 = .ok s ∧
    (∀ evs, GSDumpBase.run vt regSize s (evs.filter fun e => !e.isZeroLength) =
      GSDumpBase.run vt regSize s evs) :=
  ⟨fun index mem => Transfer_zero vt s index mem, ReadFIFO_zero vt s,
    fun evs => run_filter_zero vt regSize evs s⟩

/-! ## Sessions: counters and raw stream -/

theorem run_append {δ : Type} (vt : VTable δ) (regSize : Nat) (evs : List Event) (e : Event) :
    ∀ s : GSDumpBase δ, GSDumpBase.run vt regSize s (evs ++ [e]) =
      (GSDumpBase.run vt regSize s evs >>= fun s1 => GSDumpBase.step vt regSize s1 e) := by
  induction evs with
  | nil =>
    intro s
    simp only [List.nil_append, GSDumpBase.run, bind, Except.bind, pure, Except.pure]
    cases GSDumpBase.step vt regSize s e <;> rfl
  | cons a as ih =>
    intro s
    simp only [List.cons_append, GSDumpBase.run, bind, Except.bind]
    cases GSDumpBase.step vt regSize s a with
    | error x => rfl
    | ok b => exact ih b

theorem GSDump.session_file (regSize room crc : Nat) (fd : GSFreezeData) (regs : Ptr)
    (evs : List Event) :
    ∃ s1, GSDump.session regSize (some room) crc fd regs evs = .ok s1 ∧
      s1.dtor = some ((headerOf regSize crc fd regs ++ framesOf regSize evs).take room) ∧
      s1.m_frames = countVSync evs ∧ s1.m_extra_frames = 2 - countLastField evs := by
  obtain ⟨s, h, hs, hm, he⟩ := GSDump.ctor_sink regSize room crc fd regs
  obtain ⟨s1, h1, hs1, c1, c2⟩ := GSDump.run_sink regSize s _ evs hs
  refine ⟨s1, by simp [GSDump.session, h, h1, bind, Except.bind], ?_, ?_, ?_⟩
  · rw [FILE.put_put] at hs1
    simp [GSDumpBase.dtor, hs1, FILE.put]
  · rw [c1, hm]; simp
  · rw [c2, he]

theorem GSDumpXz.ctor_state {κ : Type} (lz : LzmaLib κ) (fuel regSize : Nat)
    (outcome : Option Nat) (crc : Nat) (fd : GSFreezeData) (regs : Ptr) (x : GSDumpXz κ)
    (h : GSDumpXz.ctor lz fuel regSize outcome crc fd regs = .ok x) :
    x.m_frames = 0 ∧ x.m_extra_frames = 2 := by
  unfold GSDumpXz.ctor at h
  simp only at h
  split at h
  · simp only [pure, Except.pure, Except.ok.injEq] at h
    subst h
    exact ⟨rfl, rfl⟩
  · obtain ⟨_, _, c1, c2⟩ :=
      AddHeader_emits (GSDumpXz.counters_emits lz fuel) regSize _ x crc fd regs trivial h
    exact ⟨c1, c2⟩

theorem GSDumpXz.session_counters {κ : Type} (lz : LzmaLib κ) (fuel regSize : Nat)
    (outcome : Option Nat) (crc : Nat) (fd : GSFreezeData) (regs : Ptr) (evs : List Event)
    (x2 : GSDumpXz κ)
    (h : GSDumpXz.session lz fuel regSize outcome crc fd regs evs = .ok x2) :
    x2.m_frames = countVSync evs ∧ x2.m_extra_frames = 2 - countLastField evs := by
  unfold GSDumpXz.session at h
  obtain ⟨x, hx, h⟩ := (bind_ok_iff _ _ _).1 h
  obtain ⟨x1, hx1, h⟩ := (bind_ok_iff _ _ _).1 h
  obtain ⟨m0, e0⟩ := GSDumpXz.ctor_state lz fuel regSize outcome crc fd regs x hx
  obtain ⟨_, _, c1, c2⟩ :=
    run_emits (GSDumpXz.counters_emits lz fuel) regSize evs x x1 trivial hx1
  obtain ⟨d1, d2⟩ := GSDumpXz.Flush_counters lz fuel x1 x2 true h
  exact ⟨by rw [d1, c1, m0]; simp, by rw [d2, c2, e0]⟩

theorem GSDumpXz.session_fed {κ : Type} (lz : LzmaLib κ) (fuel regSize room : Nat)
    (crc : Nat) (fd : GSFreezeData) (regs : Ptr) (evs : List Event) (x2 : GSDumpXz κ)
    (hinit : (lz.lzma_easy_encoder lz.LZMA_STREAM_INIT 6).2 = lzma_ret.LZMA_OK)
    (h : GSDumpXz.session lz fuel regSize (some room) crc fd regs evs = .ok x2) :
    fedBytes x2.derived.log = headerOf regSize crc fd regs ++ framesOf regSize evs ∧
      x2.derived.m_in_buff = [] := by
  unfold GSDumpXz.session at h
  obtain ⟨x, hx, h⟩ := (bind_ok_iff _ _ _).1 h
  obtain ⟨x1, hx1, h⟩ := (bind_ok_iff _ _ _).1 h
  unfold GSDumpXz.ctor at hx
  simp only [hinit, ne_eq, not_true_eq_false, if_false] at hx
  obtain ⟨o, b, _, _⟩ :=
    AddHeader_emits (GSDumpXz.buffered_emits lz fuel) regSize _ x crc fd regs
      (by simp [GSDumpXz.Open, GSDumpBase.ctor, fopen]) hx
  obtain ⟨o1, b1, _, _⟩ := run_emits (GSDumpXz.buffered_emits lz fuel) regSize evs x x1 o hx1
  obtain ⟨_, st, hb, _, _⟩ := Flush_keeps lz fuel x1 x2 true o1 h
  refine ⟨?_, hb⟩
  have hst : GSDumpXz.stream x2 = fedBytes x2.derived.log := by
    simp [GSDumpXz.stream, hb]
  rw [← hst, st, b1, b]
  simp [GSDumpXz.stream, GSDumpBase.ctor, fedBytes]

/-- C10: on a direct writer with an open sink every call returns; `VSync` increases the frame
counter by exactly 1 whatever `last` is, and decreases the extra-frames countdown by exactly 1 when
`last` is true and leaves it otherwise; `Transfer`, `ReadFIFO` and `AddHeader` change neither.
Hence after any call sequence on a fresh session the frame counter is the number of `VSync` calls
and the countdown is 2 minus the number of `VSync` calls with `last = true`; the same holds for
every session of the compressing writer that runs to its end. -/
theorem counters_track_vsyncs (regSize : Nat) :
    (∀ (s : GSDump) (f : FILE) (field : Int) (last : Bool) (regs : Ptr), s.m_gs = some f →
      ∃ s1 r, GSDumpBase.VSync GSDump.vtable regSize s field last regs = .ok (s1, r) ∧
        s1.m_frames = s.m_frames + 1 ∧
        s1.m_extra_frames = s.m_extra_frames - (if last then 1 else 0)) ∧
    (∀ (s : GSDump) (f : FILE) (index : Int) (mem : Ptr) (size : Nat), s.m_gs = some f →
      ∃ s1, GSDumpBase.Transfer GSDump.vtable s index mem size = .ok s1 ∧
        s1.m_frames = s.m_frames ∧ s1.m_extra_frames = s.m_extra_frames) ∧
    (∀ (s : GSDump) (f : FILE) (size : Nat), s.m_gs = some f →
      ∃ s1, GSDumpBase.ReadFIFO GSDump.vtable s size = .ok s1 ∧
        s1.m_frames = s.m_frames ∧ s1.m_extra_frames = s.m_extra_frames) ∧
    (∀ (s : GSDump) (f : FILE) (crc : Nat) (fd : GSFreezeData) (regs : Ptr), s.m_gs = some f →
      ∃ s1, GSDumpBase.AddHeader GSDump.vtable regSize s crc fd regs = .ok s1 ∧
        s1.m_frames = s.m_frames ∧ s1.m_extra_frames = s.m_extra_frames) ∧
    (∀ (room crc : Nat) (fd : GSFreezeData) (regs : Ptr) (evs : List Event),
      ∃ s1, GSDump.session regSize (some room) crc fd regs evs = .ok s1 ∧
        s1.m_frames = countVSync evs ∧ s1.m_extra_frames = 2 - countLastField evs) ∧
    (∀ (κ : Type) (lz : LzmaLib κ) (fuel : Nat) (outcome : Option Nat) (crc : Nat)
      (fd : GSFreezeData) (regs : Ptr) (evs : List Event) (x2 : GSDumpXz κ),
      GSDumpXz.session lz fuel regSize outcome crc fd regs evs = .ok x2 →
        x2.m_frames = countVSync evs ∧ x2.m_extra_frames = 2 - countLastField evs) := by
  refine ⟨?_, ?_, ?_, ?_, ?_, ?_⟩
  · intro s f field last regs hf
    obtain ⟨s1, r, h1, _, c1, c2, _⟩ := GSDump.VSync_sink regSize s f field last regs hf
    exact ⟨s1, r, h1, c1, c2⟩
  · intro s f index mem size hf
    obtain ⟨s1, h1, _, c1, c2⟩ := GSDump.Transfer_sink s f index mem size hf
    exact ⟨s1, h1, c1, c2⟩
  · intro s f size hf
    obtain ⟨s1, h1, _, c1, c2⟩ := GSDump.ReadFIFO_sink s f size hf
    exact ⟨s1, h1, c1, c2⟩
  · intro s f crc fd regs hf
    obtain ⟨s1, h1, _, c1, c2⟩ := GSDump.AddHeader_sink regSize s f crc fd regs hf
    exact ⟨s1, h1, c1, c2⟩
  · intro room crc fd regs evs
    obtain ⟨s1, h1, _, c1, c2⟩ := GSDump.session_file regSize room crc fd regs evs
    exact ⟨s1, h1, c1, c2⟩
  · intro κ lz fuel outcome crc fd regs evs x2 h
    exact GSDumpXz.session_counters lz fuel regSize outcome crc fd regs evs x2 h

/-- C10 at a concrete session: after the five sample calls (two of them `VSync`, one with
`last = true`) a compressing writer that ran to its end has counted 2 frames and its countdown
is `2 - 1`. -/
theorem counters_track_vsyncs_witness :
    ∃ x2, GSDumpXz.session nullLz 1 2 (some 100) 1 ⟨1, constMem 5⟩ (constMem 6) sampleCalls =
        .ok x2 ∧
      x2.m_frames = countVSync sampleCalls ∧ x2.m_extra_frames = 2 - countLastField sampleCalls ∧
      countVSync sampleCalls = 2 ∧ countLastField sampleCalls = 1 :=
  ⟨_, rfl, ((counters_track_vsyncs 2).2.2.2.2.2 Unit nullLz 1 (some 100) 1 ⟨1, constMem 5⟩
    (constMem 6) sampleCalls _ rfl).1, ((counters_track_vsyncs 2).2.2.2.2.2 Unit nullLz 1
    (some 100) 1 ⟨1, constMem 5⟩ (constMem 6) sampleCalls _ rfl).2, rfl, rfl⟩

/-- The raw-byte half of C1: for every call sequence made identically on a compressing writer
(sink open, encoder initialised) and on a direct writer (sink open), if the compressing writer's session runs to the
end of its destructor, then the direct writer's session returns too, nothing is left in the
compressing writer's buffer, and the input blocks handed to the encoder over all `Flush` calls up
to and including the destructor's, concatenated in call order, are the bytes the direct writer
offers its sink: the file holds the part of them the device accepts, and all of them, byte for
byte, when the device accepts that many. -/
theorem xz_raw_stream_eq_direct {κ : Type} (lz : LzmaLib κ) (fuel regSize roomX roomD : Nat)
    (crc : Nat) (fd : GSFreezeData) (regs : Ptr) (evs : List Event) (x2 : GSDumpXz κ)
    (hinit : (lz.lzma_easy_encoder lz.LZMA_STREAM_INIT 6).2 = lzma_ret.LZMA_OK)
    (hx : GSDumpXz.session lz fuel regSize (some roomX) crc fd regs evs = .ok x2) :
    ∃ d1, GSDump.session regSize (some roomD) crc fd regs evs = .ok d1 ∧
      d1.dtor = some ((fedBytes x2.derived.log).take roomD) ∧
      ((fedBytes x2.derived.log).length ≤ roomD → d1.dtor = some (fedBytes x2.derived.log)) ∧
      x2.derived.m_in_buff = [] := by
  obtain ⟨hfed, hb⟩ := GSDumpXz.session_fed lz fuel regSize roomX crc fd regs evs x2 hinit hx
  obtain ⟨d1, h1, hd, _, _⟩ := GSDump.session_file regSize roomD crc fd regs evs
  refine ⟨d1, h1, by rw [hd, hfed], ?_, hb⟩
  intro hle
  rw [hd, hfed, List.take_of_length_le (by rw [← hfed]; exact hle)]

/-- The raw-byte half of C1 at a concrete session: the five sample calls after a header, on a compressing writer
whose encoder accepts everything, and on a direct writer with room for 100 bytes. -/
theorem xz_raw_stream_eq_direct_witness :
    (nullLz.lzma_easy_encoder nullLz.LZMA_STREAM_INIT 6).2 = lzma_ret.LZMA_OK ∧
    ∃ x2, GSDumpXz.session nullLz 1 2 (some 100) 1 ⟨1, constMem 5⟩ (constMem 6) sampleCalls =
        .ok x2 ∧
      ∃ d1, GSDump.session 2 (some 100) 1 ⟨1, constMem 5⟩ (constMem 6) sampleCalls = .ok d1 ∧
        d1.dtor = some ((fedBytes x2.derived.log).take 100) ∧
        ((fedBytes x2.derived.log).length ≤ 100 → d1.dtor = some (fedBytes x2.derived.log)) ∧
        x2.derived.m_in_buff = [] :=
  ⟨rfl, _, rfl, xz_raw_stream_eq_direct nullLz 1 2 100 100 1 ⟨1, constMem 5⟩ (constMem 6)
    sampleCalls _ rfl rfl⟩

/-! ## Teardown -/

theorem countEnd_append (l1 l2 : List LzmaEvent) :
    countEnd (l1 ++ l2) = countEnd l1 + countEnd l2 := by
  induction l1 with
  | nil => simp [countEnd]
  | cons e es ih => cases e <;> simp [countEnd, ih]; omega

theorem countFinish_append (l1 l2 : List LzmaEvent) :
    countFinish (l1 ++ l2) = countFinish l1 + countFinish l2 := by
  induction l1 with
  | nil => simp [countFinish]
  | cons e es ih =>
    cases e with
    | code a r p => cases a <;> simp [countFinish, ih]; omega
    | _ => simp [countFinish, ih]

theorem flushBody_run_counts {κ : Type} (lz : LzmaLib κ) (s s1 : GSDumpXz κ)
    (h : GSDumpXz.flushBody lz lzma_action.LZMA_RUN s = .ok s1) :
    countFinish s1.derived.log = countFinish s.derived.log ∧
      countEnd s1.derived.log = countEnd s.derived.log := by
  have h1 : GSDumpXz.writeOut
      (GSDumpXz.checkRet (GSDumpXz.callCode lz lzma_action.LZMA_RUN s).1
        (GSDumpXz.callCode lz lzma_action.LZMA_RUN s).2.1)
      (GSDumpXz.callCode lz lzma_action.LZMA_RUN s).2.2
      (OUT_BUFF_SIZE - (GSDumpXz.checkRet (GSDumpXz.callCode lz lzma_action.LZMA_RUN s).1
        (GSDumpXz.callCode lz lzma_action.LZMA_RUN s).2.1).derived.m_strm.avail_out) =
        .ok s1 := h
  obtain ⟨hd, _, _, _⟩ := writeOut_keeps _ _ _ _ h1
  obtain ⟨c1, _, _, _, _⟩ :=
    checkRet_keeps (GSDumpXz.callCode lz lzma_action.LZMA_RUN s).1
      (GSDumpXz.callCode lz lzma_action.LZMA_RUN s).2.1
  rw [hd, c1]
  simp [GSDumpXz.callCode, countFinish_append, countEnd_append, countFinish, countEnd]

theorem flushLoop_run_counts {κ : Type} (lz : LzmaLib κ) (fuel : Nat) :
    ∀ s s1 : GSDumpXz κ, GSDumpXz.flushLoop lz lzma_action.LZMA_RUN fuel s = .ok s1 →
      countFinish s1.derived.log = countFinish s.derived.log ∧
        countEnd s1.derived.log = countEnd s.derived.log := by
  induction fuel with
  | zero =>
    intro s s1 h
    simp [GSDumpXz.flushLoop, throw, throwThe, MonadExceptOf.throw] at h
  | succ fuel ih =>
    intro s s1 h
    simp only [GSDumpXz.flushLoop] at h
    obtain ⟨a, ha, h⟩ := (bind_ok_iff _ _ _).1 h
    obtain ⟨k1, k2⟩ := flushBody_run_counts lz s a ha
    by_cases hz : a.derived.m_strm.avail_out = 0
    · simp only [hz, if_true] at h
      obtain ⟨j1, j2⟩ := ih a s1 h
      exact ⟨j1.trans k1, j2.trans k2⟩
    · simp only [hz, if_false, pure, Except.pure, Except.ok.injEq] at h
      subst h
      exact ⟨k1, k2⟩

theorem Flush_run_counts {κ : Type} (lz : LzmaLib κ) (fuel : Nat) (s s1 : GSDumpXz κ)
    (h : GSDumpXz.Flush lz fuel s false = .ok s1) :
    countFinish s1.derived.log = countFinish s.derived.log ∧
      countEnd s1.derived.log = countEnd s.derived.log ∧ s1.derived.m_in_buff = [] := by
  unfold GSDumpXz.Flush at h
  by_cases hg : s.m_gs.isNone = true ∨ s.derived.m_in_buff.isEmpty = true
  · simp only [hg, if_true, pure, Except.pure, Except.ok.injEq] at h
    subst h
    exact ⟨rfl, rfl, rfl⟩
  · simp only [hg, if_false, Bool.false_eq_true] at h
    obtain ⟨a, ha, h⟩ := (bind_ok_iff _ _ _).1 h
    obtain ⟨k1, k2⟩ := flushLoop_run_counts lz fuel _ a ha
    simp only [pure, Except.pure, Except.ok.injEq] at h
    subst h
    simp only [countFinish_append, countEnd_append, countFinish, countEnd, Nat.add_zero] at k1 k2
    exact ⟨k1, k2, rfl⟩

theorem Flush_empty {κ : Type} (lz : LzmaLib κ) (fuel : Nat) (s : GSDumpXz κ) (close : Bool)
    (hb : s.derived.m_in_buff = []) :
    GSDumpXz.Flush lz fuel s close = .ok s := by
  unfold GSDumpXz.Flush
  have hg : s.m_gs.isNone = true ∨ s.derived.m_in_buff.isEmpty = true := by
    right; simp [hb]
  simp only [hg, if_true, pure, Except.pure, Except.ok.injEq]
  rw [← hb]

theorem GSDumpXz.AppendRawData_counts {κ : Type} (lz : LzmaLib κ) (fuel : Nat)
    (s s1 : GSDumpXz κ) (p : Ptr) (n : Nat)
    (h : GSDumpXz.AppendRawData lz fuel s p n = .ok s1) :
    countFinish s1.derived.log = countFinish s.derived.log ∧
      countEnd s1.derived.log = countEnd s.derived.log ∧
      (IN_BUFF_LIMIT < n → s1.derived.m_in_buff = []) := by
  unfold GSDumpXz.AppendRawData at h
  simp only at h
  split at h
  · obtain ⟨k1, k2, k3⟩ := Flush_run_counts lz fuel _ s1 h
    exact ⟨k1, k2, fun _ => k3⟩
  · rename_i hn
    simp only [pure, Except.pure, Except.ok.injEq] at h
    subst h
    refine ⟨rfl, rfl, ?_⟩
    intro hlt
    simp only [List.length_append, readBytes_length] at hn
    omega

theorem GSDumpXz.unfinalized_emits {κ : Type} (lz : LzmaLib κ) (fuel : Nat) :
    Emits (GSDumpXz.vtable lz fuel) (fun _ => True)
      (fun s _ s1 => countFinish s1.derived.log = countFinish s.derived.log ∧
        countEnd s1.derived.log = countEnd s.derived.log) where
  nil := fun _ _ => ⟨rfl, rfl⟩
  trans := fun _ _ _ _ _ h1 h2 => ⟨h2.1.trans h1.1, h2.2.trans h1.2⟩
  bumpP := fun _ _ _ _ => trivial
  bumpR := fun _ _ _ _ _ h => h
  block := by
    intro s p n s1 _ h
    obtain ⟨k1, k2, _⟩ := GSDumpXz.AppendRawData_counts lz fuel s s1 p n h
    obtain ⟨_, _, c1, c2⟩ := (GSDumpXz.counters_emits lz fuel).block s p n s1 trivial h
    exact ⟨trivial, ⟨k1, k2⟩, c1, c2⟩
  byte := by
    intro s c s1 _ h
    simp only [GSDumpXz.vtable, GSDumpXz.AppendRawDataByte, pure, Except.pure,
      Except.ok.injEq] at h
    subst h
    exact ⟨trivial, ⟨rfl, rfl⟩, rfl, rfl⟩

theorem GSDumpXz.Transfer_drains {κ : Type} (lz : LzmaLib κ) (fuel : Nat)
    (s s1 : GSDumpXz κ) (index : Int) (mem : Ptr) (size : Nat) (hsize : IN_BUFF_LIMIT < size)
    (h : GSDumpBase.Transfer (GSDumpXz.vtable lz fuel) s index mem size = .ok s1) :
    s1.derived.m_in_buff = [] := by
  unfold GSDumpBase.Transfer at h
  have hz : size ≠ 0 := by
    intro h0
    simp [h0, IN_BUFF_LIMIT] at hsize
  simp only [hz, if_false] at h
  obtain ⟨a, _, h⟩ := (bind_ok_iff _ _ _).1 h
  obtain ⟨b, _, h⟩ := (bind_ok_iff _ _ _).1 h
  obtain ⟨c, _, h⟩ := (bind_ok_iff _ _ _).1 h
  exact (GSDumpXz.AppendRawData_counts lz fuel c s1 mem size h).2.2 hsize

/-- Every session of a compressing writer whose last call is a `Transfer` of more than
`IN_BUFF_LIMIT` bytes ends without any `lzma_code(LZMA_FINISH)` and without `lzma_end`. -/
theorem GSDumpXz.session_not_finalized {κ : Type} (lz : LzmaLib κ) (fuel regSize : Nat)
    (outcome : Option Nat) (crc : Nat) (fd : GSFreezeData) (regs : Ptr) (evs : List Event)
    (index : Int) (mem : Ptr) (size : Nat) (x2 : GSDumpXz κ) (hsize : IN_BUFF_LIMIT < size)
    (h : GSDumpXz.session lz fuel regSize outcome crc fd regs
      (evs ++ [.transfer index mem size]) = .ok x2) :
    countFinish x2.derived.log = 0 ∧ countEnd x2.derived.log = 0 := by
  unfold GSDumpXz.session at h
  obtain ⟨x, hx, h⟩ := (bind_ok_iff _ _ _).1 h
  obtain ⟨x1, hx1, h⟩ := (bind_ok_iff _ _ _).1 h
  have h0 : countFinish x.derived.log = 0 ∧ countEnd x.derived.log = 0 := by
    unfold GSDumpXz.ctor at hx
    simp only at hx
    split at hx
    · simp only [pure, Except.pure, Except.ok.injEq] at hx
      subst hx
      exact ⟨rfl, rfl⟩
    · obtain ⟨_, r, _, _⟩ :=
        AddHeader_emits (GSDumpXz.unfinalized_emits lz fuel) regSize _ x crc fd regs trivial hx
      exact ⟨r.1, r.2⟩
  obtain ⟨_, r1, _, _⟩ :=
    run_emits (GSDumpXz.unfinalized_emits lz fuel) regSize _ x x1 trivial hx1
  have hb : x1.derived.m_in_buff = [] := by
    rw [run_append] at hx1
    obtain ⟨y, _, hy⟩ := (bind_ok_iff _ _ _).1 hx1
    exact GSDumpXz.Transfer_drains lz fuel y x1 index mem size hsize hy
  have hd : x2 = x1 := by
    have := h.symm.trans (Flush_empty lz fuel x1 true hb)
    simpa using this
  rw [hd, r1.1, r1.2]
  exact h0

theorem OUT_BUFF_SIZE_pos : OUT_BUFF_SIZE ≠ 0 := by
  unfold OUT_BUFF_SIZE
  omega

theorem writeOut_zero {κ : Type} (t : GSDumpXz κ) (o : List Byte) :
    GSDumpXz.writeOut t o 0 = .ok t := by
  simp [GSDumpXz.writeOut, pure, Except.pure]

theorem nullLz_flushBody (action : lzma_action) (s : GSDumpXz Unit) :
    ∃ s1, GSDumpXz.flushBody nullLz action s = .ok s1 ∧
      s1.derived.m_strm.avail_out = OUT_BUFF_SIZE := by
  have ha : (GSDumpXz.checkRet (GSDumpXz.callCode nullLz action s).1
      (GSDumpXz.callCode nullLz action s).2.1).derived.m_strm.avail_out = OUT_BUFF_SIZE := by
    rw [(checkRet_keeps _ _).2.1]
    simp [GSDumpXz.callCode, nullLz]
  refine ⟨GSDumpXz.checkRet (GSDumpXz.callCode nullLz action s).1
      (GSDumpXz.callCode nullLz action s).2.1, ?_, ha⟩
  show GSDumpXz.writeOut _ _ (OUT_BUFF_SIZE - _) = _
  rw [ha, Nat.sub_self]
  exact writeOut_zero _ _

theorem flushLoop_succ {κ : Type} (lz : LzmaLib κ) (action : lzma_action) (fuel : Nat)
    (s : GSDumpXz κ) :
    GSDumpXz.flushLoop lz action (fuel + 1) s =
      (GSDumpXz.flushBody lz action s >>= fun self =>
        if self.derived.m_strm.avail_out = 0 then GSDumpXz.flushLoop lz action fuel self
        else pure self) := by
  simp only [GSDumpXz.flushLoop]

theorem nullLz_flushLoop (action : lzma_action) (fuel : Nat) (s : GSDumpXz Unit) :
    ∃ s1, GSDumpXz.flushLoop nullLz action (fuel + 1) s = .ok s1 := by
  obtain ⟨a, ha, hz⟩ := nullLz_flushBody action s
  have hne : ¬ a.derived.m_strm.avail_out = 0 := by
    rw [hz]; exact OUT_BUFF_SIZE_pos
  refine ⟨a, ?_⟩
  rw [flushLoop_succ, ha]
  simp only [bind, Except.bind, hne, if_false, pure, Except.pure]

theorem bind_returns {ε α β : Type} {x : Except ε α} {f : α → Except ε β}
    (hx : ∃ a, x = Except.ok a) (hf : ∀ a, ∃ b, f a = Except.ok b) :
    ∃ b, (x >>= f) = Except.ok b := by
  obtain ⟨a, ha⟩ := hx
  obtain ⟨b, hb⟩ := hf a
  exact ⟨b, (bind_ok_iff _ _ _).2 ⟨a, ha, hb⟩⟩

theorem nullLz_Flush (fuel : Nat) (s : GSDumpXz Unit) (close : Bool) :
    ∃ s1, GSDumpXz.Flush nullLz (fuel + 1) s close = .ok s1 := by
  unfold GSDumpXz.Flush
  by_cases hg : s.m_gs.isNone = true ∨ s.derived.m_in_buff.isEmpty = true
  · rw [if_pos hg]
    exact ⟨_, rfl⟩
  · rw [if_neg hg]
    apply bind_returns (nullLz_flushLoop _ _ _)
    intro a
    cases close <;> exact ⟨_, rfl⟩

theorem nullLz_returns (fuel : Nat) :
    Returns (GSDumpXz.vtable nullLz (fuel + 1)) (fun _ => True) where
  block := by
    intro s p n _
    simp only [GSDumpXz.vtable, GSDumpXz.AppendRawData]
    split
    · obtain ⟨a, ha⟩ := nullLz_Flush fuel
        { s with derived := { s.derived with
            m_in_buff := s.derived.m_in_buff ++ readBytes p n } } false
      exact ⟨a, ha, trivial⟩
    · exact ⟨_, rfl, trivial⟩
  byte := by
    intro s c _
    exact ⟨_, rfl, trivial⟩
  bumpP := fun _ _ _ _ => trivial

theorem nullLz_session (fuel regSize : Nat) (outcome : Option Nat) (crc : Nat)
    (fd : GSFreezeData) (regs : Ptr) (evs : List Event) :
    ∃ x2, GSDumpXz.session nullLz (fuel + 1) regSize outcome crc fd regs evs = .ok x2 := by
  obtain ⟨x, hx, _⟩ := AddHeader_returns (nullLz_returns fuel) regSize
    (GSDumpBase.ctor outcome
      { m_in_buff := []
        m_strm := { next_in := [], avail_out := 0, internal := () }
        log := [LzmaEvent.easy_encoder lzma_ret.LZMA_OK] }) crc fd regs trivial
  obtain ⟨x1, hx1, _⟩ := run_returns (nullLz_returns fuel) regSize evs x trivial
  obtain ⟨x2, hx2⟩ := nullLz_Flush fuel x1 true
  refine ⟨x2, ?_⟩
  have hc : GSDumpXz.ctor nullLz (fuel + 1) regSize outcome crc fd regs = .ok x := by
    rw [← hx]
    simp [GSDumpXz.ctor, nullLz]
  simp only [GSDumpXz.session, hc, hx1, GSDumpXz.dtor, hx2, bind, Except.bind]

/-- C6 on the code: a compressing writer whose sink opened and whose encoder initialised, whose
only call after the header is a `Transfer` of `IN_BUFF_LIMIT + 1` bytes, runs to the end of its
destructor having made no `lzma_code(LZMA_FINISH)` call and no `lzma_end` call: the `Flush(false)`
made by the last append emptied the buffer, and `Flush(true)` returns early on an empty buffer.
The same writer with the five sample calls instead makes one of each. -/
theorem xz_teardown_skips_finalize :
    (nullLz.lzma_easy_encoder nullLz.LZMA_STREAM_INIT 6).2 = lzma_ret.LZMA_OK ∧
    (∃ x2, GSDumpXz.session nullLz 1 2 (some 100) 1 ⟨1, constMem 5⟩ (constMem 6)
        [.transfer 1 (constMem 7) (IN_BUFF_LIMIT + 1)] = .ok x2 ∧
      countFinish x2.derived.log = 0 ∧ countEnd x2.derived.log = 0) ∧
    (∃ x2, GSDumpXz.session nullLz 1 2 (some 100) 1 ⟨1, constMem 5⟩ (constMem 6)
        sampleCalls = .ok x2 ∧
      countFinish x2.derived.log = 1 ∧ countEnd x2.derived.log = 1) := by
  refine ⟨rfl, ?_, ⟨_, rfl, by decide, by decide⟩⟩
  obtain ⟨x2, h⟩ := nullLz_session 0 2 (some 100) 1 ⟨1, constMem 5⟩ (constMem 6)
    [.transfer 1 (constMem 7) (IN_BUFF_LIMIT + 1)]
  exact ⟨x2, h, GSDumpXz.session_not_finalized nullLz 1 2 (some 100) 1 ⟨1, constMem 5⟩
    (constMem 6) [] 1 (constMem 7) (IN_BUFF_LIMIT + 1) x2 (Nat.lt_succ_self _) h⟩

/-! ## The direct writer's diagnostics -/

theorem GSDump.AppendRawData_diag (s : GSDump) (f : FILE) (p : Ptr) (n : Nat)
    (h : s.m_gs = some f) :
    GSDump.AppendRawData s p n =
      .ok { s with
        m_gs := some (f.put (readBytes p n))
        diag := s.diag ++
          (if n = 0 ∨ (n = 1 ∧ 1 ≤ f.room) then [] else [Diag.gsdumpWriteFailed]) } := by
  have hf : (fwrite p n 1 f).2 = f.put (readBytes p n) := by
    simp only [fwrite, FILE.put, Nat.mul_one, readBytes_min, readBytes_length]
    congr 1
    omega
  have hw : (fwrite p n 1 f).1 ≠ n ↔ ¬ (n = 0 ∨ (n = 1 ∧ 1 ≤ f.room)) := by
    simp only [fwrite, Nat.mul_one]
    by_cases h0 : n = 0
    · simp [h0]
    · simp only [h0, if_false, false_or]
      by_cases h1 : n = 1
      · subst h1
        simp only [Nat.div_one, true_and]
        omega
      · have : min n f.room / n ≤ 1 := by
          apply Nat.div_le_of_le_mul
          have := Nat.min_le_left n f.room
          omega
        simp only [h1, false_and, not_false_eq_true, iff_true]
        omega
  unfold GSDump.AppendRawData
  simp only [h]
  by_cases hc : n = 0 ∨ (n = 1 ∧ 1 ≤ f.room)
  · have hn : ¬ (fwrite p n 1 f).1 ≠ n := fun hx => (hw.1 hx) hc
    simp [hn, hc, hf, pure, Except.pure]
  · have hn : (fwrite p n 1 f).1 ≠ n := hw.2 hc
    simp [hn, hc, hf, pure, Except.pure]

/-- C11 on the code: `AppendRawData(data, 4)` on a direct writer whose open, empty sink has room
for 100 bytes writes all 4 bytes (no short write) and still reports the write-failure
diagnostic, because `fwrite(data, size, 1, m_gs)` returns the item count 1, which is compared
with `size`; with `size = 1` the same write reports nothing. -/
theorem AppendRawData_reports_on_success :
    GSDump.AppendRawData (GSDumpBase.ctor (some 100) ()) (constMem 7) 4 =
      .ok { m_frames := 0, m_extra_frames := 2, m_gs := some ⟨[7, 7, 7, 7], 96⟩, derived := (),
            diag := [Diag.gsdumpWriteFailed] } ∧
    GSDump.AppendRawData (GSDumpBase.ctor (some 100) ()) (constMem 7) 1 =
      .ok { m_frames := 0, m_extra_frames := 2, m_gs := some ⟨[7], 99⟩, derived := (),
            diag := [] } := by
  constructor <;> rfl

/-! ## The length field of `Transfer` -/

theorem le32_of_multiple (v : Nat) (h : v % 2 ^ 32 = 0) : le32 v = [0, 0, 0, 0] := by
  have h0 : v / 256 ^ 0 % 256 = 0 := by omega
  have h1 : v / 256 ^ 1 % 256 = 0 := by omega
  have h2 : v / 256 ^ 2 % 256 = 0 := by omega
  have h3 : v / 256 ^ 3 % 256 = 0 := by omega
  simp only [le32, leByte, h0, h1, h2, h3]
  rfl

/-- C19: for every `Transfer` with a non-zero size (a `size_t`, possibly `2^32` or more) on a
direct writer whose open sink accepts the bytes, the 4-byte length field written is
`size mod 2^32`, little-endian, while the payload written after it is the full `size` bytes; so
the length field equals the payload byte count exactly when `size < 2^32`, and a size that is a
multiple of `2^32` gives a frame whose length field is `00 00 00 00`. -/
theorem Transfer_length_field_truncates (s : GSDump) (f : FILE) (index : Int) (mem : Ptr)
    (size : Nat) (hopen : s.m_gs = some f) (hne : size ≠ 0) (hroom : 6 + size ≤ f.room) :
    ∃ s1, GSDumpBase.Transfer GSDump.vtable s index mem size = .ok s1 ∧
      s1.m_gs = some
        { bytes := f.bytes ++ ([0, toUint8 index] ++ le32 size ++ readBytes mem size)
          room := f.room - (6 + size) } ∧
      leValue (le32 size) = size % 2 ^ 32 ∧
      (readBytes mem size).length = size ∧
      (leValue (le32 size) = (readBytes mem size).length ↔ size < 2 ^ 32) ∧
      (size % 2 ^ 32 = 0 → le32 size = [0, 0, 0, 0]) := by
  obtain ⟨s1, h1, hs, _, _⟩ := GSDump.Transfer_sink s f index mem size hopen
  have hl : ([0, toUint8 index] ++ le32 size ++ readBytes mem size).length = 6 + size := by
    simp [le32_length, readBytes_length]
    omega
  refine ⟨s1, h1, ?_, leValue_le32 size, readBytes_length mem size, ?_, le32_of_multiple size⟩
  · rw [hs]
    simp only [frameOf, hne, if_false]
    rw [FILE.put_of_le _ _ (by rw [hl]; exact hroom), hl]
  · rw [leValue_le32, readBytes_length]
    constructor
    · intro h
      have := Nat.mod_lt size (show 0 < 2 ^ 32 by norm_num)
      omega
    · intro h
      exact Nat.mod_eq_of_lt h

/-- C19 at a concrete call: `Transfer(1, mem, 2^32)` on an empty sink with room for `2^33`
bytes. -/
theorem Transfer_length_field_truncates_witness :
    ((2 ^ 32 : Nat) ≠ 0 ∧ 6 + 2 ^ 32 ≤ 2 ^ 33) ∧
    ∃ s1, GSDumpBase.Transfer GSDump.vtable (GSDumpBase.ctor (some (2 ^ 33)) ()) 1
        (constMem 7) (2 ^ 32) = .ok s1 ∧
      s1.m_gs = some
        { bytes := [] ++ ([0, toUint8 1] ++ le32 (2 ^ 32) ++ readBytes (constMem 7) (2 ^ 32))
          room := 2 ^ 33 - (6 + 2 ^ 32) } ∧
      leValue (le32 (2 ^ 32)) = 2 ^ 32 % 2 ^ 32 ∧
      (readBytes (constMem 7) (2 ^ 32)).length = 2 ^ 32 ∧
      (leValue (le32 (2 ^ 32)) = (readBytes (constMem 7) (2 ^ 32)).length ↔
        2 ^ 32 < 2 ^ 32) ∧
      (2 ^ 32 % 2 ^ 32 = 0 → le32 (2 ^ 32) = [0, 0, 0, 0]) :=
  ⟨by norm_num, Transfer_length_field_truncates (GSDumpBase.ctor (some (2 ^ 33)) ())
    ⟨[], 2 ^ 33⟩ 1 (constMem 7) (2 ^ 32) rfl (by norm_num) (by norm_num)⟩

/-! ## `Flush` and the appends of the compressing writer -/

theorem Flush_guard {κ : Type} (lz : LzmaLib κ) (fuel : Nat) (s : GSDumpXz κ) (close : Bool)
    (h : s.m_gs = none ∨ s.derived.m_in_buff = []) :
    ∃ s1, GSDumpXz.Flush lz fuel s close = .ok s1 ∧
      s1.m_gs = s.m_gs ∧ s1.derived.log = s.derived.log ∧
      s1.derived.m_strm = s.derived.m_strm ∧ s1.diag = s.diag ∧
      s1.derived.m_in_buff = [] ∧
      s1.m_frames = s.m_frames ∧ s1.m_extra_frames = s.m_extra_frames := by
  have hg : s.m_gs.isNone = true ∨ s.derived.m_in_buff.isEmpty = true := by
    rcases h with h | h
    · left; simp [h]
    · right; simp [h]
  refine ⟨{ s with derived := { s.derived with m_in_buff := [] } }, ?_,
    rfl, rfl, rfl, rfl, rfl, rfl, rfl⟩
  unfold GSDumpXz.Flush
  rw [if_pos hg]
  rfl

/-- C17: in every state and for both values of `close`, if the sink is absent or the buffer is
empty then `Flush` returns (whatever the fuel), with the sink, the encoder stream, the record of
encoder calls and the diagnostics exactly as they were (nothing written, no encoder call) and
the buffer empty. -/
theorem Flush_skips {κ : Type} (lz : LzmaLib κ) (fuel : Nat) (s : GSDumpXz κ) (close : Bool)
    (h : s.m_gs = none ∨ s.derived.m_in_buff = []) :
    ∃ s1, GSDumpXz.Flush lz fuel s close = .ok s1 ∧
      s1.m_gs = s.m_gs ∧ s1.derived.log = s.derived.log ∧
      s1.derived.m_strm = s.derived.m_strm ∧ s1.diag = s.diag ∧
      s1.derived.m_in_buff = [] ∧
      s1.m_frames = s.m_frames ∧ s1.m_extra_frames = s.m_extra_frames := by
  have hg : s.m_gs.isNone = true ∨ s.derived.m_in_buff.isEmpty = true := by
    rcases h with h | h
    · left; simp [h]
    · right; simp [h]
  refine ⟨{ s with derived := { s.derived with m_in_buff := [] } }, ?_,
    rfl, rfl, rfl, rfl, rfl, rfl, rfl⟩
  unfold GSDumpXz.Flush
  rw [if_pos hg]
  rfl

/-- C17 at a concrete state: a writer without sink holding three buffered bytes, `Flush(true)`
with no fuel at all. -/
theorem Flush_skips_witness :
    ((none : Option FILE) = none ∨ ([1, 2, 3] : List Byte) = []) ∧
    ∃ s1, GSDumpXz.Flush nullLz 0
        ({ m_frames := 0, m_extra_frames := 2, m_gs := none,
           derived := { m_in_buff := [1, 2, 3],
                        m_strm := { next_in := [], avail_out := 0, internal := () },
                        log := [LzmaEvent.easy_encoder lzma_ret.LZMA_OK] },
           diag := [] } : GSDumpXz Unit) true = .ok s1 ∧
      s1.m_gs = none ∧ s1.derived.log = [LzmaEvent.easy_encoder lzma_ret.LZMA_OK] ∧
      s1.derived.m_strm = { next_in := [], avail_out := 0, internal := () } ∧ s1.diag = [] ∧
      s1.derived.m_in_buff = [] ∧
      s1.m_frames = 0 ∧ s1.m_extra_frames = 2 :=
  ⟨Or.inl rfl, Flush_skips nullLz 0 _ true (Or.inl rfl)⟩

/-! ## The loop of `Flush` -/

theorem writeOut_open {κ : Type} (t : GSDumpXz κ) (f : FILE) (out : List Byte)
    (h : t.m_gs = some f) :
    ∃ s1, GSDumpXz.writeOut t out out.length = .ok s1 ∧
      s1.m_gs = some (f.put out) ∧ s1.derived = t.derived ∧
      s1.m_frames = t.m_frames ∧ s1.m_extra_frames = t.m_extra_frames := by
  unfold GSDumpXz.writeOut
  by_cases hn : out.length = 0
  · have ho : out = [] := List.length_eq_zero.1 hn
    refine ⟨t, by simp [hn, pure, Except.pure], ?_, rfl, rfl, rfl⟩
    rw [ho, FILE.put_nil]
    exact h
  · have hf : (fwrite (dataOf out) out.length 1 f).2 = f.put out := by
      simp only [fwrite, FILE.put, Nat.mul_one, readBytes_min, readBytes_dataOf]
      congr 1
      omega
    simp only [hn, ne_eq, not_false_eq_true, if_true, h]
    by_cases hw : (fwrite (dataOf out) out.length 1 f).1 ≠ out.length
    · exact ⟨{ t with m_gs := some (fwrite (dataOf out) out.length 1 f).2
                      diag := t.diag ++ [Diag.xzWriteFailed] },
        by simp only [hw, not_false_eq_true, if_true, pure, Except.pure],
        by simp [hf], rfl, rfl, rfl⟩
    · exact ⟨{ t with m_gs := some (fwrite (dataOf out) out.length 1 f).2 },
        by simp only [hw, if_false, pure, Except.pure], by simp [hf], rfl, rfl, rfl⟩

theorem flushBody_open {κ : Type} (lz : LzmaLib κ) (action : lzma_action) (s : GSDumpXz κ)
    (f : FILE) (h : s.m_gs = some f) :
    ∃ s1, GSDumpXz.flushBody lz action s = .ok s1 ∧
      s1.m_gs = some (f.put (lz.lzma_code s.derived.m_strm.internal s.derived.m_strm.next_in
        action OUT_BUFF_SIZE).produced) ∧
      s1.derived.log = s.derived.log ++
        [CodeResult.event action (lz.lzma_code s.derived.m_strm.internal
          s.derived.m_strm.next_in action OUT_BUFF_SIZE)] ∧
      s1.derived.m_strm =
        { next_in := s.derived.m_strm.next_in.drop (lz.lzma_code s.derived.m_strm.internal
            s.derived.m_strm.next_in action OUT_BUFF_SIZE).consumed
          avail_out := OUT_BUFF_SIZE - (lz.lzma_code s.derived.m_strm.internal
            s.derived.m_strm.next_in action OUT_BUFF_SIZE).produced.length
          internal := (lz.lzma_code s.derived.m_strm.internal s.derived.m_strm.next_in
            action OUT_BUFF_SIZE).internal } ∧
      s1.m_frames = s.m_frames ∧ s1.m_extra_frames = s.m_extra_frames := by
  obtain ⟨c1, c2, c3, c4, c5⟩ :=
    checkRet_keeps (GSDumpXz.callCode lz action s).1 (GSDumpXz.callCode lz action s).2.1
  have hle := lz.produced_le s.derived.m_strm.internal s.derived.m_strm.next_in action
    OUT_BUFF_SIZE
  have hgs : (GSDumpXz.checkRet (GSDumpXz.callCode lz action s).1
      (GSDumpXz.callCode lz action s).2.1).m_gs = some f := by
    rw [c3]; exact h
  have hsize : OUT_BUFF_SIZE - (GSDumpXz.checkRet (GSDumpXz.callCode lz action s).1
      (GSDumpXz.callCode lz action s).2.1).derived.m_strm.avail_out =
      (GSDumpXz.callCode lz action s).2.2.length := by
    rw [c2]
    simp only [GSDumpXz.callCode]
    omega
  obtain ⟨s1, h1, g1, d1, f1, e1⟩ := writeOut_open _ f (GSDumpXz.callCode lz action s).2.2 hgs
  refine ⟨s1, ?_, g1, ?_, ?_, ?_, ?_⟩
  · show GSDumpXz.writeOut _ _ (OUT_BUFF_SIZE - _) = _
    rw [hsize]
    exact h1
  · rw [d1, c1]; rfl
  · rw [d1, c2]; rfl
  · rw [f1, c4]; rfl
  · rw [e1, c5]; rfl

theorem flushLoop_chain {κ : Type} (lz : LzmaLib κ) (action : lzma_action) (fuel : Nat) :
    ∀ (s s1 : GSDumpXz κ) (f : FILE), s.m_gs = some f →
      GSDumpXz.flushLoop lz action fuel s = .ok s1 →
      s1.derived.log = s.derived.log ++
        (codeChain lz action fuel s.derived.m_strm.internal s.derived.m_strm.next_in).map
          (CodeResult.event action) ∧
      s1.m_gs = some (f.put (chainOutput
        (codeChain lz action fuel s.derived.m_strm.internal s.derived.m_strm.next_in))) ∧
      (∃ r, (codeChain lz action fuel s.derived.m_strm.internal
          s.derived.m_strm.next_in).getLast? = some r ∧
        r.produced.length < OUT_BUFF_SIZE) ∧
      s1.m_frames = s.m_frames ∧ s1.m_extra_frames = s.m_extra_frames := by
  induction fuel with
  | zero =>
    intro s s1 f _ h
    simp [GSDumpXz.flushLoop, throw, throwThe, MonadExceptOf.throw] at h
  | succ fuel ih =>
    intro s s1 f hf h
    obtain ⟨a, ha, ga, la, ma, fa, ea⟩ := flushBody_open lz action s f hf
    have hle := lz.produced_le s.derived.m_strm.internal s.derived.m_strm.next_in action
      OUT_BUFF_SIZE
    rw [flushLoop_succ, ha] at h
    simp only [bind, Except.bind] at h
    have hav : a.derived.m_strm.avail_out = OUT_BUFF_SIZE - (lz.lzma_code
        s.derived.m_strm.internal s.derived.m_strm.next_in action
        OUT_BUFF_SIZE).produced.length := by rw [ma]
    by_cases hz : a.derived.m_strm.avail_out = 0
    · have hfull : (lz.lzma_code s.derived.m_strm.internal s.derived.m_strm.next_in action
          OUT_BUFF_SIZE).produced.length = OUT_BUFF_SIZE := by omega
      simp only [hz, if_true] at h
      obtain ⟨l1, g1, ⟨r, hr, hlt⟩, f1, e1⟩ := ih a s1 _ ga h
      rw [ma] at l1 g1 hr
      simp only at l1 g1 hr
      refine ⟨?_, ?_, ⟨r, ?_, hlt⟩, f1.trans fa, e1.trans ea⟩
      · rw [l1, la]
        simp only [codeChain, hfull, if_true, List.map_cons, List.append_assoc,
          List.singleton_append]
      · rw [g1, FILE.put_put]
        simp only [codeChain, hfull, if_true, chainOutput]
      · simp only [codeChain, hfull, if_true]
        cases hc : codeChain lz action fuel (lz.lzma_code s.derived.m_strm.internal
            s.derived.m_strm.next_in action OUT_BUFF_SIZE).internal
            (s.derived.m_strm.next_in.drop (lz.lzma_code s.derived.m_strm.internal
              s.derived.m_strm.next_in action OUT_BUFF_SIZE).consumed) with
        | nil => rw [hc] at hr; simp at hr
        | cons b bs =>
          rw [hc] at hr
          rw [List.getLast?_cons_cons]
          exact hr
    · have hnot : ¬ (lz.lzma_code s.derived.m_strm.internal s.derived.m_strm.next_in action
          OUT_BUFF_SIZE).produced.length = OUT_BUFF_SIZE := by omega
      simp only [hz, if_false, pure, Except.pure, Except.ok.injEq] at h
      subst h
      refine ⟨?_, ?_, ⟨lz.lzma_code s.derived.m_strm.internal s.derived.m_strm.next_in action
        OUT_BUFF_SIZE, ?_, by omega⟩, fa, ea⟩
      · rw [la]
        simp only [codeChain, hnot, if_false, List.map_cons, List.map_nil]
      · rw [ga]
        simp only [codeChain, hnot, if_false, chainOutput, List.append_nil]
      · simp only [codeChain, hnot, if_false, List.getLast?_singleton]

theorem IN_BUFF_LIMIT_eq : IN_BUFF_LIMIT = 2 ^ 30 := by
  unfold IN_BUFF_LIMIT
  norm_num

theorem Flush_open_chain {κ : Type} (lz : LzmaLib κ) (fuel : Nat)
    (s s1 : GSDumpXz κ) (f : FILE) (close : Bool)
    (hopen : s.m_gs = some f) (hbuf : s.derived.m_in_buff ≠ [])
    (h : GSDumpXz.Flush lz fuel s close = .ok s1) :
    s1.derived.log = s.derived.log ++
        [LzmaEvent.feed (if close then lzma_action.LZMA_FINISH else lzma_action.LZMA_RUN)
          s.derived.m_in_buff] ++
        (codeChain lz (if close then lzma_action.LZMA_FINISH else lzma_action.LZMA_RUN) fuel
          s.derived.m_strm.internal s.derived.m_in_buff).map (CodeResult.event
          (if close then lzma_action.LZMA_FINISH else lzma_action.LZMA_RUN)) ++
        (if close then [LzmaEvent.lzma_end] else []) ∧
      s1.m_gs = some (f.put (chainOutput
        (codeChain lz (if close then lzma_action.LZMA_FINISH else lzma_action.LZMA_RUN) fuel
          s.derived.m_strm.internal s.derived.m_in_buff))) ∧
      (∃ r, (codeChain lz (if close then lzma_action.LZMA_FINISH else lzma_action.LZMA_RUN)
          fuel s.derived.m_strm.internal s.derived.m_in_buff).getLast? = some r ∧
        r.produced.length < OUT_BUFF_SIZE) ∧
      s1.derived.m_in_buff = [] := by
  have hg : ¬ (s.m_gs.isNone = true ∨ s.derived.m_in_buff.isEmpty = true) := by
    simp [hopen, hbuf]
  unfold GSDumpXz.Flush at h
  rw [if_neg hg] at h
  obtain ⟨a, ha, h⟩ := (bind_ok_iff _ _ _).1 h
  obtain ⟨l1, g1, hlast, _, _⟩ := flushLoop_chain lz _ fuel _ a f (by exact hopen) ha
  simp only at l1 g1 hlast
  refine ⟨?_, ?_, hlast, ?_⟩
  · cases close with
    | false =>
      simp only [pure, Except.pure, Except.ok.injEq, Bool.false_eq_true, if_false] at h l1 ⊢
      subst h
      simp only [l1, List.append_nil, List.append_assoc]
    | true =>
      simp only [pure, Except.pure, Except.ok.injEq, if_true] at h l1 ⊢
      subst h
      simp only [l1, List.append_assoc]
  · cases close with
    | false =>
      simp only [pure, Except.pure, Except.ok.injEq, Bool.false_eq_true, if_false] at h g1 ⊢
      subst h
      exact g1
    | true =>
      simp only [pure, Except.pure, Except.ok.injEq, if_true] at h g1 ⊢
      subst h
      exact g1
  · cases close with
    | false =>
      simp only [pure, Except.pure, Except.ok.injEq, Bool.false_eq_true, if_false] at h
      subst h; rfl
    | true =>
      simp only [pure, Except.pure, Except.ok.injEq, if_true] at h
      subst h; rfl

theorem append_emits {δ : Type} {vt : VTable δ} {P : GSDumpBase δ → Prop}
    {R : GSDumpBase δ → List Byte → GSDumpBase δ → Prop} (E : Emits vt P R)
    (s s1 : GSDumpBase δ) (a : RawAppend) (hP : P s) (h : vt.append s a = .ok s1) :
    P s1 ∧ R s a.bytes s1 ∧ s1.m_frames = s.m_frames ∧
      s1.m_extra_frames = s.m_extra_frames := by
  cases a with
  | block p n => exact E.block s p n s1 hP h
  | byte c => exact E.byte s c s1 hP h

theorem appendAll_emits {δ : Type} {vt : VTable δ} {P : GSDumpBase δ → Prop}
    {R : GSDumpBase δ → List Byte → GSDumpBase δ → Prop} (E : Emits vt P R)
    (ops : List RawAppend) :
    ∀ s s1 : GSDumpBase δ, P s → vt.appendAll s ops = .ok s1 →
      P s1 ∧ R s (rawBytes ops) s1 ∧ s1.m_frames = s.m_frames ∧
        s1.m_extra_frames = s.m_extra_frames := by
  induction ops with
  | nil =>
    intro s s1 hP h
    simp only [VTable.appendAll, pure, Except.pure, Except.ok.injEq] at h
    subst h
    exact ⟨hP, E.nil _ hP, rfl, rfl⟩
  | cons a as ih =>
    intro s s1 hP h
    simp only [VTable.appendAll] at h
    obtain ⟨b, hb, h⟩ := (bind_ok_iff _ _ _).1 h
    obtain ⟨pb, rb, fb, eb⟩ := append_emits E s b a hP hb
    obtain ⟨pc, rc, fc, ec⟩ := ih b s1 pb h
    exact ⟨pc, E.trans _ _ _ _ _ rb rc, fc.trans fb, ec.trans eb⟩

theorem appendAll_append {δ : Type} (vt : VTable δ) (xs ys : List RawAppend) :
    ∀ s : GSDumpBase δ, vt.appendAll s (xs ++ ys) =
      (vt.appendAll s xs >>= fun s1 => vt.appendAll s1 ys) := by
  induction xs with
  | nil =>
    intro s
    simp only [List.nil_append, VTable.appendAll, bind, Except.bind, pure, Except.pure]
  | cons a as ih =>
    intro s
    simp only [List.cons_append, VTable.appendAll, bind, Except.bind]
    cases vt.append s a with
    | error x => rfl
    | ok b => exact ih b

theorem rawBytes_append (xs ys : List RawAppend) :
    rawBytes (xs ++ ys) = rawBytes xs ++ rawBytes ys := by
  induction xs with
  | nil => rfl
  | cons a as ih => simp [rawBytes, ih]

theorem rawBytes_replicate_byte (n : Nat) (c : Byte) :
    rawBytes (List.replicate n (RawAppend.byte c)) = List.replicate n c := by
  induction n with
  | zero => rfl
  | succ n ih => simp [List.replicate_succ, rawBytes, RawAppend.bytes, ih]

theorem countDrains_append (l1 l2 : List LzmaEvent) :
    countDrains (l1 ++ l2) = countDrains l1 + countDrains l2 := by
  induction l1 with
  | nil => simp [countDrains]
  | cons e es ih =>
    cases e with
    | feed a i => cases a <;> simp [countDrains, ih]; omega
    | _ => simp [countDrains, ih]

theorem countCode_append (l1 l2 : List LzmaEvent) :
    countCode (l1 ++ l2) = countCode l1 + countCode l2 := by
  induction l1 with
  | nil => simp [countCode]
  | cons e es ih => cases e <;> simp [countCode, ih]; omega

theorem counts_of_chain {κ : Type} (action : lzma_action) (rs : List (CodeResult κ)) :
    countDrains (rs.map (CodeResult.event action)) = 0 ∧
      countCode (rs.map (CodeResult.event action)) = rs.length := by
  induction rs with
  | nil => exact ⟨rfl, rfl⟩
  | cons r rs ih => simp [CodeResult.event, countDrains, countCode, ih.1, ih.2]

theorem counts_of_flush_log {κ : Type} (l : List LzmaEvent) (a : lzma_action) (b : List Byte)
    (rs : List (CodeResult κ)) (tail : List LzmaEvent) (hrs : 0 < rs.length) :
    countCode l < countCode (l ++ [LzmaEvent.feed a b] ++ rs.map (CodeResult.event a) ++ tail) ∧
      countDrains (l ++ [LzmaEvent.feed a b] ++ rs.map (CodeResult.event a) ++ tail) =
        countDrains l + countDrains [LzmaEvent.feed a b] + countDrains tail := by
  obtain ⟨d0, c0⟩ := counts_of_chain a rs
  rw [countDrains_append, countDrains_append, countDrains_append, d0]
  rw [countCode_append, countCode_append, countCode_append, c0]
  constructor <;> omega

theorem Flush_open_counts {κ : Type} (lz : LzmaLib κ) (fuel : Nat)
    (s s1 : GSDumpXz κ) (f : FILE) (close : Bool)
    (hopen : s.m_gs = some f) (hbuf : s.derived.m_in_buff ≠ [])
    (h : GSDumpXz.Flush lz fuel s close = .ok s1) :
    countDrains s1.derived.log = countDrains s.derived.log + (if close then 0 else 1) ∧
      countCode s.derived.log < countCode s1.derived.log ∧
      s1.derived.m_in_buff = [] ∧ s1.m_gs.isSome = true := by
  obtain ⟨hlog, hgs, ⟨r, hr, _⟩, hb⟩ := Flush_open_chain lz fuel s s1 f close hopen hbuf h
  have hne : 0 < (codeChain lz (if close then lzma_action.LZMA_FINISH
      else lzma_action.LZMA_RUN) fuel s.derived.m_strm.internal
      s.derived.m_in_buff).length := by
    cases hc : codeChain lz (if close then lzma_action.LZMA_FINISH
      else lzma_action.LZMA_RUN) fuel s.derived.m_strm.internal s.derived.m_in_buff with
    | nil => rw [hc] at hr; simp at hr
    | cons a as => simp
  obtain ⟨k1, k2⟩ := counts_of_flush_log s.derived.log _ s.derived.m_in_buff _
    (if close then [LzmaEvent.lzma_end] else []) hne
  rw [← hlog] at k1 k2
  refine ⟨?_, k1, hb, by simp [hgs]⟩
  rw [k2]
  cases close <;> simp [countDrains]

/-! ## The high-water mark -/

theorem GSDumpXz.AppendRawData_bound {κ : Type} (lz : LzmaLib κ) (fuel : Nat)
    (s s1 : GSDumpXz κ) (p : Ptr) (n : Nat)
    (h : GSDumpXz.AppendRawData lz fuel s p n = .ok s1) :
    s1.derived.m_in_buff.length ≤ IN_BUFF_LIMIT := by
  unfold GSDumpXz.AppendRawData at h
  simp only at h
  split at h
  · obtain ⟨_, _, k3⟩ := Flush_run_counts lz fuel _ s1 h
    simp [k3]
  · rename_i hn
    simp only [pure, Except.pure, Except.ok.injEq] at h
    subst h
    simp only at hn ⊢
    omega

theorem GSDumpXz.AppendRawData_drains {κ : Type} (lz : LzmaLib κ) (fuel : Nat)
    (s s1 : GSDumpXz κ) (p : Ptr) (n : Nat) (hopen : s.m_gs.isSome = true)
    (h : GSDumpXz.AppendRawData lz fuel s p n = .ok s1) :
    s1.m_gs.isSome = true ∧
      ((IN_BUFF_LIMIT < s.derived.m_in_buff.length + n ∧
          countDrains s1.derived.log = countDrains s.derived.log + 1 ∧
          s1.derived.m_in_buff = []) ∨
        (¬ IN_BUFF_LIMIT < s.derived.m_in_buff.length + n ∧
          s1.derived.log = s.derived.log ∧
          s1.derived.m_in_buff = s.derived.m_in_buff ++ readBytes p n)) := by
  obtain ⟨f, hf⟩ := Option.isSome_iff_exists.1 hopen
  unfold GSDumpXz.AppendRawData at h
  simp only at h
  split at h
  · rename_i hn
    simp only [List.length_append, readBytes_length] at hn
    have hbuf : s.derived.m_in_buff ++ readBytes p n ≠ [] := by
      intro h0
      have := congrArg List.length h0
      simp only [List.length_append, readBytes_length, List.length_nil] at this
      omega
    obtain ⟨k1, _, k3, k4⟩ := Flush_open_counts lz fuel _ s1 f false (by exact hf)
      (by exact hbuf) h
    refine ⟨k4, Or.inl ⟨hn, ?_, k3⟩⟩
    simpa using k1
  · rename_i hn
    simp only [List.length_append, readBytes_length] at hn
    simp only [pure, Except.pure, Except.ok.injEq] at h
    subst h
    exact ⟨hopen, Or.inr ⟨by omega, rfl, rfl⟩⟩

theorem GSDumpXz.drains_emits {κ : Type} (lz : LzmaLib κ) (fuel : Nat) :
    Emits (GSDumpXz.vtable lz fuel) (fun s => s.m_gs.isSome = true)
      (fun s b s1 => countDrains s.derived.log ≤ countDrains s1.derived.log ∧
        (countDrains s1.derived.log = countDrains s.derived.log →
          s1.derived.m_in_buff = s.derived.m_in_buff ++ b)) where
  nil := fun _ _ => ⟨Nat.le_refl _, fun _ => by simp⟩
  trans := by
    intro s a s1 b s2 h1 h2
    refine ⟨Nat.le_trans h1.1 h2.1, ?_⟩
    intro heq
    have e1 : countDrains s1.derived.log = countDrains s.derived.log := by
      have := h1.1
      have := h2.1
      omega
    rw [h2.2 (by omega), h1.2 e1, List.append_assoc]
  bumpP := fun _ _ _ h => h
  bumpR := fun _ _ _ _ _ h => h
  block := by
    intro s p n s1 hP h
    obtain ⟨o, hcase⟩ := GSDumpXz.AppendRawData_drains lz fuel s s1 p n hP h
    obtain ⟨_, _, c1, c2⟩ := (GSDumpXz.counters_emits lz fuel).block s p n s1 trivial h
    refine ⟨o, ?_, c1, c2⟩
    rcases hcase with ⟨_, hd, _⟩ | ⟨_, hl, hb⟩
    · exact ⟨by omega, fun heq => by omega⟩
    · exact ⟨by rw [hl], fun _ => hb⟩
  byte := by
    intro s c s1 hP h
    simp only [GSDumpXz.vtable, GSDumpXz.AppendRawDataByte, pure, Except.pure,
      Except.ok.injEq] at h
    subst h
    exact ⟨hP, ⟨Nat.le_refl _, fun _ => rfl⟩, rfl, rfl⟩

theorem GSDumpXz.appendAll_bytes {κ : Type} (lz : LzmaLib κ) (fuel : Nat) (c : Byte)
    (n : Nat) :
    ∀ s : GSDumpXz κ,
      (GSDumpXz.vtable lz fuel).appendAll s (List.replicate n (RawAppend.byte c)) =
        .ok { s with derived := { s.derived with
          m_in_buff := s.derived.m_in_buff ++ List.replicate n c } } := by
  induction n with
  | zero =>
    intro s
    simp [VTable.appendAll, pure, Except.pure]
  | succ n ih =>
    intro s
    simp only [List.replicate_succ, VTable.appendAll, VTable.append, GSDumpXz.vtable,
      GSDumpXz.AppendRawDataByte, bind, Except.bind, pure, Except.pure]
    have := ih { s with derived := { s.derived with
      m_in_buff := s.derived.m_in_buff ++ [c] } }
    simp only [GSDumpXz.vtable] at this
    rw [this]
    simp

/-- C12, as stated, fails: on a compressing writer with an open sink, after the header,
`IN_BUFF_LIMIT + 2` single-byte appends (more raw bytes than the 1 GiB mark) all return without
any non-final drain, and leave more than `IN_BUFF_LIMIT + 1` bytes (the mark plus the size of one
append) in the buffer. -/
theorem single_byte_appends_never_drain :
    ∃ x0 x1 : GSDumpXz Unit,
      GSDumpXz.ctor nullLz 1 2 (some 100) 1 ⟨1, constMem 5⟩ (constMem 6) = .ok x0 ∧
      (GSDumpXz.vtable nullLz 1).appendAll x0
        (List.replicate (IN_BUFF_LIMIT + 2) (RawAppend.byte 0)) = .ok x1 ∧
      x1.m_gs.isSome = true ∧
      IN_BUFF_LIMIT <
        (rawBytes (List.replicate (IN_BUFF_LIMIT + 2) (RawAppend.byte 0))).length ∧
      countDrains x1.derived.log = 0 ∧
      IN_BUFF_LIMIT + 1 < x1.derived.m_in_buff.length := by
  refine ⟨_, _, rfl, GSDumpXz.appendAll_bytes nullLz 1 0 (IN_BUFF_LIMIT + 2) _, rfl, ?_, rfl, ?_⟩
  · rw [rawBytes_replicate_byte, List.length_replicate]
    omega
  · simp only [List.length_append, List.length_replicate]
    omega

/-- C12 (amended): on a compressing writer with an open sink, for every sequence of append calls
(bulk and single-byte) that returns: if the bytes already buffered plus the raw bytes appended up
to and including some bulk append exceed the 1 GiB high-water mark, at least one non-final drain
has been performed; the buffer holds at most the high-water mark whenever a bulk append returns;
and a single-byte append adds its byte to the buffer without any check or drain. -/
theorem bulk_append_drains_at_high_water {κ : Type} (lz : LzmaLib κ) (fuel : Nat) :
    (∀ (s s1 : GSDumpXz κ) (pre post : List RawAppend) (p : Ptr) (n : Nat),
      s.m_gs.isSome = true →
      IN_BUFF_LIMIT < s.derived.m_in_buff.length + (rawBytes pre).length + n →
      (GSDumpXz.vtable lz fuel).appendAll s (pre ++ RawAppend.block p n :: post) = .ok s1 →
      countDrains s.derived.log < countDrains s1.derived.log) ∧
    (∀ (s s1 : GSDumpXz κ) (pre : List RawAppend) (p : Ptr) (n : Nat),
      (GSDumpXz.vtable lz fuel).appendAll s (pre ++ [RawAppend.block p n]) = .ok s1 →
      s1.derived.m_in_buff.length ≤ IN_BUFF_LIMIT) ∧
    (∀ (s : GSDumpXz κ) (c : Byte),
      (GSDumpXz.vtable lz fuel).append s (RawAppend.byte c) =
        .ok { s with derived := { s.derived with
          m_in_buff := s.derived.m_in_buff ++ [c] } }) ∧
    IN_BUFF_LIMIT = 2 ^ 30 := by
  refine ⟨?_, ?_, fun s c => rfl, IN_BUFF_LIMIT_eq⟩
  · intro s s1 pre post p n hopen hover h
    have hsplit : pre ++ RawAppend.block p n :: post = (pre ++ [RawAppend.block p n]) ++ post := by
      simp
    rw [hsplit, appendAll_append] at h
    obtain ⟨a, ha, h⟩ := (bind_ok_iff _ _ _).1 h
    obtain ⟨oa, ⟨la, ba⟩, _, _⟩ :=
      appendAll_emits (GSDumpXz.drains_emits lz fuel) _ s a hopen ha
    obtain ⟨_, ⟨lb, _⟩, _, _⟩ :=
      appendAll_emits (GSDumpXz.drains_emits lz fuel) _ a s1 oa h
    have hbound : a.derived.m_in_buff.length ≤ IN_BUFF_LIMIT := by
      rw [appendAll_append] at ha
      obtain ⟨b, _, hb⟩ := (bind_ok_iff _ _ _).1 ha
      simp only [VTable.appendAll, VTable.append, GSDumpXz.vtable, bind, Except.bind] at hb
      cases hc : GSDumpXz.AppendRawData lz fuel b p n with
      | error x => simp [hc] at hb
      | ok c =>
        simp only [hc, pure, Except.pure, Except.ok.injEq] at hb
        subst hb
        exact GSDumpXz.AppendRawData_bound lz fuel b c p n hc
    by_contra hnot
    have heq : countDrains a.derived.log = countDrains s.derived.log := by omega
    have hlen := congrArg List.length (ba heq)
    simp only [List.length_append, rawBytes_append, rawBytes, RawAppend.bytes,
      readBytes_length, List.length_nil, Nat.add_zero, List.append_nil] at hlen
    omega
  · intro s s1 pre p n h
    rw [appendAll_append] at h
    obtain ⟨b, _, hb⟩ := (bind_ok_iff _ _ _).1 h
    simp only [VTable.appendAll, VTable.append, GSDumpXz.vtable, bind, Except.bind] at hb
    cases hc : GSDumpXz.AppendRawData lz fuel b p n with
    | error x => simp [hc] at hb
    | ok c =>
      simp only [hc, pure, Except.pure, Except.ok.injEq] at hb
      subst hb
      exact GSDumpXz.AppendRawData_bound lz fuel b c p n hc

theorem appendAll_returns {δ : Type} {vt : VTable δ} {P : GSDumpBase δ → Prop}
    (T : Returns vt P) (ops : List RawAppend) :
    ∀ s : GSDumpBase δ, P s → ∃ s1, vt.appendAll s ops = .ok s1 ∧ P s1 := by
  induction ops with
  | nil => intro s hP; exact ⟨s, rfl, hP⟩
  | cons a as ih =>
    intro s hP
    have hstep : ∃ b, vt.append s a = .ok b ∧ P b := by
      cases a with
      | block p n => exact T.block s p n hP
      | byte c => exact T.byte s c hP
    obtain ⟨b, hb, pb⟩ := hstep
    obtain ⟨c, hc, pc⟩ := ih b pb
    exact ⟨c, by simp [VTable.appendAll, bind, Except.bind, hb, hc], pc⟩

/-- C12 (amended) at a concrete sequence: one byte, a bulk append of `IN_BUFF_LIMIT + 1` bytes,
one more byte, on a writer with an open sink and an empty buffer. -/
theorem bulk_append_drains_at_high_water_witness :
    ((some ⟨[], 100⟩ : Option FILE).isSome = true ∧
      IN_BUFF_LIMIT < ([] : List Byte).length + (rawBytes [RawAppend.byte 1]).length +
        (IN_BUFF_LIMIT + 1)) ∧
    ∃ s1, (GSDumpXz.vtable nullLz 1).appendAll
        ({ m_frames := 0, m_extra_frames := 2, m_gs := some ⟨[], 100⟩,
           derived := { m_in_buff := [],
                        m_strm := { next_in := [], avail_out := 0, internal := () },
                        log := [LzmaEvent.easy_encoder lzma_ret.LZMA_OK] },
           diag := [] } : GSDumpXz Unit)
        ([RawAppend.byte 1] ++ RawAppend.block (constMem 0) (IN_BUFF_LIMIT + 1) ::
          [RawAppend.byte 2]) = .ok s1 ∧
      countDrains [LzmaEvent.easy_encoder lzma_ret.LZMA_OK] < countDrains s1.derived.log := by
  have hover : IN_BUFF_LIMIT < ([] : List Byte).length + (rawBytes [RawAppend.byte 1]).length +
      (IN_BUFF_LIMIT + 1) := by
    simp only [rawBytes, RawAppend.bytes, List.length_nil, List.append_nil,
      List.length_singleton]
    omega
  refine ⟨⟨rfl, hover⟩, ?_⟩
  obtain ⟨s1, h, _⟩ := appendAll_returns (nullLz_returns 0)
    ([RawAppend.byte 1] ++ RawAppend.block (constMem 0) (IN_BUFF_LIMIT + 1) ::
      [RawAppend.byte 2])
    ({ m_frames := 0, m_extra_frames := 2, m_gs := some ⟨[], 100⟩,
       derived := { m_in_buff := [],
                    m_strm := { next_in := [], avail_out := 0, internal := () },
                    log := [LzmaEvent.easy_encoder lzma_ret.LZMA_OK] },
       diag := [] } : GSDumpXz Unit) trivial
  exact ⟨s1, h, (bulk_append_drains_at_high_water nullLz 1).1
    ({ m_frames := 0, m_extra_frames := 2, m_gs := some ⟨[], 100⟩,
       derived := { m_in_buff := [],
                    m_strm := { next_in := [], avail_out := 0, internal := () },
                    log := [LzmaEvent.easy_encoder lzma_ret.LZMA_OK] },
       diag := [] } : GSDumpXz Unit) s1 [RawAppend.byte 1] [RawAppend.byte 2] (constMem 0)
    (IN_BUFF_LIMIT + 1) rfl hover h⟩

/-- C15: for every buffer content `b` and every data block `d` of `size` bytes,
`AppendRawData(d, size)` first makes the buffer `b ++ d` and then calls `Flush(false)` on it if
and only if `length b + size > 2^30`; otherwise it returns with the buffer exactly `b ++ d` and
everything else unchanged.  `AppendRawData(byte)` always returns with the buffer `b ++ [byte]`
and everything else unchanged, whatever the buffer size, and never calls `Flush`. -/
theorem AppendRawData_high_water {κ : Type} (lz : LzmaLib κ) (fuel : Nat) (s : GSDumpXz κ)
    (p : Ptr) (size : Nat) (c : Byte) :
    GSDumpXz.AppendRawData lz fuel s p size =
      (if 2 ^ 30 < s.derived.m_in_buff.length + size then
        GSDumpXz.Flush lz fuel
          { s with derived := { s.derived with
              m_in_buff := s.derived.m_in_buff ++ readBytes p size } } false
      else
        .ok { s with derived := { s.derived with
              m_in_buff := s.derived.m_in_buff ++ readBytes p size } }) ∧
    (readBytes p size).length = size ∧
    (∀ s1, s.m_gs.isSome = true → GSDumpXz.AppendRawData lz fuel s p size = .ok s1 →
      (countDrains s1.derived.log = countDrains s.derived.log + 1 ↔
        2 ^ 30 < s.derived.m_in_buff.length + size) ∧
      (¬ 2 ^ 30 < s.derived.m_in_buff.length + size →
        s1.derived.log = s.derived.log)) ∧
    GSDumpXz.AppendRawDataByte s c =
      .ok { s with derived := { s.derived with m_in_buff := s.derived.m_in_buff ++ [c] } } := by
  refine ⟨?_, readBytes_length p size, ?_, rfl⟩
  · unfold GSDumpXz.AppendRawData
    simp only [List.length_append, readBytes_length, IN_BUFF_LIMIT_eq, gt_iff_lt]
    rfl
  · intro s1 hopen h
    obtain ⟨_, hcase⟩ := GSDumpXz.AppendRawData_drains lz fuel s s1 p size hopen h
    rw [IN_BUFF_LIMIT_eq] at hcase
    rcases hcase with ⟨hc, hd, _⟩ | ⟨hc, hl, _⟩
    · exact ⟨⟨fun _ => hc, fun _ => hd⟩, fun hn => absurd hc hn⟩
    · refine ⟨⟨fun hd => ?_, fun hx => absurd hx hc⟩, fun _ => hl⟩
      rw [hl] at hd
      omega

/-- C15 at a concrete call: a two-byte bulk append on a writer with an open sink and one
buffered byte returns without a drain, the buffer holding the three bytes. -/
theorem AppendRawData_high_water_witness :
    ∃ s1, GSDumpXz.AppendRawData nullLz 1
        ({ m_frames := 0, m_extra_frames := 2, m_gs := some ⟨[], 100⟩,
           derived := { m_in_buff := [9],
                        m_strm := { next_in := [], avail_out := 0, internal := () },
                        log := [LzmaEvent.easy_encoder lzma_ret.LZMA_OK] },
           diag := [] } : GSDumpXz Unit) (constMem 7) 2 = .ok s1 ∧
      s1.derived.m_in_buff = [9, 7, 7] ∧
      (countDrains s1.derived.log = countDrains [LzmaEvent.easy_encoder lzma_ret.LZMA_OK] + 1 ↔
        2 ^ 30 < ([9] : List Byte).length + 2) ∧
      (¬ 2 ^ 30 < ([9] : List Byte).length + 2 →
        s1.derived.log = [LzmaEvent.easy_encoder lzma_ret.LZMA_OK]) :=
  ⟨_, rfl, rfl, (AppendRawData_high_water nullLz 1
    ({ m_frames := 0, m_extra_frames := 2, m_gs := some ⟨[], 100⟩,
       derived := { m_in_buff := [9],
                    m_strm := { next_in := [], avail_out := 0, internal := () },
                    log := [LzmaEvent.easy_encoder lzma_ret.LZMA_OK] },
       diag := [] } : GSDumpXz Unit) (constMem 7) 2 0).2.2.1 _ rfl rfl⟩

/-! ## The buffer after `Flush` -/

theorem Flush_fed {κ : Type} (lz : LzmaLib κ) (fuel : Nat) (s s1 : GSDumpXz κ) (close : Bool)
    (h : GSDumpXz.Flush lz fuel s close = .ok s1) :
    s1.derived.m_in_buff = [] ∧
      fedBytes s1.derived.log =
        fedBytes s.derived.log ++ (if s.m_gs.isSome then s.derived.m_in_buff else []) := by
  cases hg : s.m_gs with
  | none =>
    obtain ⟨s2, h2, _, l2, _, _, b2, _, _⟩ := Flush_guard lz fuel s close (Or.inl hg)
    have hs : s1 = s2 := by
      have := h.symm.trans h2
      simpa using this
    rw [hs, b2, l2]
    simp
  | some f =>
    have hopen : GSDumpXz.Open s := by simp [GSDumpXz.Open, hg]
    obtain ⟨_, st, hb, _, _⟩ := Flush_keeps lz fuel s s1 close hopen h
    refine ⟨hb, ?_⟩
    have hst : GSDumpXz.stream s1 = fedBytes s1.derived.log := by
      simp [GSDumpXz.stream, hb]
    rw [← hst, st]
    simp [GSDumpXz.stream]

/-- C18: whenever `Flush` returns, for both values of `close` and whatever the encoder returned
(any `lzma_ret`), the buffer is empty; the bytes it offered to the encoder are exactly the bytes
that were buffered (none when the sink is absent); a `Flush` made right after offers nothing;
and after further appends on an open sink the next `Flush` offers exactly the bytes appended
since, so no buffered byte is offered by two different `Flush` calls. -/
theorem Flush_clears_buffer {κ : Type} (lz : LzmaLib κ) (fuel : Nat) (s s1 : GSDumpXz κ)
    (close : Bool) (h : GSDumpXz.Flush lz fuel s close = .ok s1) :
    s1.derived.m_in_buff = [] ∧
    fedBytes s1.derived.log =
      fedBytes s.derived.log ++ (if s.m_gs.isSome then s.derived.m_in_buff else []) ∧
    (∀ (close2 : Bool) (fuel2 : Nat), GSDumpXz.Flush lz fuel2 s1 close2 = .ok s1) ∧
    (∀ (ops : List RawAppend) (s2 s3 : GSDumpXz κ) (close2 : Bool), s1.m_gs.isSome = true →
      (GSDumpXz.vtable lz fuel).appendAll s1 ops = .ok s2 →
      GSDumpXz.Flush lz fuel s2 close2 = .ok s3 →
      fedBytes s3.derived.log = fedBytes s1.derived.log ++ rawBytes ops) := by
  obtain ⟨hb, hfed⟩ := Flush_fed lz fuel s s1 close h
  refine ⟨hb, hfed, fun close2 fuel2 => Flush_empty lz fuel2 s1 close2 hb, ?_⟩
  intro ops s2 s3 close2 hopen h2 h3
  obtain ⟨o2, b2, _, _⟩ := appendAll_emits (GSDumpXz.buffered_emits lz fuel) ops s1 s2 hopen h2
  obtain ⟨_, hfed3⟩ := Flush_fed lz fuel s2 s3 close2 h3
  have ho2 : s2.m_gs.isSome = true := o2
  rw [hfed3, ho2]
  have hb2 : GSDumpXz.stream s2 = GSDumpXz.stream s1 ++ rawBytes ops := b2
  simp only [GSDumpXz.stream, hb, List.append_nil] at hb2
  simpa using hb2

/-- C18 at a concrete state: `Flush(false)` on a writer with an open sink and three buffered
bytes returns with the buffer empty, having offered those three bytes. -/
theorem Flush_clears_buffer_witness :
    ∃ s1, GSDumpXz.Flush nullLz 1
        ({ m_frames := 0, m_extra_frames := 2, m_gs := some ⟨[], 100⟩,
           derived := { m_in_buff := [1, 2, 3],
                        m_strm := { next_in := [], avail_out := 0, internal := () },
                        log := [LzmaEvent.easy_encoder lzma_ret.LZMA_OK] },
           diag := [] } : GSDumpXz Unit) false = .ok s1 ∧
      s1.derived.m_in_buff = [] ∧
      fedBytes s1.derived.log =
        fedBytes [LzmaEvent.easy_encoder lzma_ret.LZMA_OK] ++
          (if (some ⟨[], 100⟩ : Option FILE).isSome then [1, 2, 3] else []) := by
  refine ⟨_, rfl, ?_⟩
  have key := Flush_clears_buffer nullLz 1
    ({ m_frames := 0, m_extra_frames := 2, m_gs := some ⟨[], 100⟩,
       derived := { m_in_buff := [1, 2, 3],
                    m_strm := { next_in := [], avail_out := 0, internal := () },
                    log := [LzmaEvent.easy_encoder lzma_ret.LZMA_OK] },
       diag := [] } : GSDumpXz Unit) _ false rfl
  exact ⟨key.1, key.2.1⟩

/-! ## A sink that failed to open -/

theorem GSDumpXz.AppendRawData_no_sink {κ : Type} (lz : LzmaLib κ) (fuel : Nat)
    (s : GSDumpXz κ) (p : Ptr) (n : Nat) (hs : s.m_gs = none) :
    ∃ s1, GSDumpXz.AppendRawData lz fuel s p n = .ok s1 ∧ s1.m_gs = none ∧
      s1.derived.log = s.derived.log ∧
      s1.m_frames = s.m_frames ∧ s1.m_extra_frames = s.m_extra_frames := by
  unfold GSDumpXz.AppendRawData
  simp only
  split
  · obtain ⟨s1, h1, g1, l1, _, _, _, f1, e1⟩ := Flush_guard lz fuel
      { s with derived := { s.derived with
          m_in_buff := s.derived.m_in_buff ++ readBytes p n } } false (Or.inl hs)
    exact ⟨s1, h1, g1.trans hs, l1, f1, e1⟩
  · exact ⟨_, rfl, hs, rfl, rfl, rfl⟩

theorem GSDumpXz.no_sink_returns {κ : Type} (lz : LzmaLib κ) (fuel : Nat) :
    Returns (GSDumpXz.vtable lz fuel) (fun s => s.m_gs = none) where
  block := by
    intro s p n hP
    obtain ⟨s1, h1, g1, _⟩ := GSDumpXz.AppendRawData_no_sink lz fuel s p n hP
    exact ⟨s1, h1, g1⟩
  byte := by
    intro s c hP
    exact ⟨_, rfl, hP⟩
  bumpP := fun _ _ _ h => h

theorem GSDumpXz.no_sink_emits {κ : Type} (lz : LzmaLib κ) (fuel : Nat) :
    Emits (GSDumpXz.vtable lz fuel) (fun s => s.m_gs = none)
      (fun s _ s1 => s1.derived.log = s.derived.log) where
  nil := fun _ _ => rfl
  trans := fun _ _ _ _ _ h1 h2 => h2.trans h1
  bumpP := fun _ _ _ h => h
  bumpR := fun _ _ _ _ _ h => h
  block := by
    intro s p n s1 hP h
    obtain ⟨s2, h2, g2, l2, f2, e2⟩ := GSDumpXz.AppendRawData_no_sink lz fuel s p n hP
    have hs : s1 = s2 := by
      have := h.symm.trans h2
      simpa using this
    rw [hs]
    exact ⟨g2, l2, f2, e2⟩
  byte := by
    intro s c s1 hP h
    simp only [GSDumpXz.vtable, GSDumpXz.AppendRawDataByte, pure, Except.pure,
      Except.ok.injEq] at h
    subst h
    exact ⟨hP, rfl, rfl, rfl⟩

theorem GSDumpXz.no_sink_session {κ : Type} (lz : LzmaLib κ) (fuel regSize crc : Nat)
    (fd : GSFreezeData) (regs : Ptr) (evs : List Event) :
    ∃ x2, GSDumpXz.session lz fuel regSize none crc fd regs evs = .ok x2 ∧
      x2.m_gs = none ∧ countCode x2.derived.log = 0 ∧ x2.derived.m_in_buff = [] := by
  have hctor : ∃ x, GSDumpXz.ctor lz fuel regSize none crc fd regs = .ok x ∧ x.m_gs = none ∧
      countCode x.derived.log = 0 := by
    unfold GSDumpXz.ctor
    simp only
    split
    · exact ⟨_, rfl, rfl, rfl⟩
    · obtain ⟨x, hx, px⟩ := AddHeader_returns (GSDumpXz.no_sink_returns lz fuel) regSize
        (GSDumpBase.ctor none
          { m_in_buff := []
            m_strm := { next_in := [], avail_out := 0,
                        internal := (lz.lzma_easy_encoder lz.LZMA_STREAM_INIT 6).1 }
            log := [LzmaEvent.easy_encoder (lz.lzma_easy_encoder lz.LZMA_STREAM_INIT 6).2] })
        crc fd regs rfl
      obtain ⟨_, lx, _, _⟩ := AddHeader_emits (GSDumpXz.no_sink_emits lz fuel) regSize _ x crc
        fd regs rfl hx
      exact ⟨x, hx, px, by rw [lx]; rfl⟩
  obtain ⟨x, hx, gx, cx⟩ := hctor
  obtain ⟨x1, hx1, g1⟩ := run_returns (GSDumpXz.no_sink_returns lz fuel) regSize evs x gx
  obtain ⟨_, l1, _, _⟩ := run_emits (GSDumpXz.no_sink_emits lz fuel) regSize evs x x1 gx hx1
  obtain ⟨x2, hx2, g2, l2, _, _, b2, _, _⟩ := Flush_guard lz fuel x1 true (Or.inl g1)
  refine ⟨x2, ?_, g2.trans g1, by rw [l2, l1]; exact cx, b2⟩
  simp only [GSDumpXz.session, hx, hx1, GSDumpXz.dtor, hx2, bind, Except.bind]

/-- C13 on the code: a direct writer whose `fopen` failed faults in its constructor, at the first
`AppendRawData(&crc, 4)`, and each of its two appends passes the null `FILE*` to
`fwrite`/`fputc`; the compressing writer in the same situation runs every session to its end
without touching a sink or calling the encoder. -/
theorem direct_writer_faults_on_null_sink :
    GSDump.ctor 2 none 1 ⟨1, constMem 5⟩ (constMem 6) = .error Fault.nullFile ∧
    GSDump.AppendRawData (GSDumpBase.ctor none ()) (constMem 7) 4 = .error Fault.nullFile ∧
    GSDump.AppendRawDataByte (GSDumpBase.ctor none ()) 7 = .error Fault.nullFile ∧
    (∀ (κ : Type) (lz : LzmaLib κ) (fuel regSize crc : Nat) (fd : GSFreezeData) (regs : Ptr)
      (evs : List Event),
      ∃ x2, GSDumpXz.session lz fuel regSize none crc fd regs evs = .ok x2 ∧
        x2.m_gs = none ∧ countCode x2.derived.log = 0 ∧ x2.derived.m_in_buff = []) :=
  ⟨rfl, rfl, rfl, fun _ lz fuel regSize crc fd regs evs =>
    GSDumpXz.no_sink_session lz fuel regSize crc fd regs evs⟩

/-! ## An encoder that failed to initialise -/

/-- C14, as stated, fails: with an encoder whose initialisation fails, a compressing writer with
an open sink that receives one `ReadFIFO(3)` calls `lzma_code` on the uninitialised context in
its destructor (and then `lzma_end`). -/
theorem failed_init_still_calls_encoder :
    (failLz.lzma_easy_encoder failLz.LZMA_STREAM_INIT 6).2 ≠ lzma_ret.LZMA_OK ∧
    ∃ x2, GSDumpXz.session failLz 1 2 (some 100) 1 ⟨1, constMem 5⟩ (constMem 6)
        [.readFIFO 3] = .ok x2 ∧
      x2.derived.log =
        [LzmaEvent.easy_encoder (lzma_ret.other 5),
         LzmaEvent.feed lzma_action.LZMA_FINISH [2, 3, 0, 0, 0],
         LzmaEvent.code lzma_action.LZMA_FINISH (lzma_ret.other 11) [],
         LzmaEvent.lzma_end] ∧
      countCode x2.derived.log = 1 :=
  ⟨by decide, _, rfl, by decide, by decide⟩

theorem dead_flushLoop {κ : Type} (lz : LzmaLib κ) (Dead : κ → Prop)
    (hdead : ∀ k i a n, Dead k →
      (lz.lzma_code k i a n).produced = [] ∧ Dead (lz.lzma_code k i a n).internal)
    (action : lzma_action) (fuel : Nat) (s : GSDumpXz κ) (f : FILE)
    (hf : s.m_gs = some f) (hd : Dead s.derived.m_strm.internal) :
    ∃ a, GSDumpXz.flushLoop lz action (fuel + 1) s = .ok a ∧ a.m_gs = some f ∧
      Dead a.derived.m_strm.internal ∧
      a.m_frames = s.m_frames ∧ a.m_extra_frames = s.m_extra_frames := by
  obtain ⟨a, ha, ga, _, ma, fa, ea⟩ := flushBody_open lz action s f hf
  obtain ⟨hp, hi⟩ := hdead s.derived.m_strm.internal s.derived.m_strm.next_in action
    OUT_BUFF_SIZE hd
  have hne : ¬ a.derived.m_strm.avail_out = 0 := by
    rw [ma]
    simp only [hp, List.length_nil, Nat.sub_zero]
    exact OUT_BUFF_SIZE_pos
  refine ⟨a, ?_, ?_, ?_, fa, ea⟩
  · rw [flushLoop_succ, ha]
    simp only [bind, Except.bind, hne, if_false, pure, Except.pure]
  · rw [ga, hp, FILE.put_nil]
  · rw [ma]; exact hi

theorem dead_Flush {κ : Type} (lz : LzmaLib κ) (Dead : κ → Prop)
    (hdead : ∀ k i a n, Dead k →
      (lz.lzma_code k i a n).produced = [] ∧ Dead (lz.lzma_code k i a n).internal)
    (fuel : Nat) (s : GSDumpXz κ) (close : Bool) (hd : Dead s.derived.m_strm.internal) :
    ∃ s1, GSDumpXz.Flush lz (fuel + 1) s close = .ok s1 ∧ s1.m_gs = s.m_gs ∧
      (close = false → Dead s1.derived.m_strm.internal) ∧
      s1.m_frames = s.m_frames ∧ s1.m_extra_frames = s.m_extra_frames := by
  by_cases hg : s.m_gs = none ∨ s.derived.m_in_buff = []
  · obtain ⟨s1, h1, g1, _, m1, _, _, f1, e1⟩ := Flush_guard lz (fuel + 1) s close hg
    exact ⟨s1, h1, g1, fun _ => by rw [m1]; exact hd, f1, e1⟩
  · have hg2 : ¬ (s.m_gs.isNone = true ∨ s.derived.m_in_buff.isEmpty = true) := by
      intro h
      apply hg
      rcases h with h | h
      · left; simpa [Option.isNone_iff_eq_none] using h
      · right; simpa using h
    cases hs : s.m_gs with
    | none => exact absurd (Or.inl hs) hg
    | some f =>
      obtain ⟨a, ha, ga, da, fa, ea⟩ := dead_flushLoop lz Dead hdead
        (if close then lzma_action.LZMA_FINISH else lzma_action.LZMA_RUN) fuel
        { s with derived := { s.derived with
            m_strm := { s.derived.m_strm with next_in := s.derived.m_in_buff }
            log := s.derived.log ++ [LzmaEvent.feed (if close then lzma_action.LZMA_FINISH
              else lzma_action.LZMA_RUN) s.derived.m_in_buff] } } f hs hd
      unfold GSDumpXz.Flush
      rw [if_neg hg2]
      cases close with
      | false =>
        refine ⟨{ a with derived := { a.derived with m_in_buff := [] } }, ?_, ga, fun _ => da,
          fa, ea⟩
        exact (bind_ok_iff _ _ _).2 ⟨a, ha, rfl⟩
      | true =>
        exact ⟨_, (bind_ok_iff _ _ _).2 ⟨a, ha, rfl⟩, ga, fun h => Bool.noConfusion h, fa, ea⟩

theorem dead_AppendRawData {κ : Type} (lz : LzmaLib κ) (Dead : κ → Prop)
    (hdead : ∀ k i a n, Dead k →
      (lz.lzma_code k i a n).produced = [] ∧ Dead (lz.lzma_code k i a n).internal)
    (fuel : Nat) (s : GSDumpXz κ) (p : Ptr) (n : Nat) (hd : Dead s.derived.m_strm.internal) :
    ∃ s1, GSDumpXz.AppendRawData lz (fuel + 1) s p n = .ok s1 ∧
      Dead s1.derived.m_strm.internal ∧ s1.m_gs = s.m_gs ∧
      s1.m_frames = s.m_frames ∧ s1.m_extra_frames = s.m_extra_frames := by
  unfold GSDumpXz.AppendRawData
  simp only
  split
  · obtain ⟨s1, h1, g1, d1, f1, e1⟩ := dead_Flush lz Dead hdead fuel
      { s with derived := { s.derived with
          m_in_buff := s.derived.m_in_buff ++ readBytes p n } } false hd
    exact ⟨s1, h1, d1 rfl, g1, f1, e1⟩
  · exact ⟨_, rfl, hd, rfl, rfl, rfl⟩

theorem dead_returns {κ : Type} (lz : LzmaLib κ) (Dead : κ → Prop)
    (hdead : ∀ k i a n, Dead k →
      (lz.lzma_code k i a n).produced = [] ∧ Dead (lz.lzma_code k i a n).internal)
    (fuel : Nat) :
    Returns (GSDumpXz.vtable lz (fuel + 1)) (fun s => Dead s.derived.m_strm.internal) where
  block := by
    intro s p n hP
    obtain ⟨s1, h1, d1, _⟩ := dead_AppendRawData lz Dead hdead fuel s p n hP
    exact ⟨s1, h1, d1⟩
  byte := by
    intro s c hP
    exact ⟨_, rfl, hP⟩
  bumpP := fun _ _ _ h => h

theorem dead_emits {κ : Type} (lz : LzmaLib κ) (Dead : κ → Prop)
    (hdead : ∀ k i a n, Dead k →
      (lz.lzma_code k i a n).produced = [] ∧ Dead (lz.lzma_code k i a n).internal)
    (fuel : Nat) :
    Emits (GSDumpXz.vtable lz (fuel + 1)) (fun s => Dead s.derived.m_strm.internal)
      (fun s _ s1 => s1.m_gs = s.m_gs) where
  nil := fun _ _ => rfl
  trans := fun _ _ _ _ _ h1 h2 => h2.trans h1
  bumpP := fun _ _ _ h => h
  bumpR := fun _ _ _ _ _ h => h
  block := by
    intro s p n s1 hP h
    obtain ⟨s2, h2, d2, g2, f2, e2⟩ := dead_AppendRawData lz Dead hdead fuel s p n hP
    have hs : s1 = s2 := by
      have := h.symm.trans h2
      simpa using this
    rw [hs]
    exact ⟨d2, g2, f2, e2⟩
  byte := by
    intro s c s1 hP h
    simp only [GSDumpXz.vtable, GSDumpXz.AppendRawDataByte, pure, Except.pure,
      Except.ok.injEq] at h
    subst h
    exact ⟨hP, rfl, rfl, rfl⟩

/-- C14 (amended): if `lzma_easy_encoder` fails in the constructor, the constructor reports the
failure and appends no header; and provided `lzma_code`, run on the failed context, stores no
output (and leaves the context failed), every subsequent sequence of `Transfer`, `ReadFIFO` and
`VSync` calls and the destructor return normally and no byte is ever written to the sink.  The
encoder is nevertheless called: every `Flush` that finds the sink open and the buffer non-empty
calls `lzma_code`, whatever the outcome of the initialisation was. -/
theorem failed_init_writes_nothing {κ : Type} (lz : LzmaLib κ) (Dead : κ → Prop)
    (hfail : (lz.lzma_easy_encoder lz.LZMA_STREAM_INIT 6).2 ≠ lzma_ret.LZMA_OK)
    (hdead0 : Dead (lz.lzma_easy_encoder lz.LZMA_STREAM_INIT 6).1)
    (hdead : ∀ k i a n, Dead k →
      (lz.lzma_code k i a n).produced = [] ∧ Dead (lz.lzma_code k i a n).internal)
    (fuel regSize : Nat) (outcome : Option Nat) (crc : Nat) (fd : GSFreezeData) (regs : Ptr)
    (evs : List Event) :
    (∃ x0 x1 x2,
      GSDumpXz.ctor lz (fuel + 1) regSize outcome crc fd regs = .ok x0 ∧
      x0.derived.m_in_buff = [] ∧
      x0.diag = [Diag.xzInitFailed (lz.lzma_easy_encoder lz.LZMA_STREAM_INIT 6).2.toNat] ∧
      GSDumpBase.run (GSDumpXz.vtable lz (fuel + 1)) regSize x0 evs = .ok x1 ∧
      GSDumpXz.dtor lz (fuel + 1) x1 = .ok x2 ∧
      x0.m_gs = fopen outcome ∧ x1.m_gs = fopen outcome ∧ x2.m_gs = fopen outcome) ∧
    (∀ (s s1 : GSDumpXz κ) (f : FILE) (close : Bool) (fuel2 : Nat),
      s.m_gs = some f → s.derived.m_in_buff ≠ [] →
      GSDumpXz.Flush lz fuel2 s close = .ok s1 →
      countCode s.derived.log < countCode s1.derived.log) := by
  constructor
  · have hctor : GSDumpXz.ctor lz (fuel + 1) regSize outcome crc fd regs =
        .ok { (GSDumpBase.ctor outcome
          { m_in_buff := []
            m_strm := { next_in := [], avail_out := 0,
                        internal := (lz.lzma_easy_encoder lz.LZMA_STREAM_INIT 6).1 }
            log := [LzmaEvent.easy_encoder (lz.lzma_easy_encoder lz.LZMA_STREAM_INIT 6).2] } :
            GSDumpXz κ) with
          diag := [Diag.xzInitFailed (lz.lzma_easy_encoder lz.LZMA_STREAM_INIT 6).2.toNat] } := by
      unfold GSDumpXz.ctor
      simp only [hfail, ne_eq, not_false_eq_true, if_true]
      rfl
    have key : ∃ x0, GSDumpXz.ctor lz (fuel + 1) regSize outcome crc fd regs = .ok x0 ∧
        x0.derived.m_in_buff = [] ∧
        x0.diag = [Diag.xzInitFailed (lz.lzma_easy_encoder lz.LZMA_STREAM_INIT 6).2.toNat] ∧
        x0.m_gs = fopen outcome ∧ Dead x0.derived.m_strm.internal :=
      ⟨_, hctor, rfl, rfl, rfl, hdead0⟩
    obtain ⟨x0, hx0, b0, dg0, g0, d0⟩ := key
    obtain ⟨x1, hx1, d1⟩ := run_returns (dead_returns lz Dead hdead fuel) regSize evs x0 d0
    obtain ⟨_, g1, _, _⟩ := run_emits (dead_emits lz Dead hdead fuel) regSize evs x0 x1 d0 hx1
    obtain ⟨x2, hx2, g2, _⟩ := dead_Flush lz Dead hdead fuel x1 true d1
    exact ⟨x0, x1, x2, hx0, b0, dg0, hx1, hx2, g0, g1.trans g0, (g2.trans g1).trans g0⟩
  · intro s s1 f close fuel2 hf hb h
    exact (Flush_open_counts lz fuel2 s s1 f close hf hb h).2.1

/-- C14 (amended) at a concrete session: the five sample calls on a writer with an open sink
whose encoder fails to initialise and rejects every call: the session runs to its end and the
sink stays empty. -/
theorem failed_init_writes_nothing_witness :
    ((failLz.lzma_easy_encoder failLz.LZMA_STREAM_INIT 6).2 ≠ lzma_ret.LZMA_OK ∧
      ∀ (k : Unit) (i : List Byte) (a : lzma_action) (n : Nat), True →
        (failLz.lzma_code k i a n).produced = [] ∧ True) ∧
    ∃ x0 x1 x2,
      GSDumpXz.ctor failLz (0 + 1) 2 (some 100) 1 ⟨1, constMem 5⟩ (constMem 6) = .ok x0 ∧
      x0.derived.m_in_buff = [] ∧
      x0.diag = [Diag.xzInitFailed
        (failLz.lzma_easy_encoder failLz.LZMA_STREAM_INIT 6).2.toNat] ∧
      GSDumpBase.run (GSDumpXz.vtable failLz (0 + 1)) 2 x0 sampleCalls = .ok x1 ∧
      GSDumpXz.dtor failLz (0 + 1) x1 = .ok x2 ∧
      x0.m_gs = fopen (some 100) ∧ x1.m_gs = fopen (some 100) ∧ x2.m_gs = fopen (some 100) :=
  ⟨⟨by decide, fun _ _ _ _ _ => ⟨rfl, trivial⟩⟩,
    (failed_init_writes_nothing failLz (fun _ => True) (by decide) trivial
      (fun _ _ _ _ _ => ⟨rfl, trivial⟩) 0 2 (some 100) 1 ⟨1, constMem 5⟩ (constMem 6)
      sampleCalls).1⟩

/-! ## The compressed file -/

theorem quiet_flushLoop {κ : Type} (lz : LzmaLib κ)
    (hq : ∀ k i n, (lz.lzma_code k i lzma_action.LZMA_RUN n).produced = [])
    (fuel : Nat) (s : GSDumpXz κ) (f : FILE) (hf : s.m_gs = some f) :
    ∃ a, GSDumpXz.flushLoop lz lzma_action.LZMA_RUN (fuel + 1) s = .ok a ∧ a.m_gs = some f := by
  obtain ⟨a, ha, ga, _, ma, _, _⟩ := flushBody_open lz lzma_action.LZMA_RUN s f hf
  have hp := hq s.derived.m_strm.internal s.derived.m_strm.next_in OUT_BUFF_SIZE
  have hne : ¬ a.derived.m_strm.avail_out = 0 := by
    rw [ma]
    simp only [hp, List.length_nil, Nat.sub_zero]
    exact OUT_BUFF_SIZE_pos
  refine ⟨a, ?_, ?_⟩
  · rw [flushLoop_succ, ha]
    simp only [bind, Except.bind, hne, if_false, pure, Except.pure]
  · rw [ga, hp, FILE.put_nil]

theorem quiet_Flush {κ : Type} (lz : LzmaLib κ)
    (hq : ∀ k i n, (lz.lzma_code k i lzma_action.LZMA_RUN n).produced = [])
    (fuel : Nat) (s : GSDumpXz κ) :
    ∃ s1, GSDumpXz.Flush lz (fuel + 1) s false = .ok s1 ∧ s1.m_gs = s.m_gs := by
  by_cases hg : s.m_gs = none ∨ s.derived.m_in_buff = []
  · obtain ⟨s1, h1, g1, _⟩ := Flush_guard lz (fuel + 1) s false hg
    exact ⟨s1, h1, g1⟩
  · have hg2 : ¬ (s.m_gs.isNone = true ∨ s.derived.m_in_buff.isEmpty = true) := by
      intro h
      apply hg
      rcases h with h | h
      · left; simpa [Option.isNone_iff_eq_none] using h
      · right; simpa using h
    cases hs : s.m_gs with
    | none => exact absurd (Or.inl hs) hg
    | some f =>
      obtain ⟨a, ha, ga⟩ := quiet_flushLoop lz hq fuel
        { s with derived := { s.derived with
            m_strm := { s.derived.m_strm with next_in := s.derived.m_in_buff }
            log := s.derived.log ++ [LzmaEvent.feed lzma_action.LZMA_RUN
              s.derived.m_in_buff] } } f hs
      unfold GSDumpXz.Flush
      rw [if_neg hg2]
      exact ⟨{ a with derived := { a.derived with m_in_buff := [] } },
        (bind_ok_iff _ _ _).2 ⟨a, ha, rfl⟩, ga⟩

theorem quiet_AppendRawData {κ : Type} (lz : LzmaLib κ)
    (hq : ∀ k i n, (lz.lzma_code k i lzma_action.LZMA_RUN n).produced = [])
    (fuel : Nat) (s : GSDumpXz κ) (p : Ptr) (n : Nat) :
    ∃ s1, GSDumpXz.AppendRawData lz (fuel + 1) s p n = .ok s1 ∧ s1.m_gs = s.m_gs := by
  unfold GSDumpXz.AppendRawData
  simp only
  split
  · exact quiet_Flush lz hq fuel
      { s with derived := { s.derived with
          m_in_buff := s.derived.m_in_buff ++ readBytes p n } }
  · exact ⟨_, rfl, rfl⟩

theorem quiet_returns {κ : Type} (lz : LzmaLib κ)
    (hq : ∀ k i n, (lz.lzma_code k i lzma_action.LZMA_RUN n).produced = [])
    (fuel : Nat) :
    Returns (GSDumpXz.vtable lz (fuel + 1)) (fun _ => True) where
  block := by
    intro s p n _
    obtain ⟨s1, h1, _⟩ := quiet_AppendRawData lz hq fuel s p n
    exact ⟨s1, h1, trivial⟩
  byte := by
    intro s c _
    exact ⟨_, rfl, trivial⟩
  bumpP := fun _ _ _ _ => trivial

theorem quiet_emits {κ : Type} (lz : LzmaLib κ)
    (hq : ∀ k i n, (lz.lzma_code k i lzma_action.LZMA_RUN n).produced = [])
    (fuel : Nat) :
    Emits (GSDumpXz.vtable lz (fuel + 1)) (fun _ => True) (fun s _ s1 => s1.m_gs = s.m_gs) where
  nil := fun _ _ => rfl
  trans := fun _ _ _ _ _ h1 h2 => h2.trans h1
  bumpP := fun _ _ _ _ => trivial
  bumpR := fun _ _ _ _ _ h => h
  block := by
    intro s p n s1 _ h
    obtain ⟨s2, h2, g2⟩ := quiet_AppendRawData lz hq fuel s p n
    have hs : s1 = s2 := by
      have := h.symm.trans h2
      simpa using this
    obtain ⟨_, _, c1, c2⟩ := (GSDumpXz.counters_emits lz (fuel + 1)).block s p n s1 trivial h
    rw [hs] at c1 c2 ⊢
    exact ⟨trivial, g2, c1, c2⟩
  byte := by
    intro s c s1 _ h
    simp only [GSDumpXz.vtable, GSDumpXz.AppendRawDataByte, pure, Except.pure,
      Except.ok.injEq] at h
    subst h
    exact ⟨trivial, rfl, rfl, rfl⟩

theorem GSDumpXz.drained_session {κ : Type} (lz : LzmaLib κ)
    (hq : ∀ k i n, (lz.lzma_code k i lzma_action.LZMA_RUN n).produced = [])
    (hinit : (lz.lzma_easy_encoder lz.LZMA_STREAM_INIT 6).2 = lzma_ret.LZMA_OK)
    (fuel regSize room crc : Nat) (fd : GSFreezeData) (regs : Ptr) (evs : List Event)
    (index : Int) (mem : Ptr) (size : Nat) (hsize : IN_BUFF_LIMIT < size) :
    ∃ x2, GSDumpXz.session lz (fuel + 1) regSize (some room) crc fd regs
        (evs ++ [.transfer index mem size]) = .ok x2 ∧
      x2.m_gs = some { bytes := [], room := room } := by
  obtain ⟨x, hx, _⟩ := AddHeader_returns (quiet_returns lz hq fuel) regSize
    (GSDumpBase.ctor (some room)
      { m_in_buff := []
        m_strm := { next_in := [], avail_out := 0,
                    internal := (lz.lzma_easy_encoder lz.LZMA_STREAM_INIT 6).1 }
        log := [LzmaEvent.easy_encoder (lz.lzma_easy_encoder lz.LZMA_STREAM_INIT 6).2] })
    crc fd regs trivial
  obtain ⟨_, gx, _, _⟩ := AddHeader_emits (quiet_emits lz hq fuel) regSize _ x crc fd regs
    trivial hx
  have hc : GSDumpXz.ctor lz (fuel + 1) regSize (some room) crc fd regs = .ok x := by
    rw [← hx]
    unfold GSDumpXz.ctor
    simp only [hinit, ne_eq, not_true_eq_false, if_false]
  obtain ⟨x1, hx1, _⟩ := run_returns (quiet_returns lz hq fuel) regSize
    (evs ++ [.transfer index mem size]) x trivial
  obtain ⟨_, g1, _, _⟩ := run_emits (quiet_emits lz hq fuel) regSize _ x x1 trivial hx1
  have hb : x1.derived.m_in_buff = [] := by
    have hx1' := hx1
    rw [run_append] at hx1'
    obtain ⟨y, _, hy⟩ := (bind_ok_iff _ _ _).1 hx1'
    exact GSDumpXz.Transfer_drains lz (fuel + 1) y x1 index mem size hsize hy
  refine ⟨x1, ?_, ?_⟩
  · simp only [GSDumpXz.session, hc, hx1, GSDumpXz.dtor, Flush_empty lz (fuel + 1) x1 true hb,
      bind, Except.bind]
  · rw [g1, gx]
    rfl

theorem holdDecode_finished (bytes : List Byte) :
    holdDecode (bytes ++ [END_MARK]) = some bytes := by
  simp [holdDecode]

theorem holdDecode_nil : holdDecode [] = none := rfl

theorem frameOf_transfer_length (regSize : Nat) (index : Int) (mem : Ptr) (size : Nat)
    (h : size ≠ 0) : (frameOf regSize (.transfer index mem size)).length = size + 6 := by
  show (if size = 0 then [] else [0, toUint8 index] ++ le32 size ++ readBytes mem size).length
    = size + 6
  rw [if_neg h]
  simp only [List.length_append, List.length_cons, List.length_nil, le32_length,
    readBytes_length]
  omega

theorem drained_stream_length :
    (headerOf 2 1 ⟨1, constMem 5⟩ (constMem 6) ++
      framesOf 2 [.transfer 1 (constMem 7) (IN_BUFF_LIMIT + 1)]).length = IN_BUFF_LIMIT + 18 := by
  rw [List.length_append, headerOf_length, framesOf, framesOf, List.append_nil,
    frameOf_transfer_length 2 1 (constMem 7) (IN_BUFF_LIMIT + 1) (Nat.succ_ne_zero _)]
  show 8 + 1 + 2 + (IN_BUFF_LIMIT + 1 + 6) = IN_BUFF_LIMIT + 18
  omega

/-- C1 on the code: a compressing writer (stand-in encoder, sink open, encoder initialised) whose
only call after the header is a `Transfer` of `IN_BUFF_LIMIT + 1` bytes runs to the end of its
destructor, and so does the direct writer given the same calls. The direct writer's file is
exactly the bytes the compressing writer handed to the encoder, `IN_BUFF_LIMIT + 18` of them. But
the compressing writer made no `lzma_code(LZMA_FINISH)` call and no `lzma_end` call, because
`Flush(true)` returns early on the buffer the last append emptied: its file is empty, the decoder
rejects it, and decoding it does not give the direct writer's file. With the five sample calls
instead, where the buffer is not empty at teardown, the stream is finished once and ended once and
decoding the compressed file gives exactly the direct writer's file. -/
theorem xz_output_undecodable_after_drain :
    (holdLz.lzma_easy_encoder holdLz.LZMA_STREAM_INIT 6).2 = lzma_ret.LZMA_OK ∧
    (∃ x2 d1,
      GSDumpXz.session holdLz 1 2 (some (2 ^ 31)) 1 ⟨1, constMem 5⟩ (constMem 6)
        [.transfer 1 (constMem 7) (IN_BUFF_LIMIT + 1)] = .ok x2 ∧
      GSDump.session 2 (some (2 ^ 31)) 1 ⟨1, constMem 5⟩ (constMem 6)
        [.transfer 1 (constMem 7) (IN_BUFF_LIMIT + 1)] = .ok d1 ∧
      GSDumpBase.dtor d1 = some (fedBytes x2.derived.log) ∧
      (fedBytes x2.derived.log).length = IN_BUFF_LIMIT + 18 ∧
      countFinish x2.derived.log = 0 ∧ countEnd x2.derived.log = 0 ∧
      GSDumpBase.dtor x2 = some [] ∧
      GSDumpXz.decodedFile (.ok x2) = none ∧
      GSDumpXz.decodedFile (.ok x2) ≠ GSDump.fileOf (.ok d1)) ∧
    (∃ x2, GSDumpXz.session holdLz 1 2 (some (2 ^ 31)) 1 ⟨1, constMem 5⟩ (constMem 6)
        sampleCalls = .ok x2 ∧
      countFinish x2.derived.log = 1 ∧ countEnd x2.derived.log = 1) ∧
    GSDumpXz.decodedFile
        (GSDumpXz.session holdLz 1 2 (some (2 ^ 31)) 1 ⟨1, constMem 5⟩ (constMem 6)
          sampleCalls) =
      GSDump.fileOf (GSDump.session 2 (some (2 ^ 31)) 1 ⟨1, constMem 5⟩ (constMem 6)
        sampleCalls) := by
  have hq : ∀ (k : List Byte × Bool) (i : List Byte) (n : Nat),
      (holdLz.lzma_code k i lzma_action.LZMA_RUN n).produced = [] := fun _ _ _ => rfl
  refine ⟨rfl, ?_, ⟨_, rfl, by decide, by decide⟩, by decide⟩
  obtain ⟨x2, hx2, g2⟩ := GSDumpXz.drained_session holdLz hq rfl 0 2 (2 ^ 31) 1
    ⟨1, constMem 5⟩ (constMem 6) [] 1 (constMem 7) (IN_BUFF_LIMIT + 1) (Nat.lt_succ_self _)
  obtain ⟨d1, hd1, f1, _, _⟩ := GSDump.session_file 2 (2 ^ 31) 1 ⟨1, constMem 5⟩ (constMem 6)
    [.transfer 1 (constMem 7) (IN_BUFF_LIMIT + 1)]
  obtain ⟨hfed, _⟩ := GSDumpXz.session_fed holdLz 1 2 (2 ^ 31) 1 ⟨1, constMem 5⟩ (constMem 6)
    [.transfer 1 (constMem 7) (IN_BUFF_LIMIT + 1)] x2 rfl hx2
  obtain ⟨c1, c2⟩ := GSDumpXz.session_not_finalized holdLz 1 2 (some (2 ^ 31)) 1
    ⟨1, constMem 5⟩ (constMem 6) [] 1 (constMem 7) (IN_BUFF_LIMIT + 1) x2
    (Nat.lt_succ_self _) hx2
  have hlen : (headerOf 2 1 ⟨1, constMem 5⟩ (constMem 6) ++
      framesOf 2 [.transfer 1 (constMem 7) (IN_BUFF_LIMIT + 1)]).length ≤ 2 ^ 31 := by
    rw [drained_stream_length, IN_BUFF_LIMIT_eq]
    norm_num
  have hfile : GSDumpBase.dtor d1 = some (fedBytes x2.derived.log) := by
    rw [hfed]
    rw [List.take_of_length_le hlen] at f1
    exact f1
  have hx : GSDumpBase.dtor x2 = some [] := by
    simp only [GSDumpBase.dtor, g2, Option.map_some']
  have hdec : GSDumpXz.decodedFile (.ok x2) = none := by
    simp only [GSDumpXz.decodedFile, hx, Option.some_bind, holdDecode_nil]
  refine ⟨x2, d1, hx2, hd1, hfile, ?_, c1, c2, hx, hdec, ?_⟩
  · rw [hfed]
    exact drained_stream_length
  · rw [hdec]
    intro h
    have h2 : GSDump.fileOf (.ok d1) = some (fedBytes x2.derived.log) := hfile
    rw [h2] at h
    exact Option.noConfusion h

end GSdx
